import Mathlib

/-!
# Snitch cluster kernels: AXPY, K-Means, GEMM, DMA helpers, RedMulE HAL

A shallow embedding of the kernels under `sw/blas/axpy`, `sw/apps/kmeans` and
`sw/blas/gemm_v2`, of the DMA helpers of `sw/snRuntime/src/dma.h` and of the RedMulE HAL,
together with the properties proved about them.

Conventions of the embedding.

* A C `for` loop with `n` iterations is `forLoop n body`, the body being applied to the
  loop counter and the state.
* Machine integers are naturals and integers. Where a `uint32_t`, `size_t` or pointer
  computation of the source is defined to wrap it is reduced by `u32`; a conversion to `int`
  is `toInt32`. Sizes and indices of K-Means, which are bounded by the TCDM allocations, are
  plain naturals.
* The code of one core between two barriers is a function on memory. A barrier phase runs
  the cores one after the other; where the result depends on their order and no barrier
  fixes it (the update phase of K-Means), the order is a parameter.
* Doubles are elements of an arbitrary type with `*` and `+` (AXPY) or exact rationals
  (K-Means); `fp64` adds the infinities and NaN where a property depends on them.
* A DMA transfer is a record of the operands handed to the engine; `dma_2d_transfer.run` is
  the memory after the transfer has completed, on a byte-addressed memory.
-/

namespace Snitch

/-! ## Definitions -/

/-- Reduction of a natural to the range of `uint32_t` (also the width of `size_t` and of
pointers on the 32-bit Snitch cores). -/
def u32 (n : Nat) : Nat := n % 2 ^ 32

/-- Conversion of a `uint32_t` value to `int` (two's complement). -/
def toInt32 (n : Nat) : Int :=
  if n % 2 ^ 32 < 2 ^ 31 then ((n % 2 ^ 32 : Nat) : Int) else ((n % 2 ^ 32 : Nat) : Int) - 2 ^ 32

/-- A counted C loop `for (c = 0; c < n; c++) body`, as a state transformer. -/
def forLoop {σ : Type} (n : Nat) (body : Nat → σ → σ) (s : σ) : σ :=
  (List.range n).foldl (fun acc c => body c acc) s

/-- The job arguments `axpy_args_t` (`args.h`); the three addresses name the caller's
arrays `x`, `y`, `z`, which the embedding passes as separate arrays of doubles. -/
structure axpy_args_t (α : Type) where
  l : Nat
  a : α

/-- Size of a `double` in bytes. -/
def sizeof_double : Nat := 8

/-- The effect of `snrt_dma_start_1d(dst + dstOff, src + srcOff, size)` followed by
`snrt_dma_wait_all()` on an array of doubles: `size` bytes, that is `size / 8` elements,
are copied. Offsets count elements. -/
def snrt_dma_start_1d {α : Type} (dst : Nat → α) (dstOff : Nat) (src : Nat → α) (srcOff : Nat)
    (size : Nat) : Nat → α :=
  fun j => if dstOff ≤ j ∧ j < dstOff + size / sizeof_double then src (srcOff + (j - dstOff))
    else dst j

/-- The plain loop of `axpy` (`axpy.h`, the branch without `XSSR`), run by the compute
core `core_idx` of a cluster with `P` compute cores. `x`, `y`, `z` are element offsets of
the three operand buffers inside the cluster's TCDM `m`. `frac` and `offset` are `int`s in
the source; the loop body runs while `i < frac`. -/
def axpy {α : Type} [Mul α] [Add α] (P core_idx : Nat) (l : Nat) (a : α) (x y z : Nat)
    (m : Nat → α) : Nat → α :=
  let frac : Int := toInt32 (u32 l / u32 P)
  let offset : Int := toInt32 core_idx * frac
  forLoop frac.toNat
    (fun i m =>
      let off := (offset + (i : Int)).toNat
      Function.update m (z + off) (a * m (x + off) + m (y + off)))
    m

/-- The per-cluster slice length computed by `axpy_job`: `frac = l / snrt_cluster_num()`. -/
def axpy_job_frac (C l : Nat) : Nat := u32 (u32 l / u32 C)

/-- The per-cluster slice start computed by `axpy_job`: `offset = frac * snrt_cluster_idx()`. -/
def axpy_job_offset (C l k : Nat) : Nat := u32 (axpy_job_frac C l * k)

/-- The kernel `axpy_job` on cluster `k` of `C`, with `P` compute cores, phases in barrier
order: the DMA core copies the cluster's slices of `x` and `y` into the TCDM, the compute
cores run `axpy`, the DMA core copies `local_z` back to `z`. TCDM offsets count doubles
from `local_x`. Returns the caller's `z` and the cluster's TCDM. -/
def axpy_job {α : Type} [Mul α] [Add α] (C P k : Nat) (args : axpy_args_t α)
    (x y z : Nat → α) (tcdm : Nat → α) : (Nat → α) × (Nat → α) :=
  let frac := axpy_job_frac C args.l
  let offset := axpy_job_offset C args.l k
  let local_x := 0
  let local_y := local_x + frac
  let local_z := local_y + frac
  -- copy job operands in TCDM
  let size := u32 (frac * sizeof_double)
  let t1 := snrt_dma_start_1d tcdm local_x x offset size
  let t2 := snrt_dma_start_1d t1 local_y y offset size
  -- compute
  let t3 := forLoop P (fun core_idx t => axpy P core_idx frac args.a local_x local_y local_z t) t2
  -- copy data out of TCDM
  let z1 := snrt_dma_start_1d z offset t3 local_z size
  (z1, t3)

/-- Running `axpy_job` on every cluster `k < C`; `tcdm k` is the initial TCDM content of
cluster `k`. Returns the caller's `z`. -/
def axpy_fabric {α : Type} [Mul α] [Add α] (C P : Nat) (args : axpy_args_t α)
    (x y z : Nat → α) (tcdm : Nat → Nat → α) : Nat → α :=
  forLoop C (fun k z => (axpy_job C P k args x y z (tcdm k)).1) z

/-- Index `j` of the operand arrays lies in the range handled by compute core `i` of
cluster `k`: `axpy_job` hands the cluster the slice starting at `offset` and `axpy` works on
`frac` elements of it starting at its own `offset`. -/
def axpy_owns (C P l k i : Nat) (j : Nat) : Prop :=
  let frac : Int := toInt32 (u32 (axpy_job_frac C l) / u32 P)
  let offset : Int := toInt32 i * frac
  (axpy_job_offset C l k : Int) + offset ≤ (j : Int) ∧
    (j : Int) < (axpy_job_offset C l k : Int) + offset + frac

/-! ### GEMM (`sw/blas/gemm_v2/src/gemm_v2.h`) -/

/-- The fields of `gemm_args_t` (`gemm_v2.h`) that the pipeline of `gemm` reads; `alpha`,
the pointers and the `load_*` and `parallelize_*` flags play no part in what follows. -/
structure gemm_args_t where
  prec : Nat
  setup_ssr : Nat
  m_tiles : Nat
  k_tiles : Nat
  transa : Nat
  transb : Nat
  M : Nat
  N : Nat
  K : Nat
  beta : Nat
deriving DecidableEq, Repr

/-- The caller's matrices `a`, `b`, `c` of `gemm`. -/
inductive gemm_array where
  | a
  | b
  | c
deriving DecidableEq, Repr

/-- The double-buffered TCDM slots `local_a[idx]`, `local_b[idx]`, `local_c[idx]` of `gemm`. -/
inductive gemm_buf where
  | local_a (idx : Nat)
  | local_b (idx : Nat)
  | local_c (idx : Nat)
deriving DecidableEq, Repr

/-- A call of `snrt_dma_load_2d_tile` (`store = false`: `array` to `buf`) or of
`snrt_dma_store_2d_tile` (`store = true`: `buf` to `array`) with its arguments. -/
structure tile_transfer where
  store : Bool
  array : gemm_array
  buf : gemm_buf
  tile_x1_idx : Nat
  tile_x0_idx : Nat
  tile_x1_size : Nat
  tile_x0_size : Nat
  full_x0_size : Nat
  prec : Nat
deriving DecidableEq, Repr

/-- The locals of the block `DMA out` of `gemm` at one stage, and the transfers it issues. -/
structure gemm_dma_out where
  i_dma_out : Nat
  buff_idx : Nat
  i_m : Nat
  i_k : Nat
  c_buff_idx : Nat
  c_move : Bool
  issued : List tile_transfer
deriving DecidableEq, Repr

/-- The locals of the block `DMA in` of `gemm` at one stage, and the transfers it issues. -/
structure gemm_dma_in where
  i_dma_in : Nat
  buff_idx : Nat
  i_m : Nat
  i_k : Nat
  c_buff_idx : Nat
  c_move : Bool
  issued : List tile_transfer
deriving DecidableEq, Repr

/-- The locals of the block `Compute` of `gemm` at one stage, and the arguments
`(a, b, beta, c)` of its call of `sc_st_gemm`. -/
structure gemm_compute where
  i_compute : Nat
  buff_idx : Nat
  i_m : Nat
  i_k : Nat
  c_buff_idx : Nat
  a : gemm_buf
  b : gemm_buf
  beta : Nat
  c : gemm_buf
deriving DecidableEq, Repr

/-- What one iteration of the tile loop of `gemm` does: the two blocks of the DMA core and the
block of the compute cores, each `none` when its guard is false. -/
structure gemm_stage where
  dma_out : Option gemm_dma_out
  dma_in : Option gemm_dma_in
  compute : Option gemm_compute
deriving DecidableEq, Repr

/-- `int n_tiles = args->m_tiles * args->k_tiles` in `gemm`. -/
def gemm_n_tiles (args : gemm_args_t) : Int := toInt32 (u32 (args.m_tiles * args.k_tiles))

/-- `int iterations = n_tiles + 2` in `gemm`. -/
def gemm_iterations (args : gemm_args_t) : Int := gemm_n_tiles args + 2

/-- The block `DMA out` of `gemm`, entered when `i > 1`. -/
def gemm_dma_out_block (args : gemm_args_t) (i : Nat) : gemm_dma_out :=
  let frac_m := args.M / args.m_tiles
  let frac_n := args.N
  let i_dma_out := i - 2
  let buff_idx := i_dma_out % 2
  let i_m := i_dma_out / args.k_tiles
  let i_k := i_dma_out % args.k_tiles
  let c_buff_idx := i_m % 2
  let c_move := decide (i_k = u32 (args.k_tiles + 2 ^ 32 - 1))
  { i_dma_out := i_dma_out, buff_idx := buff_idx, i_m := i_m, i_k := i_k,
    c_buff_idx := c_buff_idx, c_move := c_move,
    issued := [⟨true, .c, .local_c c_buff_idx, i_m, 0, frac_m / 8, frac_n, args.N, args.prec⟩] }

/-- The block `DMA in` of `gemm`, entered when `i < n_tiles`. -/
def gemm_dma_in_block (args : gemm_args_t) (i : Nat) : gemm_dma_in :=
  let frac_m := args.M / args.m_tiles
  let frac_n := args.N
  let frac_k := args.K / args.k_tiles
  let i_dma_in := i
  let buff_idx := i_dma_in % 2
  let i_m := i_dma_in / args.k_tiles
  let i_k := i_dma_in % args.k_tiles
  let c_buff_idx := i_m % 2
  let c_move := decide (i_k = 0)
  { i_dma_in := i_dma_in, buff_idx := buff_idx, i_m := i_m, i_k := i_k,
    c_buff_idx := c_buff_idx, c_move := c_move,
    issued :=
      [⟨false, .a, .local_a buff_idx, i_m, i_k, frac_m, frac_k, args.K, args.prec⟩,
       ⟨false, .b, .local_b buff_idx, 0, i_k, frac_n, frac_k, args.K, args.prec⟩,
       ⟨false, .c, .local_c c_buff_idx, i_m, 0, frac_m / 8, frac_n, args.N, args.prec⟩] }

/-- The block `Compute` of `gemm`, entered when `i > 0 && i < n_tiles + 1`. -/
def gemm_compute_block (args : gemm_args_t) (i : Nat) : gemm_compute :=
  let i_compute := i - 1
  let buff_idx := i_compute % 2
  let i_m := i_compute / args.k_tiles
  let i_k := i_compute % args.k_tiles
  let c_buff_idx := i_m % 2
  { i_compute := i_compute, buff_idx := buff_idx, i_m := i_m, i_k := i_k,
    c_buff_idx := c_buff_idx,
    a := .local_a buff_idx, b := .local_b buff_idx, beta := args.beta, c := .local_c c_buff_idx }

/-- Iteration `i` of the tile loop of `gemm`. -/
def gemm_iteration (args : gemm_args_t) (i : Nat) : gemm_stage :=
  { dma_out := if 1 < i then some (gemm_dma_out_block args i) else none
    dma_in := if (i : Int) < gemm_n_tiles args then some (gemm_dma_in_block args i) else none
    compute :=
      if 0 < i ∧ (i : Int) < gemm_n_tiles args + 1 then some (gemm_compute_block args i)
      else none }

/-- The tile loop of `gemm`: the stages `i = 0, ..., iterations - 1` in order. -/
def gemm (args : gemm_args_t) : List gemm_stage :=
  (List.range (gemm_iterations args).toNat).map (gemm_iteration args)

/-! ### K-Means (`sw/apps/kmeans/src/kmeans.h`) -/

/-- The constants of the runtime (`snrt.h`) that the kernels read: `snrt_cluster_num()`,
`snrt_cluster_compute_core_num()`, `SNRT_CLUSTER_OFFSET` and the start of the free TCDM of
cluster 0. -/
structure snrt_config where
  cluster_num : Nat
  compute_core_num : Nat
  cluster_offset : Nat
  l1_start : Nat
deriving DecidableEq, Repr

/-- Modelled from the spec: `snrt_l1_next()` is declared in the runtime headers only; by the
invariant "CLM base(k) = CLM base(0) + k·S" the free TCDM of cluster `k` starts at the same
offset in every cluster. -/
def snrt_l1_next (cfg : snrt_config) (cluster_idx : Nat) : Nat :=
  cfg.l1_start + cluster_idx * cfg.cluster_offset

/-- The memory seen by the cores: cells of type `uint32_t` and cells of type `double`, each
named by the byte address of its first byte. All TCDMs lie in this one address space.
Doubles are exact rationals. -/
structure Mem where
  u32 : Nat → Nat
  f64 : Nat → ℚ

/-- A store of a `uint32_t`. -/
def Mem.store32 (m : Mem) (addr v : Nat) : Mem := { m with u32 := Function.update m.u32 addr v }

/-- A store of a `double`. -/
def Mem.store64 (m : Mem) (addr : Nat) (v : ℚ) : Mem :=
  { m with f64 := Function.update m.f64 addr v }

/-- Size of a `uint32_t` in bytes. -/
def sizeof_uint32 : Nat := 4

/-- The function `euclidean_distance_squared` of `kmeans.h`; `point1`, `point2` are addresses. -/
def euclidean_distance_squared (n_features : Nat) (m : Mem) (point1 point2 : Nat) : ℚ :=
  forLoop n_features
    (fun i sum =>
      let diff := m.f64 (point1 + sizeof_double * i) - m.f64 (point2 + sizeof_double * i)
      sum + diff * diff)
    0

/-- The function `snrt_l1_alloc_cluster_private`: the pair `(returned pointer, *new_base)`. -/
def snrt_l1_alloc_cluster_private (base size : Nat) : Nat × Nat :=
  (base, base + size)

/-- The function `snrt_l1_alloc_compute_core_private` on the core `core_idx` of a cluster
with `cfg.compute_core_num` compute cores: the pair `(returned pointer, *new_base)`. -/
def snrt_l1_alloc_compute_core_private (cfg : snrt_config) (core_idx : Nat) (base size : Nat) :
    Nat × Nat :=
  (base + size * core_idx, base + size * cfg.compute_core_num)

/-- The function `snrt_l1_alloc_common` on cluster `cluster_idx`: the pair
`(returned pointer, *new_base)`. The subtraction is one of `uintptr_t`, modulo `2 ^ 32`. -/
def snrt_l1_alloc_common (cfg : snrt_config) (cluster_idx : Nat) (base size : Nat) : Nat × Nat :=
  (u32 (u32 base + 2 ^ 32 - u32 (cluster_idx * cfg.cluster_offset)), base + size)

/-- The function `snrt_remote_cluster_ptr`; the difference of the `uint32_t` cluster indices,
the product and the sum are all taken modulo `2 ^ 32`. -/
def snrt_remote_cluster_ptr (cfg : snrt_config) (src : Nat) (src_cluster_idx dst_cluster_idx : Nat) :
    Nat :=
  u32 (u32 src + u32 (u32 (u32 dst_cluster_idx + 2 ^ 32 - u32 src_cluster_idx) * cfg.cluster_offset))

/-- The pointers that `kmeans` sets up in the TCDM. -/
structure kmeans_ptrs where
  local_samples : Nat
  local_centroids : Nat
  membership : Nat
  final_membership_cnt : Nat
  partial_membership_cnt : Nat
  final_centroids : Nat
  partial_centroids : Nat
deriving DecidableEq, Repr

/-- The allocation sequence at the head of `kmeans`, on core `core_idx` of cluster
`cluster_idx`. Sizes are in bytes. -/
def kmeans_alloc (cfg : snrt_config) (cluster_idx core_idx : Nat)
    (n_samples n_features n_clusters : Nat) : kmeans_ptrs :=
  let n_samples_per_cluster := n_samples / cfg.cluster_num
  let l1_base := snrt_l1_next cfg cluster_idx
  let r1 := snrt_l1_alloc_cluster_private l1_base
    (n_samples_per_cluster * n_features * sizeof_double)
  let r2 := snrt_l1_alloc_cluster_private r1.2 (n_clusters * n_features * sizeof_double)
  let r3 := snrt_l1_alloc_cluster_private r2.2 (n_samples_per_cluster * sizeof_uint32)
  -- alias first core's partial membership counters with final membership counters
  let prev_l1_base := r3.2
  let r4 := snrt_l1_alloc_common cfg cluster_idx r3.2 (n_clusters * sizeof_uint32)
  let r5 := snrt_l1_alloc_compute_core_private cfg core_idx prev_l1_base
    (n_clusters * sizeof_uint32)
  -- alias first core's partial centroids with final centroids
  let prev_l1_base := r5.2
  let r6 := snrt_l1_alloc_common cfg cluster_idx r5.2 (n_clusters * n_features * sizeof_double)
  let r7 := snrt_l1_alloc_compute_core_private cfg core_idx prev_l1_base
    (n_clusters * n_features * sizeof_double)
  { local_samples := r1.1, local_centroids := r2.1, membership := r3.1,
    final_membership_cnt := r4.1, partial_membership_cnt := r5.1,
    final_centroids := r6.1, partial_centroids := r7.1 }

/-- The pointers of a core at the start of iteration `iter_idx`: from the second iteration
on `local_centroids` has been redirected to `final_centroids`. -/
def kmeans_core_ptrs (cfg : snrt_config) (cluster_idx core_idx : Nat)
    (n_samples n_features n_clusters iter_idx : Nat) : kmeans_ptrs :=
  let p := kmeans_alloc cfg cluster_idx core_idx n_samples n_features n_clusters
  if iter_idx = 0 then p else { p with local_centroids := p.final_centroids }

/-- The comparison `dist < min_dist`, where `min_dist` starts as `INFINITY` (`none`). -/
def dist_lt (dist : ℚ) (min_dist : Option ℚ) : Bool :=
  match min_dist with
  | none => true
  | some d => decide (dist < d)

/-- The body of the sample loop of the assignment step, for one `sample_idx`. -/
def kmeans_assign_sample (n_features n_clusters : Nat) (p : kmeans_ptrs) (sample_idx : Nat)
    (m : Mem) : Mem :=
  let m0 := m.store32 (p.membership + sizeof_uint32 * sample_idx) 0
  let r := forLoop n_clusters
    (fun centroid_idx (s : Option ℚ × Mem) =>
      let dist := euclidean_distance_squared n_features s.2
        (p.local_samples + sizeof_double * (sample_idx * n_features))
        (p.local_centroids + sizeof_double * (centroid_idx * n_features))
      if dist_lt dist s.1 then
        (some dist, s.2.store32 (p.membership + sizeof_uint32 * sample_idx) centroid_idx)
      else s)
    (none, m0)
  let cnt := p.partial_membership_cnt +
    sizeof_uint32 * r.2.u32 (p.membership + sizeof_uint32 * sample_idx)
  r.2.store32 cnt (r.2.u32 cnt + 1)

/-- The assignment step of one compute core (the code before the first global barrier of
an iteration). -/
def kmeans_assignment_step (cfg : snrt_config) (core_idx : Nat)
    (n_samples n_features n_clusters : Nat) (p : kmeans_ptrs) (m : Mem) : Mem :=
  let n_samples_per_cluster := n_samples / cfg.cluster_num
  let n_samples_per_core := n_samples_per_cluster / cfg.compute_core_num
  let start_sample_idx := core_idx * n_samples_per_core
  let end_sample_idx := start_sample_idx + n_samples_per_core
  let m1 := forLoop n_clusters
    (fun centroid_idx m => m.store32 (p.partial_membership_cnt + sizeof_uint32 * centroid_idx) 0)
    m
  forLoop (end_sample_idx - start_sample_idx)
    (fun d m => kmeans_assign_sample n_features n_clusters p (start_sample_idx + d) m)
    m1

/-- The update step of one compute core: zero the partial centroids, then add every owned
sample to the partial centroid of its membership. -/
def kmeans_update_step (cfg : snrt_config) (core_idx : Nat)
    (n_samples n_features n_clusters : Nat) (p : kmeans_ptrs) (m : Mem) : Mem :=
  let n_samples_per_cluster := n_samples / cfg.cluster_num
  let n_samples_per_core := n_samples_per_cluster / cfg.compute_core_num
  let start_sample_idx := core_idx * n_samples_per_core
  let end_sample_idx := start_sample_idx + n_samples_per_core
  let m1 := forLoop n_clusters
    (fun centroid_idx m =>
      forLoop n_features
        (fun feature_idx m =>
          m.store64 (p.partial_centroids + sizeof_double * (centroid_idx * n_features + feature_idx))
            0)
        m)
    m
  forLoop (end_sample_idx - start_sample_idx)
    (fun d m =>
      let sample_idx := start_sample_idx + d
      forLoop n_features
        (fun feature_idx m =>
          let dst := p.partial_centroids + sizeof_double *
            (m.u32 (p.membership + sizeof_uint32 * sample_idx) * n_features + feature_idx)
          m.store64 dst
            (m.f64 dst +
              m.f64 (p.local_samples + sizeof_double * (sample_idx * n_features + feature_idx))))
        m)
    m1

/-- The accumulation of one remote buffer pair into `(cnt, centroids)`: the loop over
`centroid_idx` shared by the intra-cluster and the inter-cluster reduction. -/
def kmeans_accumulate (n_features n_clusters : Nat) (cnt centroids : Nat)
    (remote_partial_membership_cnt remote_partial_centroids : Nat) (m : Mem) : Mem :=
  forLoop n_clusters
    (fun centroid_idx m =>
      -- accumulate membership counters
      let m1 := m.store32 (cnt + sizeof_uint32 * centroid_idx)
        (m.u32 (cnt + sizeof_uint32 * centroid_idx) +
          m.u32 (remote_partial_membership_cnt + sizeof_uint32 * centroid_idx))
      -- accumulate centroid features
      forLoop n_features
        (fun feature_idx m =>
          m.store64 (centroids + sizeof_double * (centroid_idx * n_features + feature_idx))
            (m.f64 (centroids + sizeof_double * (centroid_idx * n_features + feature_idx)) +
              m.f64 (remote_partial_centroids +
                sizeof_double * (centroid_idx * n_features + feature_idx))))
        m1)
    m

/-- The intra-cluster reduction, run by compute core 0 of a cluster: the partial buffers of
the cores `1 .. P - 1` are added to its own. -/
def kmeans_intra_cluster_reduction (cfg : snrt_config) (n_features n_clusters : Nat)
    (p : kmeans_ptrs) (m : Mem) : Mem :=
  forLoop (cfg.compute_core_num - 1)
    (fun d m =>
      let core_idx := 1 + d
      let remote_partial_membership_cnt :=
        p.partial_membership_cnt + sizeof_uint32 * (core_idx * n_clusters)
      let remote_partial_centroids :=
        p.partial_centroids + sizeof_double * (core_idx * n_clusters * n_features)
      kmeans_accumulate n_features n_clusters p.partial_membership_cnt p.partial_centroids
        remote_partial_membership_cnt remote_partial_centroids m)
    m

/-- The inter-cluster reduction, run by compute core 0 of cluster 0: the reduced partial
buffers of the clusters `1 .. C - 1` are added to the final buffers. -/
def kmeans_inter_cluster_reduction (cfg : snrt_config) (n_features n_clusters : Nat)
    (p : kmeans_ptrs) (m : Mem) : Mem :=
  forLoop (cfg.cluster_num - 1)
    (fun d m =>
      let cluster_idx := 1 + d
      let remote_partial_membership_cnt :=
        snrt_remote_cluster_ptr cfg p.partial_membership_cnt 0 cluster_idx
      let remote_partial_centroids :=
        snrt_remote_cluster_ptr cfg p.partial_centroids 0 cluster_idx
      kmeans_accumulate n_features n_clusters p.final_membership_cnt p.final_centroids
        remote_partial_membership_cnt remote_partial_centroids m)
    m

/-- The normalize step, run by compute core 0 of cluster 0. -/
def kmeans_normalize (n_features n_clusters : Nat) (p : kmeans_ptrs) (m : Mem) : Mem :=
  forLoop n_clusters
    (fun centroid_idx m =>
      forLoop n_features
        (fun feature_idx m =>
          m.store64 (p.final_centroids + sizeof_double * (centroid_idx * n_features + feature_idx))
            (m.f64 (p.final_centroids + sizeof_double * (centroid_idx * n_features + feature_idx)) /
              (m.u32 (p.final_membership_cnt + sizeof_uint32 * centroid_idx) : ℚ)))
        m)
    m

/-- What compute core `core_idx` of cluster `cluster_idx` runs between the first global
barrier of an iteration and the inter-cluster barrier: the update step and, on core 0, the
intra-cluster reduction. -/
def kmeans_update_segment (cfg : snrt_config) (cluster_idx core_idx : Nat)
    (n_samples n_features n_clusters iter_idx : Nat) (m : Mem) : Mem :=
  let p := kmeans_core_ptrs cfg cluster_idx core_idx n_samples n_features n_clusters iter_idx
  let m1 := kmeans_update_step cfg core_idx n_samples n_features n_clusters p m
  if core_idx = 0 then kmeans_intra_cluster_reduction cfg n_features n_clusters p m1 else m1

/-- What compute core 0 of cluster 0 runs after the inter-cluster barrier: the
inter-cluster reduction and the normalize step. -/
def kmeans_final_segment (cfg : snrt_config) (n_samples n_features n_clusters iter_idx : Nat)
    (m : Mem) : Mem :=
  let p := kmeans_core_ptrs cfg 0 0 n_samples n_features n_clusters iter_idx
  kmeans_normalize n_features n_clusters p
    (kmeans_inter_cluster_reduction cfg n_features n_clusters p m)

/-- The assignment phase of an iteration on the whole fabric: every compute core of every
cluster runs its assignment step (up to the first global barrier). -/
def kmeans_assignment_phase (cfg : snrt_config) (n_samples n_features n_clusters iter_idx : Nat)
    (m : Mem) : Mem :=
  forLoop cfg.cluster_num
    (fun cluster_idx m =>
      forLoop cfg.compute_core_num
        (fun core_idx m =>
          kmeans_assignment_step cfg core_idx n_samples n_features n_clusters
            (kmeans_core_ptrs cfg cluster_idx core_idx n_samples n_features n_clusters iter_idx) m)
        m)
    m

/-- An order in which the compute cores of a cluster run between the first global barrier
and the inter-cluster barrier: the cores `P - 1, ..., 1, 0`, every peer before core 0. -/
def kmeans_sched_peers_first (cfg : snrt_config) : Nat → Nat :=
  fun d => cfg.compute_core_num - 1 - d

/-- An order in which the compute cores of a cluster run between the first global barrier
and the inter-cluster barrier: the cores `0, 1, ..., P - 1`, core 0 before its peers. -/
def kmeans_sched_core0_first : Nat → Nat :=
  fun d => d

/-- The phase between the first global barrier and the inter-cluster barrier. The source
puts no barrier between the update step of the cores `1 .. P - 1` and the reduction by
core 0 that reads their buffers, so the code does not fix the order in which the cores of a
cluster get there: `sched d` is the core of each cluster that runs as number `d`, each core
running its part in one piece. Every such order is an execution that the barriers allow. -/
def kmeans_update_phase (cfg : snrt_config) (sched : Nat → Nat)
    (n_samples n_features n_clusters iter_idx : Nat) (m : Mem) : Mem :=
  forLoop cfg.cluster_num
    (fun cluster_idx m =>
      forLoop cfg.compute_core_num
        (fun d m =>
          kmeans_update_segment cfg cluster_idx (sched d)
            n_samples n_features n_clusters iter_idx m)
        m)
    m

/-- One iteration of Lloyd's algorithm on the whole fabric, phases in barrier order, the
cores of a cluster in the order `sched` where no barrier orders them. With no compute core
(`P = 0`) nothing runs. -/
def kmeans_iteration (cfg : snrt_config) (sched : Nat → Nat)
    (n_samples n_features n_clusters iter_idx : Nat) (m : Mem) : Mem :=
  let m1 := kmeans_assignment_phase cfg n_samples n_features n_clusters iter_idx m
  -- snrt_global_barrier
  let m2 := kmeans_update_phase cfg sched n_samples n_features n_clusters iter_idx m1
  -- snrt_inter_cluster_barrier
  if 0 < cfg.cluster_num ∧ 0 < cfg.compute_core_num then
    kmeans_final_segment cfg n_samples n_features n_clusters iter_idx m2
  else m2

/-- The transfer `snrt_dma_start_1d(dst, src + src_offset, size)` from an array of doubles of
the global store into the TCDM (`src_offset` and `size` in bytes). -/
def dma_load_f64 (m : Mem) (dst : Nat) (src : Nat → ℚ) (src_offset size : Nat) : Mem :=
  { m with
    f64 := fun addr =>
      if dst ≤ addr ∧ addr < dst + size ∧ (addr - dst) % sizeof_double = 0 then
        src ((src_offset + (addr - dst)) / sizeof_double)
      else m.f64 addr }

/-- The transfer `snrt_dma_start_1d(dst, src, size)` from the TCDM into an array of doubles
of the global store (`size` in bytes). -/
def dma_store_f64 (dst : Nat → ℚ) (m : Mem) (src size : Nat) : Nat → ℚ :=
  fun e => if sizeof_double * e < size then m.f64 (src + sizeof_double * e) else dst e

/-- The kernel `kmeans` on the whole fabric: the DMA core of every cluster loads its samples
and the initial centroids, the iterations run, the DMA core of cluster 0 writes
`final_centroids` back. Returns the caller's `centroids` buffer and the memory. `sched` is
the order of the cores of a cluster in the update phase of every iteration. -/
def kmeans (cfg : snrt_config) (sched : Nat → Nat) (n_samples n_features n_clusters n_iter : Nat)
    (samples centroids : Nat → ℚ) (m : Mem) : (Nat → ℚ) × Mem :=
  let n_samples_per_cluster := n_samples / cfg.cluster_num
  -- transfer samples and initial centroids with DMA
  let m1 := forLoop cfg.cluster_num
    (fun cluster_idx m =>
      let p := kmeans_alloc cfg cluster_idx cfg.compute_core_num n_samples n_features n_clusters
      let size := n_samples_per_cluster * n_features * sizeof_double
      let offset := cluster_idx * size
      let m := dma_load_f64 m p.local_samples samples offset size
      let size := n_clusters * n_features * sizeof_double
      dma_load_f64 m p.local_centroids centroids 0 size)
    m
  -- iterations of Lloyd's K-means algorithm
  let m2 := forLoop n_iter
    (fun iter_idx m => kmeans_iteration cfg sched n_samples n_features n_clusters iter_idx m)
    m1
  -- transfer final centroids with DMA
  let p := kmeans_alloc cfg 0 cfg.compute_core_num n_samples n_features n_clusters
  let size := n_clusters * n_features * sizeof_double
  (if 0 < cfg.cluster_num then dma_store_f64 centroids m2 p.final_centroids size else centroids,
    m2)

/-- The centroid loop of the assignment step with `membership[sample_idx]` held in a
register: the state is `(min_dist, membership)`. -/
def nearest_state (dist : Nat → ℚ) (n : Nat) : Option ℚ × Nat :=
  forLoop n (fun c (s : Option ℚ × Nat) => if dist_lt (dist c) s.1 then (some (dist c), c) else s)
    (none, 0)

/-- The membership chosen for a sample whose squared distance to centroid `c` is `dist c`. -/
def nearest (dist : Nat → ℚ) (n : Nat) : Nat := (nearest_state dist n).2

/-- The squared distances of the sample `sample_idx` to the centroids, as the assignment
step reads them from memory. -/
def kmeans_dist (n_features : Nat) (p : kmeans_ptrs) (m : Mem) (sample_idx : Nat) (c : Nat) : ℚ :=
  euclidean_distance_squared n_features m
    (p.local_samples + sizeof_double * (sample_idx * n_features))
    (p.local_centroids + sizeof_double * (c * n_features))

/-- The bytes of TCDM that `kmeans` allocates in each cluster. -/
def kmeans_footprint (cfg : snrt_config) (n_samples n_features n_clusters : Nat) : Nat :=
  n_samples / cfg.cluster_num * n_features * sizeof_double +
    n_clusters * n_features * sizeof_double +
    n_samples / cfg.cluster_num * sizeof_uint32 +
    n_clusters * sizeof_uint32 * cfg.compute_core_num +
    n_clusters * n_features * sizeof_double * cfg.compute_core_num

/-- The budget that the caller of `kmeans` has to guarantee: the allocations of a cluster
fit in its slice of the address space (`SNRT_CLUSTER_OFFSET` bytes), and the TCDMs of all
clusters lie in the 32-bit address space. -/
def kmeans_fits (cfg : snrt_config) (n_samples n_features n_clusters : Nat) : Prop :=
  kmeans_footprint cfg n_samples n_features n_clusters ≤ cfg.cluster_offset ∧
    cfg.l1_start + cfg.cluster_num * cfg.cluster_offset < 2 ^ 32

instance kmeans_fits_decidable (cfg : snrt_config) (n_samples n_features n_clusters : Nat) :
    Decidable (kmeans_fits cfg n_samples n_features n_clusters) := by
  unfold kmeans_fits
  exact inferInstance

/-- A small fabric used to evaluate the kernels: one cluster with two compute cores, 4 KiB of
address space per cluster, free TCDM starting at address `0x1000`. -/
def cfg_1x2 : snrt_config :=
  { cluster_num := 1, compute_core_num := 2, cluster_offset := 4096, l1_start := 4096 }

/-- A memory whose cells all hold zero. -/
def mem_zero : Mem := { u32 := fun _ => 0, f64 := fun _ => 0 }

/-- A memory for `cfg_1x2` with `N = 2`, `F = 1`, `K = 2`: the samples `0` and `10` at
`local_samples` (`0x1000`), the centroids `0` and `9` at `local_centroids` (`0x1010`). -/
def mem_two_points : Mem :=
  { u32 := fun _ => 0, f64 := fun a => if a = 4104 then 10 else if a = 4120 then 9 else 0 }

/-- A fabric of two clusters with two compute cores each, 4 KiB of address space per
cluster, free TCDM starting at address `0x1000` in cluster 0. -/
def cfg_2x2 : snrt_config :=
  { cluster_num := 2, compute_core_num := 2, cluster_offset := 4096, l1_start := 4096 }

/-- Four one-dimensional samples: `0`, `10` (for cluster 0) and `2`, `12` (for cluster 1). -/
def samples_4 : Nat → ℚ := fun e => if e = 1 then 10 else if e = 2 then 2 else if e = 3 then 12 else 0

/-- The two centroids `1` and `11`: the means of the samples `{0, 2}` and `{10, 12}`, each
being the set of samples nearest to its mean. -/
def centroids_perfect : Nat → ℚ := fun e => if e = 0 then 1 else if e = 1 then 11 else 0

/-- The memory of `cfg_2x2` after the DMA core of each cluster has loaded its two samples of
`samples_4` and the centroids `centroids_perfect` (`kmeans` with no iteration). -/
def mem_loaded : Mem :=
  (kmeans cfg_2x2 kmeans_sched_core0_first 4 1 2 0 samples_4 centroids_perfect mem_zero).2

/-! ### GEMM: the call of the inner kernel (`sc_st_gemm`) -/

/-- A call `impl(m, n, k, a + offsetA, lda, transa, b, ldb, transb, c + offsetC, ldc, beta,
setup_ssr)` of the inner kernel by `sc_st_gemm`, arguments in the order of the call. The
operands are TCDM slots; `a_offset` and `c_offset` are the byte offsets added to them. -/
structure gemm_fp_call where
  m : Nat
  n : Nat
  k : Nat
  a : gemm_buf
  a_offset : Nat
  lda : Nat
  transa : Nat
  b : gemm_buf
  ldb : Nat
  transb : Nat
  c : gemm_buf
  c_offset : Nat
  ldc : Nat
  beta : Nat
  setup_ssr : Nat
deriving DecidableEq, Repr

/-- The number of rows of C that `sc_st_gemm` gives to compute core `core_idx`:
`frac_m = m / compute_num`, incremented when `core_idx < m % compute_num`. -/
def sc_st_gemm_frac_m (compute_num m core_idx : Nat) : Nat :=
  let frac_m := m / compute_num
  let rem_m := m % compute_num
  if core_idx < rem_m then frac_m + 1 else frac_m

/-- The function `sc_st_gemm` on core `core_idx` of a cluster: the call of the inner kernel
that it makes, `none` when the core is not a compute core or has no row. The conversion
`(float)beta` of the call is the identity on the small integers used as `beta`. -/
def sc_st_gemm (cfg : snrt_config) (core_idx : Nat) (gemm_args : gemm_args_t)
    (a b : gemm_buf) (beta : Nat) (c : gemm_buf) : Option gemm_fp_call :=
  let prec := gemm_args.prec
  let setup_ssr := gemm_args.setup_ssr
  let transa := gemm_args.transa
  let transb := gemm_args.transb
  let m := gemm_args.M / gemm_args.m_tiles
  let n := gemm_args.N
  let k := gemm_args.K / gemm_args.k_tiles
  let lda := k
  let ldb := if transb ≠ 0 then k else n
  let ldc := n
  -- snrt_is_compute_core()
  if core_idx < cfg.compute_core_num then
    let compute_num := cfg.compute_core_num
    let compute_id := core_idx
    -- compute cores work not on contiguous blocks but on strided rows
    let lda_strided := u32 (compute_num * lda)
    let ldc_strided := u32 (compute_num * ldc)
    -- compute cores access A and C at offsets of one row from each other
    let offsetA := u32 (u32 (compute_id * lda) * prec)
    let offsetC := u32 (u32 (compute_id * ldc) * prec)
    -- compute fraction of C rows every core computes
    let frac_m := sc_st_gemm_frac_m compute_num m core_idx
    if 0 < frac_m then
      some { m := frac_m, n := n, k := k, a := a, a_offset := offsetA, lda := lda_strided,
             transa := transa, b := b, ldb := ldb, transb := transb, c := c,
             c_offset := offsetC, ldc := ldc_strided, beta := beta, setup_ssr := setup_ssr }
    else none
  else none

/-- The call of the inner kernel that core `core_idx` makes at stage `i` of `gemm`: the block
`Compute` calls `sc_st_gemm(local_args, local_a[buff_idx], local_b[buff_idx], beta,
local_c[c_buff_idx])`. -/
def gemm_compute_call (cfg : snrt_config) (core_idx : Nat) (args : gemm_args_t) (i : Nat) :
    Option gemm_fp_call :=
  match (gemm_iteration args i).compute with
  | some blk => sc_st_gemm cfg core_idx args blk.a blk.b blk.beta blk.c
  | none => none

/-- A cluster with eight compute cores, as in the scenarios of the specification. -/
def cfg_1x8 : snrt_config :=
  { cluster_num := 1, compute_core_num := 8, cluster_offset := 262144, l1_start := 268435456 }

/-- The tiled GEMM scenario: `M = K = 32`, `N = 16`, `m_tiles = k_tiles = 2`, `beta = 0`,
elements of 8 bytes. -/
def gemm_args_tiled : gemm_args_t :=
  { prec := 8, setup_ssr := 1, m_tiles := 2, k_tiles := 2, transa := 0, transb := 0,
    M := 32, N := 16, K := 32, beta := 0 }

/-! ### DMA (`sw/snRuntime/src/dma.h`) -/

/-- A 2D transfer handed to the DMA engine by `snrt_dma_start_2d` (`dma.h`): the operands of
`dmdst`, `dmsrc`, `dmcpyi` (`size`, the bytes of one line), `dmstr` and `dmrep` (`reps`, the
argument `repeat` of the source). -/
structure dma_2d_transfer where
  dst : Nat
  src : Nat
  size : Nat
  dst_stride : Nat
  src_stride : Nat
  reps : Nat
deriving DecidableEq, Repr

/-- One line of a DMA copy on a byte-addressed memory: the `size` bytes at `src` are written
at `dst`. -/
def dma_copy_line {β : Type} (m : Nat → β) (dst src size : Nat) : Nat → β :=
  fun a => if dst ≤ a ∧ a < dst + size then m (src + (a - dst)) else m a

/-- Modelled from the spec: the memory after a 2D transfer has completed, "`repeat` lines of
`bytes_per_line`, source advanced by `src_stride` per line, destination by `dst_stride` per
line"; the engine is hardware, driven by inline assembly. Lines are copied in order. -/
def dma_2d_transfer.run {β : Type} (t : dma_2d_transfer) (m : Nat → β) : Nat → β :=
  forLoop t.reps
    (fun r m => dma_copy_line m (t.dst + r * t.dst_stride) (t.src + r * t.src_stride) t.size) m

/-- The function `snrt_dma_start_2d`: the transfer that it issues. -/
def snrt_dma_start_2d (dst src size dst_stride src_stride reps : Nat) : dma_2d_transfer :=
  { dst := dst, src := src, size := size, dst_stride := dst_stride, src_stride := src_stride,
    reps := reps }

/-- The function `snrt_dma_load_2d_tile`: the transfer that it issues. The offset and the
products are of type `size_t`, taken modulo `2 ^ 32`. -/
def snrt_dma_load_2d_tile (dst src tile_x1_idx tile_x0_idx tile_x1_size tile_x0_size
    full_x0_size prec : Nat) : dma_2d_transfer :=
  let src_offset := 0
  -- advance src array in x0 and x1 dimensions, and convert to byte offset
  let src_offset := u32 (src_offset + u32 (tile_x0_idx * tile_x0_size))
  let src_offset := u32 (src_offset + u32 (u32 (tile_x1_idx * tile_x1_size) * full_x0_size))
  let src_offset := u32 (src_offset * prec)
  snrt_dma_start_2d dst (src + src_offset) (u32 (tile_x0_size * prec))
    (u32 (tile_x0_size * prec)) (u32 (full_x0_size * prec)) tile_x1_size

/-- The function `snrt_dma_store_2d_tile`: the transfer that it issues. -/
def snrt_dma_store_2d_tile (dst src tile_x1_idx tile_x0_idx tile_x1_size tile_x0_size
    full_x0_size prec : Nat) : dma_2d_transfer :=
  let dst_offset := 0
  -- advance dst array in x0 and x1 dimensions, and convert to byte offset
  let dst_offset := u32 (dst_offset + u32 (tile_x0_idx * tile_x0_size))
  let dst_offset := u32 (dst_offset + u32 (u32 (tile_x1_idx * tile_x1_size) * full_x0_size))
  let dst_offset := u32 (dst_offset * prec)
  snrt_dma_start_2d (dst + dst_offset) src (u32 (tile_x0_size * prec))
    (u32 (full_x0_size * prec)) (u32 (tile_x0_size * prec)) tile_x1_size

/-- The DMA transfer behind a call recorded in the schedule of `gemm`, given the address of
the caller's array and of the local buffer. -/
def tile_transfer.issue (t : tile_transfer) (array_addr buf_addr : Nat) : dma_2d_transfer :=
  if t.store then
    snrt_dma_store_2d_tile array_addr buf_addr t.tile_x1_idx t.tile_x0_idx t.tile_x1_size
      t.tile_x0_size t.full_x0_size t.prec
  else
    snrt_dma_load_2d_tile buf_addr array_addr t.tile_x1_idx t.tile_x0_idx t.tile_x1_size
      t.tile_x0_size t.full_x0_size t.prec

/-- The function `snrt_dma_memset` (`dma.h`): the loop `while (nbytes--) *p++ = value` stores
`value` at the 64 bytes from `ptr` on, then the transfer
`snrt_dma_start_2d(ptr, ptr, 64, 64, 0, len / 64)` runs to completion
(`snrt_dma_wait_all`). -/
def snrt_dma_memset {β : Type} (m : Nat → β) (ptr : Nat) (value : β) (len : Nat) : Nat → β :=
  -- set first 64 bytes to value
  let m := forLoop 64 (fun j m => Function.update m (ptr + j) value) m
  -- DMA copy the rest
  (snrt_dma_start_2d ptr ptr 64 64 0 (u32 len / 64)).run m

/-! ### RedMulE HAL (`target/snitch_cluster/sw/apps/redmule/data/redmule_hal.h`) -/

/-- The values that `redmule_cfg` (`redmule_hal.h`) writes to the registers of the
accelerator with `HWPE_WRITE`, as 32-bit patterns: the three operand pointers, the two
dimension words and the arithmetic word. The register offsets are in headers outside the
sources. -/
structure redmule_regs where
  x_ptr : Nat
  w_ptr : Nat
  z_ptr : Nat
  mcfg0 : Nat
  mcfg1 : Nat
  arith : Nat
deriving DecidableEq, Repr

/-- The function `redmule_cfg`. The shifts are made on `int` after promotion and the results
are stored in `uint32_t` variables: the bit patterns modulo `2 ^ 32`. -/
def redmule_cfg (x w z m_size n_size k_size gemm_op gemm_fmt : Nat) : redmule_regs :=
  let mcfg_reg0 := u32 ((k_size <<< 16) ||| (m_size <<< 0))
  let mcfg_reg1 := u32 (n_size <<< 0)
  let arith_reg := u32 ((gemm_op <<< 10) ||| (gemm_fmt <<< 7))
  { x_ptr := u32 x, w_ptr := u32 w, z_ptr := u32 z, mcfg0 := mcfg_reg0, mcfg1 := mcfg_reg1,
    arith := arith_reg }

/-- The tolerance `ERR` of the compare routines. -/
def ERR : Nat := 0x0011

/-- Conversion to `uint16_t`. -/
def u16 (n : Nat) : Nat := n % 2 ^ 16

/-- Conversion to `uint8_t`. -/
def u8 (n : Nat) : Nat := n % 2 ^ 8

/-- The function `redmule16_compare_int`; `actual_z` and `golden_z` are the arrays of words,
by index. The counter `errors` is an `int`: it grows by at most 1 per word and stays
below `len`, so it does not wrap. -/
def redmule16_compare_int (actual_z golden_z : Nat → Nat) (len : Int) : Int :=
  forLoop len.toNat
    (fun i (errors : Int) =>
      let error : Int := 0
      let actual_word := u32 (actual_z i)
      let golden_word := u32 (golden_z i)
      -- checking least significant half-word
      let actual_LSHWord := u16 (actual_word &&& 0x0000FFFF)
      let golden_LSHWord := u16 (golden_word &&& 0x0000FFFF)
      let diff := u16 (if actual_LSHWord > golden_LSHWord then actual_LSHWord - golden_LSHWord
        else if actual_LSHWord < golden_LSHWord then golden_LSHWord - actual_LSHWord
        else 0)
      let error := if diff > ERR then 1 else error
      -- checking most significant half-word
      let actual_MSHWord := u16 ((actual_word >>> 16) &&& 0x0000FFFF)
      let golden_MSHWord := u16 ((golden_word >>> 16) &&& 0x0000FFFF)
      let diff := u16 (if actual_MSHWord > golden_MSHWord then actual_MSHWord - golden_MSHWord
        else if actual_MSHWord < golden_MSHWord then golden_MSHWord - actual_MSHWord
        else 0)
      let error := if diff > ERR then 1 else error
      errors + error)
    0

/-- The function `redmule8_compare_int`. -/
def redmule8_compare_int (actual_z golden_z : Nat → Nat) (len : Int) : Int :=
  forLoop len.toNat
    (fun i (errors : Int) =>
      let error : Int := 0
      let actual_word := u32 (actual_z i)
      let golden_word := u32 (golden_z i)
      -- checking Byte0
      let actual_Byte0 := u8 (actual_word &&& 0x000000FF)
      let golden_Byte0 := u8 (golden_word &&& 0x000000FF)
      let diff := u8 (if actual_Byte0 > golden_Byte0 then actual_Byte0 - golden_Byte0
        else if actual_Byte0 < golden_Byte0 then golden_Byte0 - actual_Byte0
        else 0)
      let error := if diff > ERR then 1 else error
      -- checking Byte1
      let actual_Byte1 := u8 ((actual_word >>> 8) &&& 0x000000FF)
      let golden_Byte1 := u8 ((golden_word >>> 8) &&& 0x000000FF)
      let diff := u8 (if actual_Byte1 > golden_Byte1 then actual_Byte1 - golden_Byte1
        else if actual_Byte1 < golden_Byte1 then golden_Byte1 - actual_Byte1
        else 0)
      let error := if diff > ERR then 1 else error
      -- checking Byte2
      let actual_Byte2 := u8 ((actual_word >>> 16) &&& 0x000000FF)
      let golden_Byte2 := u8 ((golden_word >>> 16) &&& 0x000000FF)
      let diff := u8 (if actual_Byte2 > golden_Byte2 then actual_Byte2 - golden_Byte2
        else if actual_Byte2 < golden_Byte2 then golden_Byte2 - actual_Byte2
        else 0)
      let error := if diff > ERR then 1 else error
      -- checking Byte3
      let actual_Byte3 := u8 ((actual_word >>> 24) &&& 0x000000FF)
      let golden_Byte3 := u8 ((golden_word >>> 24) &&& 0x000000FF)
      let diff := u8 (if actual_Byte3 > golden_Byte3 then actual_Byte3 - golden_Byte3
        else if actual_Byte3 < golden_Byte3 then golden_Byte3 - actual_Byte3
        else 0)
      let error := if diff > ERR then 1 else error
      errors + error)
    0

/-- The unsigned 16-bit lane `lane` (0 or 1) of a 32-bit word. -/
def half_word (w lane : Nat) : Nat := w / 2 ^ (16 * lane) % 2 ^ 16

/-- The unsigned 8-bit lane `lane` (0 to 3) of a 32-bit word. -/
def byte_lane (w lane : Nat) : Nat := w / 2 ^ (8 * lane) % 2 ^ 8

/-- Two unsigned values differ by more than `ERR`. -/
def out_of_tolerance (a g : Nat) : Prop := ERR < a - g ∨ ERR < g - a

/-- Decidability of `out_of_tolerance`. -/
instance out_of_tolerance_decidable (a g : Nat) : Decidable (out_of_tolerance a g) := by
  unfold out_of_tolerance
  infer_instance

/-- The words `a` and `g` differ in the sense of the half-word compare: the low half-words
or the high half-words differ by more than `ERR`. -/
def word_differs16 (a g : Nat) : Prop :=
  out_of_tolerance (half_word a 0) (half_word g 0) ∨
    out_of_tolerance (half_word a 1) (half_word g 1)

/-- Decidability of `word_differs16`. -/
instance word_differs16_decidable (a g : Nat) : Decidable (word_differs16 a g) := by
  unfold word_differs16
  infer_instance

/-- The words `a` and `g` differ in the sense of the byte compare: at least one of the four
byte lanes differs by more than `ERR`. -/
def word_differs8 (a g : Nat) : Prop :=
  ∃ lane, lane < 4 ∧ out_of_tolerance (byte_lane a lane) (byte_lane g lane)

/-- Decidability of `word_differs8`. -/
instance word_differs8_decidable (a g : Nat) : Decidable (word_differs8 a g) := by
  unfold word_differs8
  infer_instance

/-! ### K-Means: barriers and accesses -/

/-- The barriers that `kmeans` calls: `snrt_cluster_hw_barrier`, `snrt_global_barrier` and
`snrt_inter_cluster_barrier`. -/
inductive kmeans_barrier where
  | cluster_hw
  | global
  | inter_cluster
deriving DecidableEq, Repr

/-- The buffers in the TCDMs that `kmeans` reads and writes, by cluster; `membership` is
taken by the slice of a core, the partial buffers by the slot of a core. By the allocation
`final_membership_cnt` is `partial_membership_cnt 0 0` and `final_centroids` is
`partial_centroids 0 0`. -/
inductive kmeans_loc where
  | local_samples (cluster : Nat)
  | local_centroids (cluster : Nat)
  | membership (cluster core : Nat)
  | partial_membership_cnt (cluster core : Nat)
  | partial_centroids (cluster core : Nat)
deriving DecidableEq, Repr

/-- One step of a core in `kmeans`, as far as synchronisation goes. -/
inductive kmeans_step where
  | read (l : kmeans_loc)
  | write (l : kmeans_loc)
  | barrier (b : kmeans_barrier)
deriving DecidableEq, Repr

/-- The steps of core `core_idx` of cluster `cluster_idx` in iteration `iter_idx` of the loop
of `kmeans`, in program order. The compute cores are the cores `core_idx < P`; the DMA core
only enters the two global barriers. From the second iteration on `local_centroids` points to
`final_centroids`. -/
def kmeans_iteration_steps (cfg : snrt_config) (cluster_idx core_idx iter_idx : Nat) :
    List kmeans_step :=
  let is_compute_core := decide (core_idx < cfg.compute_core_num)
  let local_centroids :=
    if iter_idx = 0 then kmeans_loc.local_centroids cluster_idx else .partial_centroids 0 0
  let membership := kmeans_loc.membership cluster_idx core_idx
  let partial_membership_cnt := kmeans_loc.partial_membership_cnt cluster_idx core_idx
  let partial_centroids := kmeans_loc.partial_centroids cluster_idx core_idx
  let final_membership_cnt := kmeans_loc.partial_membership_cnt 0 0
  let final_centroids := kmeans_loc.partial_centroids 0 0
  (if is_compute_core then
    -- assignment step
    [.write partial_membership_cnt, .read (.local_samples cluster_idx), .read local_centroids,
     .write membership, .read membership, .read partial_membership_cnt,
     .write partial_membership_cnt]
   else []) ++
  [.barrier .global] ++
  (if is_compute_core then
    -- update step
    [.write partial_centroids, .read membership, .read (.local_samples cluster_idx),
     .read partial_centroids, .write partial_centroids] ++
    (if core_idx = 0 then
      -- intra-cluster reduction
      ((List.range (cfg.compute_core_num - 1)).map (fun j => j + 1)).flatMap
        (fun core_idx =>
          [.read (.partial_membership_cnt cluster_idx core_idx), .read partial_membership_cnt,
           .write partial_membership_cnt,
           .read (.partial_centroids cluster_idx core_idx), .read partial_centroids,
           .write partial_centroids]) ++
      [.barrier .inter_cluster] ++
      (if cluster_idx = 0 then
        -- inter-cluster reduction
        ((List.range (cfg.cluster_num - 1)).map (fun j => j + 1)).flatMap
          (fun cluster_idx =>
            [.read (.partial_membership_cnt cluster_idx 0), .read final_membership_cnt,
             .write final_membership_cnt,
             .read (.partial_centroids cluster_idx 0), .read final_centroids,
             .write final_centroids]) ++
        -- normalize
        [.read final_membership_cnt, .read final_centroids, .write final_centroids]
       else [])
     else [])
   else []) ++
  [.barrier .global]

/-- The steps of core `core_idx` of cluster `cluster_idx` in `kmeans`: the DMA core (the core
`core_idx = P`) loads the samples and the initial centroids, then come a cluster barrier, the
`n_iter` iterations, a cluster barrier, and the write-back by the DMA core of cluster 0. -/
def kmeans_steps (cfg : snrt_config) (cluster_idx core_idx n_iter : Nat) : List kmeans_step :=
  let is_dm_core := decide (core_idx = cfg.compute_core_num)
  (if is_dm_core then
    [.write (.local_samples cluster_idx), .write (.local_centroids cluster_idx)]
   else []) ++
  [.barrier .cluster_hw] ++
  (List.range n_iter).flatMap (kmeans_iteration_steps cfg cluster_idx core_idx) ++
  [.barrier .cluster_hw] ++
  (if is_dm_core ∧ cluster_idx = 0 then [.read (.partial_centroids 0 0)] else [])

/-- How often the steps `t` enter the barrier `b`. -/
def barrier_count (b : kmeans_barrier) (t : List kmeans_step) : Nat :=
  t.count (.barrier b)

/-- Modelled from the spec: the cores that meet in one instance of a barrier. The cluster
barrier joins the cores of one cluster; the global barrier joins all cores; the inter-cluster
barrier joins the cores that call it ("entered only by core 0 of each cluster"). The
barriers are runtime functions outside the sources. -/
def same_barrier_group (b : kmeans_barrier) (cluster_a cluster_b : Nat) : Prop :=
  match b with
  | .cluster_hw => cluster_a = cluster_b
  | .global => True
  | .inter_cluster => True

/-- Decidability of `same_barrier_group`. -/
instance same_barrier_group_decidable (b : kmeans_barrier) (cluster_a cluster_b : Nat) :
    Decidable (same_barrier_group b cluster_a cluster_b) := by
  cases b <;> unfold same_barrier_group <;> infer_instance

/-- Modelled from the spec: step number `p_first` of a core of cluster `c_first` with steps
`t_first` is separated from step number `p_then` of a core of cluster `c_then` with steps
`t_then` by a barrier that both cores enter: some barrier instance, the `n`-th of its kind
for both cores, is entered by the first core after its step and has been left by the other
core before its step. -/
def barrier_between (t_first : List kmeans_step) (c_first p_first : Nat)
    (t_then : List kmeans_step) (c_then p_then : Nat) : Prop :=
  ∃ b ∈ [kmeans_barrier.cluster_hw, .global, .inter_cluster],
    same_barrier_group b c_first c_then ∧
    barrier_count b (t_first.take p_first) < barrier_count b t_first ∧
    barrier_count b (t_first.take p_first) < barrier_count b (t_then.take p_then)

/-- Decidability of `barrier_between`. -/
instance barrier_between_decidable (t_first : List kmeans_step) (c_first p_first : Nat)
    (t_then : List kmeans_step) (c_then p_then : Nat) :
    Decidable (barrier_between t_first c_first p_first t_then c_then p_then) := by
  unfold barrier_between
  infer_instance

/-- Every read by a core of a location that a different core writes is separated from that
write by a barrier that both cores enter, in one order or the other. Cores are pairs
`(cluster, core)` with `core ≤ P`. -/
def kmeans_reads_separated (cfg : snrt_config) (n_iter : Nat) : Prop :=
  ∀ ka < cfg.cluster_num, ∀ ia < cfg.compute_core_num + 1,
  ∀ kb < cfg.cluster_num, ∀ ib < cfg.compute_core_num + 1, (ka, ia) ≠ (kb, ib) →
  ∀ pr < (kmeans_steps cfg ka ia n_iter).length,
  ∀ pw < (kmeans_steps cfg kb ib n_iter).length,
  ∀ l, (kmeans_steps cfg ka ia n_iter)[pr]? = some (.read l) →
    (kmeans_steps cfg kb ib n_iter)[pw]? = some (.write l) →
    barrier_between (kmeans_steps cfg kb ib n_iter) kb pw (kmeans_steps cfg ka ia n_iter) ka pr ∨
    barrier_between (kmeans_steps cfg ka ia n_iter) ka pr (kmeans_steps cfg kb ib n_iter) kb pw

/-! ### Doubles with their infinities and NaN -/

/-- The values of a `double` as far as the identities of AXPY go: a finite value, taken as
an exact rational (the products and sums `0 * x`, `0 + y`, `1 * x`, `x + 0` are exact in
IEEE 754; the sign of a zero is left out), an infinity with its sign, or NaN. -/
inductive fp64 where
  | fin (q : ℚ)
  | inf (neg : Bool)
  | nan
deriving DecidableEq

/-- Multiplication of doubles with the non-finite cases of IEEE 754: NaN when an operand is
NaN and for zero times an infinity (the comment of `multiply_opt` in `gemm_v2.h` recalls
`0f * NaN = NaN` and `0f * INFINITY == NaN`). -/
def fp64.mul : fp64 → fp64 → fp64
  | .fin a, .fin b => .fin (a * b)
  | .fin a, .inf s => if a = 0 then .nan else .inf (if a < 0 then !s else s)
  | .inf s, .fin b => if b = 0 then .nan else .inf (if b < 0 then !s else s)
  | .inf s, .inf t => .inf (s != t)
  | .nan, _ => .nan
  | _, .nan => .nan

/-- Addition of doubles with the non-finite cases of IEEE 754: NaN when an operand is NaN
and for the sum of the two infinities of opposite sign. -/
def fp64.add : fp64 → fp64 → fp64
  | .fin a, .fin b => .fin (a + b)
  | .fin _, .inf s => .inf s
  | .inf s, .fin _ => .inf s
  | .inf s, .inf t => if s = t then .inf s else .nan
  | .nan, _ => .nan
  | _, .nan => .nan

/-- The operator `*` of `double`. -/
instance fp64_has_mul : Mul fp64 := ⟨fp64.mul⟩

/-- The operator `+` of `double`. -/
instance fp64_has_add : Add fp64 := ⟨fp64.add⟩

theorem forLoop_zero {σ : Type} (body : Nat → σ → σ) (s : σ) : forLoop 0 body s = s := rfl

theorem forLoop_succ {σ : Type} (n : Nat) (body : Nat → σ → σ) (s : σ) :
    forLoop (n + 1) body s = body n (forLoop n body s) := by
  simp [forLoop, List.range_succ]

theorem u32_of_lt {n : Nat} (h : n < 2 ^ 32) : u32 n = n := Nat.mod_eq_of_lt h

theorem toInt32_of_lt {n : Nat} (h : n < 2 ^ 31) : toInt32 n = (n : Int) := by
  unfold toInt32
  split <;> omega

/-- With `l = C * P * q` in the range of `int`, the index computations of `axpy_job` and
`axpy` do not wrap. -/
theorem axpy_index_eval (C P q : Nat) (hC : 0 < C) (hP : 0 < P) (hl : C * P * q < 2 ^ 31) :
    axpy_job_frac C (C * P * q) = P * q ∧
    toInt32 (u32 (P * q) / u32 P) = (q : Int) ∧
    (∀ k, k < C → axpy_job_offset C (C * P * q) k = P * q * k) ∧
    (∀ i, i < P → toInt32 i * (q : Int) = ((i * q : Nat) : Int)) := by
  rcases Nat.eq_zero_or_pos q with hq | hq
  · subst hq
    simp [axpy_job_frac, axpy_job_offset, u32, toInt32]
  · have hPq : P * q ≤ C * P * q := by
      calc P * q = 1 * (P * q) := by ring
        _ ≤ C * (P * q) := Nat.mul_le_mul_right _ hC
        _ = C * P * q := by ring
    have hCle : C ≤ C * P * q := by
      calc C = C * 1 := by ring
        _ ≤ C * (P * q) := Nat.mul_le_mul_left _ (Nat.mul_pos hP hq)
        _ = C * P * q := by ring
    have hPle : P ≤ P * q := Nat.le_mul_of_pos_right _ hq
    have hqle : q ≤ P * q := Nat.le_mul_of_pos_left _ hP
    have e1 : C * P * q / C = P * q := by
      rw [Nat.mul_assoc]; exact Nat.mul_div_cancel_left _ hC
    have e2 : P * q / P = q := Nat.mul_div_cancel_left _ hP
    have hfrac : axpy_job_frac C (C * P * q) = P * q := by
      unfold axpy_job_frac
      rw [u32_of_lt (by omega : C * P * q < 2 ^ 32), u32_of_lt (by omega : C < 2 ^ 32), e1,
        u32_of_lt (by omega)]
    refine ⟨hfrac, ?_, ?_, ?_⟩
    · rw [u32_of_lt (by omega : P * q < 2 ^ 32), u32_of_lt (by omega : P < 2 ^ 32), e2,
        toInt32_of_lt (by omega)]
    · intro k hk
      unfold axpy_job_offset
      rw [hfrac]
      have : P * q * k ≤ C * P * q := by
        calc P * q * k ≤ P * q * C := Nat.mul_le_mul_left _ hk.le
          _ = C * P * q := by ring
      exact u32_of_lt (by omega)
    · intro i hi
      rw [toInt32_of_lt (by omega)]
      push_cast; ring

theorem axpy_owns_iff (C P q k i j : Nat) (hC : 0 < C) (hP : 0 < P)
    (hl : C * P * q < 2 ^ 31) (hk : k < C) (hi : i < P) :
    axpy_owns C P (C * P * q) k i j ↔ (k * P + i) * q ≤ j ∧ j < (k * P + i) * q + q := by
  obtain ⟨h1, h2, h3, h4⟩ := axpy_index_eval C P q hC hP hl
  unfold axpy_owns
  simp only [h1, h2, h3 k hk, h4 i hi]
  have e : P * q * k + i * q = (k * P + i) * q := by ring
  constructor
  · rintro ⟨a, b⟩
    rw [← e]
    constructor <;> omega
  · rintro ⟨a, b⟩
    rw [← e] at a b
    constructor <;> omega

theorem block_index_unique (q t t' j : Nat)
    (h1 : t * q ≤ j) (h2 : j < t * q + q) (h1' : t' * q ≤ j) (h2' : j < t' * q + q) : t = t' := by
  have hq : 0 < q := by
    rcases Nat.eq_zero_or_pos q with h | h
    · subst h; omega
    · exact h
  have a : t = j / q := by
    symm; apply Nat.div_eq_of_lt_le
    · exact h1
    · have : j < (t + 1) * q := by rw [Nat.add_mul]; omega
      exact this
  have b : t' = j / q := by
    symm; apply Nat.div_eq_of_lt_le
    · exact h1'
    · have : j < (t' + 1) * q := by rw [Nat.add_mul]; omega
      exact this
  omega

/-- The index ranges `axpy_owns`, for `L` divisible by `C * P` (and representable as an
`int`): the range of compute core `i` of cluster `k` is
`[k*(L/C) + i*((L/C)/P), k*(L/C) + i*((L/C)/P) + (L/C)/P)`; the ranges of distinct
(cluster, core) pairs are disjoint and their union is exactly `[0, L)`. -/
theorem axpy_owns_partition (C P L : Nat) (hdiv : C * P ∣ L) (hL : L < 2 ^ 31) :
    (∀ k i j, k < C → i < P →
      (axpy_owns C P L k i j ↔
        k * (L / C) + i * (L / C / P) ≤ j ∧ j < k * (L / C) + i * (L / C / P) + L / C / P)) ∧
    (∀ k i k' i' j, k < C → i < P → k' < C → i' < P →
      axpy_owns C P L k i j → axpy_owns C P L k' i' j → k = k' ∧ i = i') ∧
    (∀ j, j < L ↔ ∃ k i, k < C ∧ i < P ∧ axpy_owns C P L k i j) := by
  rcases Nat.eq_zero_or_pos C with hC | hC
  · subst hC
    have hL0 : L = 0 := by simpa using hdiv
    subst hL0
    refine ⟨?_, ?_, ?_⟩
    · intro k i j hk; omega
    · intro k i k' i' j hk; omega
    · intro j; constructor
      · intro h; omega
      · rintro ⟨k, i, hk, _⟩; omega
  rcases Nat.eq_zero_or_pos P with hP | hP
  · subst hP
    have hL0 : L = 0 := by simpa using hdiv
    subst hL0
    refine ⟨?_, ?_, ?_⟩
    · intro k i j hk hi; omega
    · intro k i k' i' j hk hi; omega
    · intro j; constructor
      · intro h; omega
      · rintro ⟨k, i, _, hi, _⟩; omega
  obtain ⟨q, rfl⟩ := hdiv
  have e1 : C * P * q / C = P * q := by
    rw [Nat.mul_assoc]; exact Nat.mul_div_cancel_left _ hC
  have e2 : P * q / P = q := Nat.mul_div_cancel_left _ hP
  refine ⟨?_, ?_, ?_⟩
  · intro k i j hk hi
    rw [axpy_owns_iff C P q k i j hC hP hL hk hi, e1, e2]
    have e : k * (P * q) + i * q = (k * P + i) * q := by ring
    rw [e]
  · intro k i k' i' j hk hi hk' hi' h h'
    rw [axpy_owns_iff C P q k i j hC hP hL hk hi] at h
    rw [axpy_owns_iff C P q k' i' j hC hP hL hk' hi'] at h'
    have ht := block_index_unique q _ _ j h.1 h.2 h'.1 h'.2
    have hk2 : k = k' := by
      have a : (k * P + i) / P = k := by
        rw [Nat.mul_comm, Nat.mul_add_div hP, Nat.div_eq_of_lt hi]; rfl
      have b : (k' * P + i') / P = k' := by
        rw [Nat.mul_comm, Nat.mul_add_div hP, Nat.div_eq_of_lt hi']; rfl
      rw [← a, ← b, ht]
    subst hk2
    exact ⟨rfl, by omega⟩
  · intro j
    constructor
    · intro hj
      have hq : 0 < q := by
        rcases Nat.eq_zero_or_pos q with h | h
        · subst h; simp at hj
        · exact h
      have ht : j / q < C * P := by
        rw [Nat.div_lt_iff_lt_mul hq]; exact hj
      have hk : j / q / P < C := by
        rw [Nat.div_lt_iff_lt_mul hP]; exact ht
      have hi : j / q % P < P := Nat.mod_lt _ hP
      refine ⟨j / q / P, j / q % P, hk, hi, ?_⟩
      rw [axpy_owns_iff C P q _ _ j hC hP hL hk hi]
      have e : j / q / P * P + j / q % P = j / q := by
        rw [Nat.mul_comm]; exact Nat.div_add_mod _ _
      rw [e]
      have := Nat.div_add_mod j q
      have := Nat.mod_lt j hq
      rw [Nat.mul_comm]
      constructor <;> omega
    · rintro ⟨k, i, hk, hi, h⟩
      rw [axpy_owns_iff C P q k i j hC hP hL hk hi] at h
      have : (k * P + i) * q + q ≤ C * P * q := by
        have h1 : k * P + i + 1 ≤ C * P := by
          have : (k + 1) * P ≤ C * P := Nat.mul_le_mul_right _ hk
          rw [Nat.add_mul] at this; omega
        calc (k * P + i) * q + q = (k * P + i + 1) * q := by ring
          _ ≤ C * P * q := Nat.mul_le_mul_right _ h1
      omega

theorem axpy_eq {α : Type} [Mul α] [Add α] (P i q : Nat) (a : α) (x y z : Nat) (m : Nat → α)
    (hP : 0 < P) (hi : i < P) (hl : P * q < 2 ^ 31) :
    axpy P i (P * q) a x y z m =
      forLoop q (fun t m =>
        Function.update m (z + (i * q + t)) (a * m (x + (i * q + t)) + m (y + (i * q + t)))) m := by
  have h2 : toInt32 (u32 (P * q) / u32 P) = (q : Int) := by
    rcases Nat.eq_zero_or_pos q with hq | hq
    · subst hq; simp [u32, toInt32]
    · have hPle : P ≤ P * q := Nat.le_mul_of_pos_right _ hq
      have hqle : q ≤ P * q := Nat.le_mul_of_pos_left _ hP
      rw [u32_of_lt (by omega : P * q < 2 ^ 32), u32_of_lt (by omega : P < 2 ^ 32),
        Nat.mul_div_cancel_left _ hP, toInt32_of_lt (by omega)]
  have h4 : toInt32 i * (q : Int) = ((i * q : Nat) : Int) := by
    rcases Nat.eq_zero_or_pos q with hq | hq
    · subst hq; simp
    · have hPle : P ≤ P * q := Nat.le_mul_of_pos_right _ hq
      rw [toInt32_of_lt (by omega)]; push_cast; ring
  unfold axpy
  have key : ∀ t : Nat, (((i * q : Nat) : Int) + (t : Int)).toNat = i * q + t := by
    intro t; omega
  simp only [h2, h4, Int.toNat_ofNat, key]

/-- The loop of one compute core writes `a * x + y` on its range of `z` and nothing else,
when the ranges read lie below the range written. -/
theorem axpy_loop_spec {α : Type} [Mul α] [Add α] (a : α) (x y z o q : Nat) (m : Nat → α)
    (hx : x + o + q ≤ z + o) (hy : y + o + q ≤ z + o) (n : Nat) (hn : n ≤ q) (idx : Nat) :
    forLoop n (fun t m =>
        Function.update m (z + (o + t)) (a * m (x + (o + t)) + m (y + (o + t)))) m idx =
      if z + o ≤ idx ∧ idx < z + o + n then a * m (x + (idx - z)) + m (y + (idx - z))
      else m idx := by
  induction n generalizing idx with
  | zero =>
    rw [forLoop_zero, if_neg (by omega)]
  | succ n ih =>
    rw [forLoop_succ]
    by_cases h : idx = z + (o + n)
    · subst h
      rw [Function.update_same, if_pos (by omega)]
      rw [ih (by omega) (x + (o + n)), ih (by omega) (y + (o + n)), if_neg (by omega),
        if_neg (by omega)]
      have e : z + (o + n) - z = o + n := by omega
      rw [e]
    · rw [Function.update_noteq h, ih (by omega) idx]
      by_cases h2 : z + o ≤ idx ∧ idx < z + o + n
      · rw [if_pos h2, if_pos (by omega)]
      · rw [if_neg h2, if_neg (by omega)]

/-- The compute phase of one cluster: after the first `n` compute cores have run `axpy`,
the first `n * q` elements of `local_z` hold `a * local_x + local_y`. -/
theorem axpy_cores_spec {α : Type} [Mul α] [Add α] (P q : Nat) (a : α) (m : Nat → α)
    (hP : 0 < P) (hl : P * q < 2 ^ 31) (n : Nat) (hn : n ≤ P) (idx : Nat) :
    forLoop n (fun core_idx t => axpy P core_idx (P * q) a 0 (0 + P * q) (0 + P * q + P * q) t)
        m idx =
      if P * q + P * q ≤ idx ∧ idx < P * q + P * q + n * q
      then a * m (idx - (P * q + P * q)) + m (P * q + (idx - (P * q + P * q)))
      else m idx := by
  induction n generalizing idx with
  | zero =>
    rw [forLoop_zero, if_neg (by omega)]
  | succ n ih =>
    rw [forLoop_succ, axpy_eq P n q a _ _ _ _ hP (by omega) hl]
    have hnq : n * q + q ≤ P * q := by
      have : (n + 1) * q ≤ P * q := Nat.mul_le_mul_right _ hn
      rw [Nat.add_mul] at this; omega
    have e1 : (n + 1) * q = n * q + q := by ring
    rw [axpy_loop_spec a _ _ _ (n * q) q _ (by omega) (by omega) q le_rfl idx]
    by_cases h : 0 + P * q + P * q + n * q ≤ idx ∧ idx < 0 + P * q + P * q + n * q + q
    · rw [if_pos h, if_pos (by omega)]
      rw [ih (by omega), ih (by omega), if_neg (by omega), if_neg (by omega)]
      have e2 : 0 + (idx - (0 + P * q + P * q)) = idx - (P * q + P * q) := by omega
      have e3 : 0 + P * q + (idx - (0 + P * q + P * q)) = P * q + (idx - (P * q + P * q)) := by
        omega
      rw [e2, e3]
    · rw [if_neg h, ih (by omega) idx]
      by_cases h2 : P * q + P * q ≤ idx ∧ idx < P * q + P * q + n * q
      · rw [if_pos h2, if_pos (by omega)]
      · rw [if_neg h2, if_neg (by omega)]
/-- The effect of `axpy_job` on the caller's `z`, for one cluster. -/
theorem axpy_job_spec {α : Type} [Mul α] [Add α] (C P q k : Nat) (a : α)
    (x y z tcdm : Nat → α) (hC : 0 < C) (hP : 0 < P) (hl : C * P * q * 8 < 2 ^ 32)
    (hk : k < C) (j : Nat) :
    (axpy_job C P k ⟨C * P * q, a⟩ x y z tcdm).1 j =
      if P * q * k ≤ j ∧ j < P * q * k + P * q then a * x j + y j else z j := by
  obtain ⟨h1, -, h3, -⟩ := axpy_index_eval C P q hC hP (by omega)
  have hPq : P * q ≤ C * P * q := by
    calc P * q = 1 * (P * q) := by ring
      _ ≤ C * (P * q) := Nat.mul_le_mul_right _ hC
      _ = C * P * q := by ring
  have hsize : u32 (P * q * sizeof_double) / sizeof_double = P * q := by
    unfold sizeof_double
    rw [u32_of_lt (by omega)]
    exact Nat.mul_div_cancel _ (by decide)
  unfold axpy_job
  simp only [h1, h3 k hk, hsize]
  unfold snrt_dma_start_1d
  simp only [hsize]
  by_cases h : P * q * k ≤ j ∧ j < P * q * k + P * q
  · rw [if_pos h, if_pos h]
    rw [axpy_cores_spec P q a _ hP (by omega) P le_rfl, if_pos (by constructor <;> omega)]
    have e1 : 0 + P * q + P * q + (j - P * q * k) - (P * q + P * q) = j - P * q * k := by omega
    rw [e1, if_neg (by omega), if_pos (by omega), if_pos (by omega)]
    have e2 : P * q * k + (j - P * q * k - 0) = j := by omega
    have e3 : P * q * k + (P * q + (j - P * q * k) - (0 + P * q)) = j := by omega
    rw [e2, e3]
  · rw [if_neg h, if_neg h]

theorem axpy_fabric_spec {α : Type} [Mul α] [Add α] (C P q : Nat) (a : α)
    (x y z : Nat → α) (tcdm : Nat → Nat → α) (hC : 0 < C) (hP : 0 < P)
    (hl : C * P * q * 8 < 2 ^ 32) (n : Nat) (hn : n ≤ C) (j : Nat) :
    forLoop n (fun k z => (axpy_job C P k ⟨C * P * q, a⟩ x y z (tcdm k)).1) z j =
      if j < n * (P * q) then a * x j + y j else z j := by
  induction n generalizing j with
  | zero => rw [forLoop_zero, if_neg (by omega)]
  | succ n ih =>
    rw [forLoop_succ, axpy_job_spec C P q n a x y _ _ hC hP hl (by omega) j, ih (by omega) j]
    have e : (n + 1) * (P * q) = P * q * n + P * q := by ring
    have e' : n * (P * q) = P * q * n := by ring
    rw [e, e']
    by_cases h : P * q * n ≤ j ∧ j < P * q * n + P * q
    · rw [if_pos h, if_pos h.2]
    · rw [if_neg h]
      by_cases h2 : j < P * q * n
      · rw [if_pos h2, if_pos (by omega)]
      · rw [if_neg h2, if_neg (by omega)]

/-- C1: for every length `L` divisible by `C * P` whose arrays fit the 32-bit address space
(`L * 8` bytes), and all `a`, `x`, `y`, after `axpy_job` has run on every core of every
cluster the caller's output satisfies `z[j] = a * x[j] + y[j]` for every `j < L`. -/
theorem axpy_fabric_correct {α : Type} [Mul α] [Add α] (C P L : Nat) (a : α)
    (x y z : Nat → α) (tcdm : Nat → Nat → α) (hdiv : C * P ∣ L) (hfit : L * 8 < 2 ^ 32) :
    ∀ j, j < L → axpy_fabric C P ⟨L, a⟩ x y z tcdm j = a * x j + y j := by
  intro j hj
  rcases Nat.eq_zero_or_pos C with hC | hC
  · subst hC
    have hL0 : L = 0 := by simpa using hdiv
    omega
  rcases Nat.eq_zero_or_pos P with hP | hP
  · subst hP
    have hL0 : L = 0 := by simpa using hdiv
    omega
  obtain ⟨q, rfl⟩ := hdiv
  unfold axpy_fabric
  rw [axpy_fabric_spec C P q a x y z tcdm hC hP hfit C le_rfl j, if_pos]
  calc j < C * P * q := hj
    _ = C * (P * q) := by ring

/-- C1, the scenario of the specification: `L = 256`, `C = 2`, `P = 8`, `a = 2`,
`x = [1..256]`, `y = [0..255]` give `z[j] = 3j + 2`. -/
theorem axpy_fabric_correct_witness :
    2 * 8 ∣ 256 ∧ 256 * 8 < 2 ^ 32 ∧
    ∀ j, j < 256 →
      axpy_fabric 2 8 ⟨256, (2 : Int)⟩ (fun j => (j : Int) + 1) (fun j => (j : Int))
        (fun _ => 0) (fun _ _ => 0) j = 3 * (j : Int) + 2 := by
  refine ⟨by decide, by decide, ?_⟩
  intro j hj
  rw [axpy_fabric_correct 2 8 256 (2 : Int) _ _ _ _ (by decide) (by decide) j hj]
  ring

theorem gemm_n_tiles_eval (args : gemm_args_t)
    (h2 : args.m_tiles * args.k_tiles + 2 < 2 ^ 31) :
    gemm_n_tiles args = ((args.m_tiles * args.k_tiles : Nat) : Int) := by
  unfold gemm_n_tiles
  rw [u32_of_lt (by omega), toInt32_of_lt (by omega)]

/-- C8: with `n_tiles = m_tiles * k_tiles ≥ 1` (and `n_tiles + 2` representable as an `int`),
the loop of `gemm` runs the stages `i = 0 .. n_tiles + 1`; stage `i` DMAs in tile `t` iff
`i = t`, and then issues the loads of the A-slab `(t / k_tiles, t % k_tiles)` and of the
B-slab `(0, t % k_tiles)` into slot `t % 2`; stage `i` computes tile `t` iff `i = t + 1`; no
stage DMAs in or computes a tile outside `[0, n_tiles)`. -/
theorem gemm_pipeline (args : gemm_args_t) (h1 : 1 ≤ args.m_tiles * args.k_tiles)
    (h2 : args.m_tiles * args.k_tiles + 2 < 2 ^ 31) :
    (gemm args).length = args.m_tiles * args.k_tiles + 2 ∧
    (∀ i, i < args.m_tiles * args.k_tiles + 2 →
      (gemm args).get? i = some (gemm_iteration args i)) ∧
    (∀ i t, i < args.m_tiles * args.k_tiles + 2 → t < args.m_tiles * args.k_tiles →
      ((∃ d, (gemm_iteration args i).dma_in = some d ∧ d.i_dma_in = t) ↔ i = t) ∧
      ((∃ c, (gemm_iteration args i).compute = some c ∧ c.i_compute = t) ↔ i = t + 1)) ∧
    (∀ t, t < args.m_tiles * args.k_tiles →
      ∃ d, (gemm_iteration args t).dma_in = some d ∧ d.i_dma_in = t ∧
        (⟨false, .a, .local_a (t % 2), t / args.k_tiles, t % args.k_tiles,
            args.M / args.m_tiles, args.K / args.k_tiles, args.K, args.prec⟩ :
            tile_transfer) ∈ d.issued ∧
        (⟨false, .b, .local_b (t % 2), 0, t % args.k_tiles,
            args.N, args.K / args.k_tiles, args.K, args.prec⟩ : tile_transfer) ∈ d.issued) ∧
    (∀ i d, (gemm_iteration args i).dma_in = some d → d.i_dma_in < args.m_tiles * args.k_tiles) ∧
    (∀ i c, (gemm_iteration args i).compute = some c →
      c.i_compute < args.m_tiles * args.k_tiles) := by
  have hn := gemm_n_tiles_eval args h2
  have hit : (gemm_iterations args).toNat = args.m_tiles * args.k_tiles + 2 := by
    unfold gemm_iterations; rw [hn]; omega
  refine ⟨?_, ?_, ?_, ?_, ?_, ?_⟩
  · simp [gemm, hit]
  · intro i hi
    simp [gemm, hit, List.getElem?_map, List.getElem?_range hi]
  · intro i t hi ht
    constructor
    · constructor
      · rintro ⟨d, hd, hdt⟩
        simp only [gemm_iteration, hn] at hd
        split at hd
        · cases hd; simpa [gemm_dma_in_block] using hdt
        · cases hd
      · intro h
        subst h
        refine ⟨gemm_dma_in_block args i, ?_, rfl⟩
        simp only [gemm_iteration, hn]
        rw [if_pos (by exact_mod_cast ht)]
    · constructor
      · rintro ⟨c, hc, hct⟩
        simp only [gemm_iteration, hn] at hc
        split at hc
        · rename_i hg
          cases hc
          simp only [gemm_compute_block] at hct
          omega
        · cases hc
      · intro h
        subst h
        refine ⟨gemm_compute_block args (t + 1), ?_, by simp [gemm_compute_block]⟩
        simp only [gemm_iteration, hn]
        rw [if_pos]
        constructor
        · omega
        · push_cast; omega
  · intro t ht
    refine ⟨gemm_dma_in_block args t, ?_, rfl, ?_, ?_⟩
    · simp only [gemm_iteration, hn]
      rw [if_pos (by exact_mod_cast ht)]
    · simp [gemm_dma_in_block]
    · simp [gemm_dma_in_block]
  · intro i d hd
    simp only [gemm_iteration, hn] at hd
    split at hd
    · rename_i hg
      cases hd
      simp only [gemm_dma_in_block]
      exact_mod_cast hg
    · cases hd
  · intro i c hc
    simp only [gemm_iteration, hn] at hc
    split at hc
    · rename_i hg
      cases hc
      simp only [gemm_compute_block]
      omega
    · cases hc

/-- C8 on the tiled scenario `m_tiles = 2`, `k_tiles = 2` (`M = K = 32`, `N = 16`). -/
theorem gemm_pipeline_witness :
    (gemm ⟨8, 1, 2, 2, 0, 0, 32, 16, 32, 0⟩).length = 2 * 2 + 2 :=
  (gemm_pipeline ⟨8, 1, 2, 2, 0, 0, 32, 16, 32, 0⟩ (by decide) (by decide)).1
/-- C9, the code at a failing input (`M = K = 32`, `N = 16`, `m_tiles = k_tiles = 2`): at
stage 2 the block `DMA out` works on tile 0, which is not the last k-tile of its m-row
(`i_k = 0`, `c_move = false`), and still issues the store of `local_c[0]` to the caller's
`c`; over the whole loop the C-slab of m-row 0 is stored twice. -/
theorem gemm_dma_out_ignores_c_move :
    (gemm_iteration ⟨8, 1, 2, 2, 0, 0, 32, 16, 32, 0⟩ 2).dma_out =
      some { i_dma_out := 0, buff_idx := 0, i_m := 0, i_k := 0, c_buff_idx := 0,
             c_move := false,
             issued := [⟨true, .c, .local_c 0, 0, 0, 2, 16, 16, 8⟩] } ∧
    ((((gemm ⟨8, 1, 2, 2, 0, 0, 32, 16, 32, 0⟩).filterMap (fun s => s.dma_out)).map
      (fun d => d.issued)).flatten.filter (fun x => x.store && x.tile_x1_idx == 0)).length = 2 := by
  constructor
  · decide
  · decide

/-- C10, the code at a failing input (`M = K = 32`, `N = 16`, `m_tiles = k_tiles = 2`): at
stage 1 the block `DMA in` works on tile 1, which is not the first k-tile of its m-row
(`i_k = 1`, `c_move = false`), and still issues the load of the caller's `c` into
`local_c[0]`, the slot the partial sums of tile 0 are accumulated in. -/
theorem gemm_dma_in_ignores_c_move :
    (gemm_iteration ⟨8, 1, 2, 2, 0, 0, 32, 16, 32, 0⟩ 1).dma_in =
      some { i_dma_in := 1, buff_idx := 1, i_m := 0, i_k := 1, c_buff_idx := 0,
             c_move := false,
             issued := [⟨false, .a, .local_a 1, 0, 1, 16, 16, 32, 8⟩,
                        ⟨false, .b, .local_b 1, 0, 1, 16, 16, 32, 8⟩,
                        ⟨false, .c, .local_c 0, 0, 0, 2, 16, 16, 8⟩] } ∧
    (gemm_iteration ⟨8, 1, 2, 2, 0, 0, 32, 16, 32, 0⟩ 1).compute =
      some { i_compute := 0, buff_idx := 0, i_m := 0, i_k := 0, c_buff_idx := 0,
             a := .local_a 0, b := .local_b 0, beta := 0, c := .local_c 0 } := by
  constructor
  · decide
  · decide

/-! ### Generic facts on loops and memory -/

/-- A loop leaves a location unchanged that none of its iterations writes. `view` selects
the part of the state observed, `W t` bounds what iteration `t` writes. -/
theorem forLoop_frame {σ β : Type} (view : σ → Nat → β) (n : Nat) (body : Nat → σ → σ)
    (W : Nat → Nat → Prop)
    (hW : ∀ t, t < n → ∀ s a, ¬ W t a → view (body t s) a = view s a)
    (s : σ) (a : Nat) (ha : ∀ t, t < n → ¬ W t a) :
    view (forLoop n body s) a = view s a := by
  induction n with
  | zero => rfl
  | succ n ih =>
    rw [forLoop_succ, hW n (by omega) _ a (ha n (by omega))]
    exact ih (fun t ht => hW t (by omega)) (fun t ht => ha t (by omega))

/-- After a loop a location holds what the last iteration that may write it left there. -/
theorem forLoop_last {σ β : Type} (view : σ → Nat → β) (n : Nat) (body : Nat → σ → σ)
    (W : Nat → Nat → Prop)
    (hW : ∀ t, t < n → ∀ s a, ¬ W t a → view (body t s) a = view s a)
    (s : σ) (a : Nat) (t : Nat) (ht : t < n) (hlater : ∀ t', t < t' → t' < n → ¬ W t' a) :
    view (forLoop n body s) a = view (body t (forLoop t body s)) a := by
  induction n with
  | zero => omega
  | succ n ih =>
    rw [forLoop_succ]
    rcases Nat.lt_or_ge t n with h | h
    · rw [hW n (by omega) _ a (hlater n h (by omega))]
      exact ih (fun t ht => hW t (by omega)) h (fun t' h1 h2 => hlater t' h1 (by omega))
    · have : t = n := by omega
      subst this; rfl

@[simp] theorem Mem.store32_u32 (m : Mem) (a v b : Nat) :
    (m.store32 a v).u32 b = if b = a then v else m.u32 b := by
  simp [Mem.store32, Function.update_apply]

@[simp] theorem Mem.store32_f64 (m : Mem) (a v : Nat) : (m.store32 a v).f64 = m.f64 := rfl

@[simp] theorem Mem.store64_f64 (m : Mem) (a : Nat) (v : ℚ) (b : Nat) :
    (m.store64 a v).f64 b = if b = a then v else m.f64 b := by
  simp [Mem.store64, Function.update_apply]

@[simp] theorem Mem.store64_u32 (m : Mem) (a : Nat) (v : ℚ) : (m.store64 a v).u32 = m.u32 := rfl

theorem Mem.store32_store32 (m : Mem) (a v w : Nat) :
    (m.store32 a v).store32 a w = m.store32 a w := by
  simp [Mem.store32]

/-- The distance read by the assignment step depends on the `double` cells only. -/
theorem euclidean_distance_squared_congr (n_features : Nat) (m m' : Mem) (h : m.f64 = m'.f64)
    (p1 p2 : Nat) :
    euclidean_distance_squared n_features m p1 p2 =
      euclidean_distance_squared n_features m' p1 p2 := by
  unfold euclidean_distance_squared
  rw [h]

/-! ### K-Means: the assignment step -/

theorem nearest_state_spec (dist : Nat → ℚ) (n : Nat) (hn : 0 < n) :
    ∃ b, b < n ∧ nearest_state dist n = (some (dist b), b) ∧
      (∀ c, c < n → dist b ≤ dist c) ∧ (∀ c, c < b → dist b < dist c) := by
  induction n with
  | zero => omega
  | succ n ih =>
    rcases Nat.eq_zero_or_pos n with h0 | hpos
    · subst h0
      refine ⟨0, by omega, ?_, ?_, ?_⟩
      · simp [nearest_state, forLoop_succ, forLoop_zero, dist_lt]
      · intro c hc
        have : c = 0 := by omega
        subst this; exact le_rfl
      · intro c hc; omega
    · obtain ⟨b, hb, hs, hmin, hfirst⟩ := ih hpos
      have hstep : nearest_state dist (n + 1) =
          if dist_lt (dist n) (nearest_state dist n).1 then (some (dist n), n)
          else nearest_state dist n := by
        simp [nearest_state, forLoop_succ]
      rw [hstep, hs]
      by_cases hlt : dist n < dist b
      · refine ⟨n, by omega, ?_, ?_, ?_⟩
        · simp [dist_lt, hlt]
        · intro c hc
          rcases Nat.lt_or_ge c n with h | h
          · exact le_of_lt (lt_of_lt_of_le hlt (hmin c h))
          · have : c = n := by omega
            subst this; exact le_rfl
        · intro c hc
          exact lt_of_lt_of_le hlt (hmin c hc)
      · refine ⟨b, by omega, ?_, ?_, hfirst⟩
        · simp [dist_lt, hlt]
        · intro c hc
          rcases Nat.lt_or_ge c n with h | h
          · exact hmin c h
          · have : c = n := by omega
            subst this; exact not_lt.mp hlt

theorem nearest_lt (dist : Nat → ℚ) (n : Nat) (hn : 0 < n) : nearest dist n < n := by
  obtain ⟨b, hb, hs, -, -⟩ := nearest_state_spec dist n hn
  simp [nearest, hs, hb]

/-- The body of the sample loop stores the nearest centroid in `membership[sample_idx]` and
increments its counter. -/
theorem kmeans_assign_sample_eq (n_features n_clusters : Nat) (p : kmeans_ptrs)
    (sample_idx : Nat) (m : Mem) :
    kmeans_assign_sample n_features n_clusters p sample_idx m =
      (m.store32 (p.membership + sizeof_uint32 * sample_idx)
          (nearest (kmeans_dist n_features p m sample_idx) n_clusters)).store32
        (p.partial_membership_cnt +
          sizeof_uint32 * nearest (kmeans_dist n_features p m sample_idx) n_clusters)
        ((m.store32 (p.membership + sizeof_uint32 * sample_idx)
          (nearest (kmeans_dist n_features p m sample_idx) n_clusters)).u32
          (p.partial_membership_cnt +
            sizeof_uint32 * nearest (kmeans_dist n_features p m sample_idx) n_clusters) + 1) := by
  have hloop : ∀ n, forLoop n
      (fun centroid_idx (s : Option ℚ × Mem) =>
        let dist := euclidean_distance_squared n_features s.2
          (p.local_samples + sizeof_double * (sample_idx * n_features))
          (p.local_centroids + sizeof_double * (centroid_idx * n_features))
        if dist_lt dist s.1 then
          (some dist, s.2.store32 (p.membership + sizeof_uint32 * sample_idx) centroid_idx)
        else s)
      (none, m.store32 (p.membership + sizeof_uint32 * sample_idx) 0) =
      ((nearest_state (kmeans_dist n_features p m sample_idx) n).1,
        m.store32 (p.membership + sizeof_uint32 * sample_idx)
          (nearest_state (kmeans_dist n_features p m sample_idx) n).2) := by
    intro n
    induction n with
    | zero => simp [nearest_state, forLoop_zero]
    | succ n ih =>
      rw [forLoop_succ, ih]
      have hstep : nearest_state (kmeans_dist n_features p m sample_idx) (n + 1) =
          if dist_lt (kmeans_dist n_features p m sample_idx n)
              (nearest_state (kmeans_dist n_features p m sample_idx) n).1
          then (some (kmeans_dist n_features p m sample_idx n), n)
          else nearest_state (kmeans_dist n_features p m sample_idx) n := by
        simp [nearest_state, forLoop_succ]
      rw [hstep]
      have hd : euclidean_distance_squared n_features
          (m.store32 (p.membership + sizeof_uint32 * sample_idx)
            (nearest_state (kmeans_dist n_features p m sample_idx) n).2)
          (p.local_samples + sizeof_double * (sample_idx * n_features))
          (p.local_centroids + sizeof_double * (n * n_features)) =
          kmeans_dist n_features p m sample_idx n := rfl
      simp only [hd]
      split
      · simp [Mem.store32_store32]
      · rfl
  unfold kmeans_assign_sample
  simp only [hloop]
  simp only [Mem.store32_u32, if_true, nearest]

theorem kmeans_dist_congr (n_features : Nat) (p : kmeans_ptrs) (m m' : Mem) (h : m.f64 = m'.f64) :
    kmeans_dist n_features p m = kmeans_dist n_features p m' := by
  funext s c
  exact euclidean_distance_squared_congr n_features m m' h _ _

/-- The sample loop of the assignment step: memberships of the samples seen so far, counters,
and what is left untouched. `m0` is any memory with the same `double` cells. -/
theorem kmeans_assign_loop_spec (n_features n_clusters : Nat) (p : kmeans_ptrs) (start : Nat)
    (m0 m : Mem) (hK : 0 < n_clusters) (hf : m.f64 = m0.f64) (d : Nat)
    (hlay : p.membership + 4 * (start + d) ≤ p.partial_membership_cnt) :
    (forLoop d (fun t m => kmeans_assign_sample n_features n_clusters p (start + t) m) m).f64 =
        m0.f64 ∧
    (∀ t, t < d →
      (forLoop d (fun t m => kmeans_assign_sample n_features n_clusters p (start + t) m) m).u32
          (p.membership + 4 * (start + t)) =
        nearest (kmeans_dist n_features p m0 (start + t)) n_clusters) ∧
    (∀ c, c < n_clusters →
      (forLoop d (fun t m => kmeans_assign_sample n_features n_clusters p (start + t) m) m).u32
          (p.partial_membership_cnt + 4 * c) =
        m.u32 (p.partial_membership_cnt + 4 * c) +
          ∑ t in Finset.range d,
            if nearest (kmeans_dist n_features p m0 (start + t)) n_clusters = c then 1 else 0) ∧
    (∀ a, ¬ (p.membership + 4 * start ≤ a ∧ a < p.membership + 4 * (start + d)) →
      ¬ (p.partial_membership_cnt ≤ a ∧ a < p.partial_membership_cnt + 4 * n_clusters) →
      (forLoop d (fun t m => kmeans_assign_sample n_features n_clusters p (start + t) m) m).u32 a =
        m.u32 a) := by
  induction d with
  | zero =>
    refine ⟨hf, ?_, ?_, ?_⟩
    · intro t ht; omega
    · intro c hc; simp [forLoop_zero]
    · intro a _ _; rfl
  | succ d ih =>
    obtain ⟨ihf, ihm, ihc, ihfr⟩ := ih (by omega)
    have hnb := nearest_lt (kmeans_dist n_features p m0 (start + d)) n_clusters hK
    rw [forLoop_succ, kmeans_assign_sample_eq, kmeans_dist_congr n_features p _ m0 ihf]
    simp only [sizeof_uint32]
    refine ⟨?_, ?_, ?_, ?_⟩
    · simp only [Mem.store32_f64]; exact ihf
    · intro t ht
      simp only [Mem.store32_u32]
      rw [if_neg (by omega)]
      rcases Nat.lt_or_ge t d with h | h
      · rw [if_neg (by omega)]; exact ihm t h
      · have : t = d := by omega
        subst this
        rw [if_pos rfl]
    · intro c hc
      simp only [Mem.store32_u32]
      rw [Finset.sum_range_succ]
      by_cases hcc : nearest (kmeans_dist n_features p m0 (start + d)) n_clusters = c
      · subst hcc
        rw [if_pos rfl, if_neg (by omega), if_pos rfl, ihc _ hnb]
        omega
      · rw [if_neg (by omega), if_neg (by omega), if_neg hcc, ihc c hc]
        omega
    · intro a h1 h2
      simp only [Mem.store32_u32]
      rw [if_neg (by omega), if_neg (by omega)]
      exact ihfr a (by omega) h2

/-- The loop that zeroes a counter array. -/
theorem zero_cnt_loop_spec (cnt : Nat) (m : Mem) (n : Nat) :
    (forLoop n (fun c m => m.store32 (cnt + 4 * c) 0) m).f64 = m.f64 ∧
    (∀ c, c < n → (forLoop n (fun c m => m.store32 (cnt + 4 * c) 0) m).u32 (cnt + 4 * c) = 0) ∧
    (∀ a, ¬ (cnt ≤ a ∧ a < cnt + 4 * n) →
      (forLoop n (fun c m => m.store32 (cnt + 4 * c) 0) m).u32 a = m.u32 a) := by
  induction n with
  | zero =>
    refine ⟨rfl, ?_, ?_⟩
    · intro c hc; omega
    · intro a _; rfl
  | succ n ih =>
    obtain ⟨ihf, ihz, ihfr⟩ := ih
    rw [forLoop_succ]
    refine ⟨?_, ?_, ?_⟩
    · simp only [Mem.store32_f64]; exact ihf
    · intro c hc
      simp only [Mem.store32_u32]
      rcases Nat.lt_or_ge c n with h | h
      · rw [if_neg (by omega)]; exact ihz c h
      · have : c = n := by omega
        subst this; rw [if_pos rfl]
    · intro a ha
      simp only [Mem.store32_u32]
      rw [if_neg (by omega)]
      exact ihfr a (by omega)

/-- The assignment step of one compute core, when its counters lie above the part of the
membership array it owns. `q` is the number of samples per core. -/
theorem kmeans_assignment_step_spec (cfg : snrt_config) (core_idx : Nat)
    (n_samples n_features n_clusters : Nat) (p : kmeans_ptrs) (m : Mem) (hK : 0 < n_clusters)
    (q : Nat) (hq : n_samples / cfg.cluster_num / cfg.compute_core_num = q)
    (hlay : p.membership + 4 * (core_idx * q + q) ≤ p.partial_membership_cnt) :
    (kmeans_assignment_step cfg core_idx n_samples n_features n_clusters p m).f64 = m.f64 ∧
    (∀ t, t < q →
      (kmeans_assignment_step cfg core_idx n_samples n_features n_clusters p m).u32
          (p.membership + 4 * (core_idx * q + t)) =
        nearest (kmeans_dist n_features p m (core_idx * q + t)) n_clusters) ∧
    (∀ c, c < n_clusters →
      (kmeans_assignment_step cfg core_idx n_samples n_features n_clusters p m).u32
          (p.partial_membership_cnt + 4 * c) =
        ∑ t in Finset.range q,
          if nearest (kmeans_dist n_features p m (core_idx * q + t)) n_clusters = c
          then 1 else 0) ∧
    (∀ a,
      ¬ (p.membership + 4 * (core_idx * q) ≤ a ∧ a < p.membership + 4 * (core_idx * q + q)) →
      ¬ (p.partial_membership_cnt ≤ a ∧ a < p.partial_membership_cnt + 4 * n_clusters) →
      (kmeans_assignment_step cfg core_idx n_samples n_features n_clusters p m).u32 a =
        m.u32 a) := by
  obtain ⟨zf, zz, zfr⟩ := zero_cnt_loop_spec p.partial_membership_cnt m n_clusters
  have hstep : kmeans_assignment_step cfg core_idx n_samples n_features n_clusters p m =
      forLoop q (fun t m => kmeans_assign_sample n_features n_clusters p (core_idx * q + t) m)
        (forLoop n_clusters (fun c m => m.store32 (p.partial_membership_cnt + 4 * c) 0) m) := by
    unfold kmeans_assignment_step
    simp only [hq, sizeof_uint32, Nat.add_sub_cancel_left]
  rw [hstep]
  obtain ⟨lf, lm, lc, lfr⟩ := kmeans_assign_loop_spec n_features n_clusters p (core_idx * q) m
    (forLoop n_clusters (fun c m => m.store32 (p.partial_membership_cnt + 4 * c) 0) m) hK zf q hlay
  refine ⟨lf, lm, ?_, ?_⟩
  · intro c hc
    rw [lc c hc, zz c hc, Nat.zero_add]
  · intro a h1 h2
    rw [lfr a h1 h2, zfr a h2]

theorem mul_step_le (a i j : Nat) (h : i < j) : a * i + a ≤ a * j := by
  calc a * i + a = a * (i + 1) := by ring
    _ ≤ a * j := Nat.mul_le_mul_left _ h

theorem step_mul_le (a i j : Nat) (h : i < j) : i * a + a ≤ j * a := by
  calc i * a + a = (i + 1) * a := by ring
    _ ≤ j * a := Nat.mul_le_mul_right _ h

/-- The pointers that `kmeans_alloc` returns on core `i` of cluster `k`, in closed form. -/
theorem kmeans_alloc_eval (cfg : snrt_config) (k i : Nat) (n_samples n_features n_clusters : Nat)
    (hk : k < cfg.cluster_num) (hfit : kmeans_fits cfg n_samples n_features n_clusters) :
    kmeans_alloc cfg k i n_samples n_features n_clusters =
      { local_samples := cfg.l1_start + k * cfg.cluster_offset,
        local_centroids := cfg.l1_start + k * cfg.cluster_offset +
          n_samples / cfg.cluster_num * n_features * 8,
        membership := cfg.l1_start + k * cfg.cluster_offset +
          n_samples / cfg.cluster_num * n_features * 8 + n_clusters * n_features * 8,
        final_membership_cnt := cfg.l1_start +
          n_samples / cfg.cluster_num * n_features * 8 + n_clusters * n_features * 8 +
          n_samples / cfg.cluster_num * 4,
        partial_membership_cnt := cfg.l1_start + k * cfg.cluster_offset +
          n_samples / cfg.cluster_num * n_features * 8 + n_clusters * n_features * 8 +
          n_samples / cfg.cluster_num * 4 + n_clusters * 4 * i,
        final_centroids := cfg.l1_start +
          n_samples / cfg.cluster_num * n_features * 8 + n_clusters * n_features * 8 +
          n_samples / cfg.cluster_num * 4 + n_clusters * 4 * cfg.compute_core_num,
        partial_centroids := cfg.l1_start + k * cfg.cluster_offset +
          n_samples / cfg.cluster_num * n_features * 8 + n_clusters * n_features * 8 +
          n_samples / cfg.cluster_num * 4 + n_clusters * 4 * cfg.compute_core_num +
          n_clusters * n_features * 8 * i } := by
  obtain ⟨h1, h2⟩ := hfit
  simp only [kmeans_footprint, sizeof_double, sizeof_uint32] at h1
  have hkS := step_mul_le cfg.cluster_offset k cfg.cluster_num hk
  have hwrap : ∀ off, off ≤ cfg.cluster_offset →
      u32 (u32 (cfg.l1_start + k * cfg.cluster_offset + off) + 2 ^ 32 -
        u32 (k * cfg.cluster_offset)) = cfg.l1_start + off := by
    intro off hoff
    rw [u32_of_lt (by omega : cfg.l1_start + k * cfg.cluster_offset + off < 2 ^ 32),
      u32_of_lt (by omega : k * cfg.cluster_offset < 2 ^ 32)]
    have e : cfg.l1_start + k * cfg.cluster_offset + off + 2 ^ 32 - k * cfg.cluster_offset =
        cfg.l1_start + off + 2 ^ 32 := by omega
    rw [e]
    unfold u32
    omega
  have e1 := hwrap (n_samples / cfg.cluster_num * n_features * 8 + n_clusters * n_features * 8 +
    n_samples / cfg.cluster_num * 4) (by omega)
  have e2 := hwrap (n_samples / cfg.cluster_num * n_features * 8 + n_clusters * n_features * 8 +
    n_samples / cfg.cluster_num * 4 + n_clusters * 4 * cfg.compute_core_num) (by omega)
  simp only [kmeans_alloc, snrt_l1_next, snrt_l1_alloc_cluster_private, snrt_l1_alloc_common,
    snrt_l1_alloc_compute_core_private, sizeof_double, sizeof_uint32]
  simp only [← Nat.add_assoc] at e1 e2 ⊢
  rw [e1, e2]

/-- From cluster 0, `snrt_remote_cluster_ptr` reaches the same offset in cluster `k`. -/
theorem snrt_remote_cluster_ptr_eval (cfg : snrt_config) (src k : Nat)
    (hsrc : src + k * cfg.cluster_offset < 2 ^ 32) (hk : k < 2 ^ 32) :
    snrt_remote_cluster_ptr cfg src 0 k = src + k * cfg.cluster_offset := by
  unfold snrt_remote_cluster_ptr
  have e0 : u32 0 = 0 := rfl
  rw [u32_of_lt (by omega : src < 2 ^ 32), u32_of_lt hk, e0]
  have e : k + 2 ^ 32 - 0 = k + 2 ^ 32 := by omega
  have e' : u32 (k + 2 ^ 32) = k := by unfold u32; omega
  rw [e, e', u32_of_lt (by omega : k * cfg.cluster_offset < 2 ^ 32), u32_of_lt hsrc]

/-- The pointers of a core that do not change over the iterations, in closed form; `spc` is
the number of samples per cluster. -/
theorem kmeans_core_ptrs_eval (cfg : snrt_config) (k i : Nat)
    (n_samples n_features n_clusters iter_idx : Nat)
    (hk : k < cfg.cluster_num) (hfit : kmeans_fits cfg n_samples n_features n_clusters)
    (spc : Nat) (hspc : n_samples / cfg.cluster_num = spc) :
    (kmeans_core_ptrs cfg k i n_samples n_features n_clusters iter_idx).local_samples =
      cfg.l1_start + k * cfg.cluster_offset ∧
    (kmeans_core_ptrs cfg k i n_samples n_features n_clusters iter_idx).membership =
      cfg.l1_start + k * cfg.cluster_offset + spc * n_features * 8 + n_clusters * n_features * 8 ∧
    (kmeans_core_ptrs cfg k i n_samples n_features n_clusters iter_idx).final_membership_cnt =
      cfg.l1_start + spc * n_features * 8 + n_clusters * n_features * 8 + spc * 4 ∧
    (kmeans_core_ptrs cfg k i n_samples n_features n_clusters iter_idx).partial_membership_cnt =
      cfg.l1_start + k * cfg.cluster_offset + spc * n_features * 8 + n_clusters * n_features * 8 +
        spc * 4 + n_clusters * 4 * i ∧
    (kmeans_core_ptrs cfg k i n_samples n_features n_clusters iter_idx).final_centroids =
      cfg.l1_start + spc * n_features * 8 + n_clusters * n_features * 8 + spc * 4 +
        n_clusters * 4 * cfg.compute_core_num ∧
    (kmeans_core_ptrs cfg k i n_samples n_features n_clusters iter_idx).partial_centroids =
      cfg.l1_start + k * cfg.cluster_offset + spc * n_features * 8 + n_clusters * n_features * 8 +
        spc * 4 + n_clusters * 4 * cfg.compute_core_num + n_clusters * n_features * 8 * i := by
  subst hspc
  unfold kmeans_core_ptrs
  rw [kmeans_alloc_eval cfg k i n_samples n_features n_clusters hk hfit]
  split <;> exact ⟨rfl, rfl, rfl, rfl, rfl, rfl⟩

/-- The budget `kmeans_fits` with the sizes named: `spc` samples per cluster. -/
theorem kmeans_fits_eval (cfg : snrt_config) (n_samples n_features n_clusters : Nat)
    (hfit : kmeans_fits cfg n_samples n_features n_clusters)
    (spc : Nat) (hspc : n_samples / cfg.cluster_num = spc) :
    spc * n_features * 8 + n_clusters * n_features * 8 + spc * 4 +
        n_clusters * 4 * cfg.compute_core_num +
        n_clusters * n_features * 8 * cfg.compute_core_num ≤ cfg.cluster_offset ∧
      cfg.l1_start + cfg.cluster_num * cfg.cluster_offset < 2 ^ 32 := by
  subst hspc
  obtain ⟨h1, h2⟩ := hfit
  simp only [kmeans_footprint, sizeof_double, sizeof_uint32] at h1
  exact ⟨h1, h2⟩

/-- The samples and centroids that a core reads do not depend on the core within a cluster. -/
theorem kmeans_core_ptrs_dist (cfg : snrt_config) (k i : Nat)
    (n_samples n_features n_clusters iter_idx : Nat) (m : Mem) :
    kmeans_dist n_features (kmeans_core_ptrs cfg k i n_samples n_features n_clusters iter_idx) m =
      kmeans_dist n_features (kmeans_core_ptrs cfg k 0 n_samples n_features n_clusters iter_idx)
        m := by
  funext s c
  unfold kmeans_dist kmeans_core_ptrs kmeans_alloc
  split <;> rfl

/-- The assignment steps of the first `n` compute cores of cluster `k`, one after the other;
`spc` and `q` are the numbers of samples per cluster and per core. -/
theorem kmeans_assignment_cluster_spec (cfg : snrt_config) (k : Nat)
    (n_samples n_features n_clusters iter_idx : Nat) (m : Mem) (hK : 0 < n_clusters)
    (hk : k < cfg.cluster_num) (hfit : kmeans_fits cfg n_samples n_features n_clusters)
    (spc q : Nat) (hspc : n_samples / cfg.cluster_num = spc)
    (hq : n_samples / cfg.cluster_num / cfg.compute_core_num = q)
    (n : Nat) (hn : n ≤ cfg.compute_core_num) :
    (forLoop n (fun core_idx m =>
        kmeans_assignment_step cfg core_idx n_samples n_features n_clusters
          (kmeans_core_ptrs cfg k core_idx n_samples n_features n_clusters iter_idx) m) m).f64 =
      m.f64 ∧
    (∀ i t, i < n → t < q →
      (forLoop n (fun core_idx m =>
        kmeans_assignment_step cfg core_idx n_samples n_features n_clusters
          (kmeans_core_ptrs cfg k core_idx n_samples n_features n_clusters iter_idx) m) m).u32
          ((kmeans_core_ptrs cfg k 0 n_samples n_features n_clusters iter_idx).membership +
            4 * (i * q + t)) =
        nearest (kmeans_dist n_features
          (kmeans_core_ptrs cfg k 0 n_samples n_features n_clusters iter_idx) m
          (i * q + t)) n_clusters) ∧
    (∀ i c, i < n → c < n_clusters →
      (forLoop n (fun core_idx m =>
        kmeans_assignment_step cfg core_idx n_samples n_features n_clusters
          (kmeans_core_ptrs cfg k core_idx n_samples n_features n_clusters iter_idx) m) m).u32
          ((kmeans_core_ptrs cfg k i n_samples n_features n_clusters iter_idx).partial_membership_cnt
            + 4 * c) =
        ∑ t in Finset.range q,
          if nearest (kmeans_dist n_features
            (kmeans_core_ptrs cfg k 0 n_samples n_features n_clusters iter_idx) m
            (i * q + t)) n_clusters = c
          then 1 else 0) ∧
    (∀ a,
      ¬ ((kmeans_core_ptrs cfg k 0 n_samples n_features n_clusters iter_idx).membership ≤ a ∧
        a < (kmeans_core_ptrs cfg k 0 n_samples n_features n_clusters iter_idx).partial_membership_cnt
          + n_clusters * 4 * cfg.compute_core_num) →
      (forLoop n (fun core_idx m =>
        kmeans_assignment_step cfg core_idx n_samples n_features n_clusters
          (kmeans_core_ptrs cfg k core_idx n_samples n_features n_clusters iter_idx) m) m).u32 a =
        m.u32 a) := by
  have hPq : cfg.compute_core_num * q ≤ spc := by
    rw [← hq, hspc]; exact Nat.mul_div_le _ _
  obtain ⟨-, em0, -, ec0, -, -⟩ :=
    kmeans_core_ptrs_eval cfg k 0 n_samples n_features n_clusters iter_idx hk hfit spc hspc
  induction n with
  | zero =>
    refine ⟨rfl, ?_, ?_, ?_⟩
    · intro i t hi; omega
    · intro i c hi; omega
    · intro a _; rfl
  | succ n ih =>
    obtain ⟨ihf, ihm, ihc, ihfr⟩ := ih (by omega)
    obtain ⟨-, em, -, ec, -, -⟩ :=
      kmeans_core_ptrs_eval cfg k n n_samples n_features n_clusters iter_idx hk hfit spc hspc
    have h1 := step_mul_le q n cfg.compute_core_num (by omega)
    have h2 := mul_step_le (n_clusters * 4) n cfg.compute_core_num (by omega)
    obtain ⟨sf, sm, sc, sfr⟩ := kmeans_assignment_step_spec cfg n n_samples n_features n_clusters
      (kmeans_core_ptrs cfg k n n_samples n_features n_clusters iter_idx)
      (forLoop n (fun core_idx m =>
        kmeans_assignment_step cfg core_idx n_samples n_features n_clusters
          (kmeans_core_ptrs cfg k core_idx n_samples n_features n_clusters iter_idx) m) m)
      hK q hq (by rw [em, ec]; omega)
    rw [forLoop_succ]
    rw [kmeans_core_ptrs_dist cfg k n,
      kmeans_dist_congr n_features _ _ m ihf] at sm sc
    refine ⟨by rw [sf, ihf], ?_, ?_, ?_⟩
    · intro i t hi ht
      rcases Nat.lt_or_ge i n with h | h
      · have h3 := step_mul_le q i n h
        rw [sfr _ (by rw [em, em0]; omega) (by rw [ec, em0]; omega)]
        exact ihm i t h ht
      · have : i = n := by omega
        subst this
        rw [← sm t ht, em, em0]
    · intro i c hi hc
      obtain ⟨-, -, -, eci, -, -⟩ :=
        kmeans_core_ptrs_eval cfg k i n_samples n_features n_clusters iter_idx hk hfit spc hspc
      rcases Nat.lt_or_ge i n with h | h
      · have h3 := mul_step_le (n_clusters * 4) i n h
        rw [sfr _ (by rw [em, eci]; omega) (by rw [ec, eci]; omega)]
        exact ihc i c h hc
      · have : i = n := by omega
        subst this
        exact sc c hc
    · intro a ha
      rw [em0, ec0] at ha
      rw [sfr a (by rw [em]; omega) (by rw [ec]; omega)]
      exact ihfr a (by rw [em0, ec0]; exact ha)

/-- The assignment phase on the first `n` clusters: the `double` cells are untouched, every
owned sample has the nearest centroid as its membership, and every per-core counter holds
the number of the core's samples with that membership. -/
theorem kmeans_assignment_clusters_spec (cfg : snrt_config)
    (n_samples n_features n_clusters iter_idx : Nat) (m : Mem) (hK : 0 < n_clusters)
    (hfit : kmeans_fits cfg n_samples n_features n_clusters)
    (spc q : Nat) (hspc : n_samples / cfg.cluster_num = spc)
    (hq : n_samples / cfg.cluster_num / cfg.compute_core_num = q)
    (n : Nat) (hn : n ≤ cfg.cluster_num) :
    (forLoop n (fun cluster_idx m =>
      forLoop cfg.compute_core_num (fun core_idx m =>
        kmeans_assignment_step cfg core_idx n_samples n_features n_clusters
          (kmeans_core_ptrs cfg cluster_idx core_idx n_samples n_features n_clusters iter_idx) m)
        m) m).f64 = m.f64 ∧
    (∀ k i t, k < n → i < cfg.compute_core_num → t < q →
      (forLoop n (fun cluster_idx m =>
        forLoop cfg.compute_core_num (fun core_idx m =>
          kmeans_assignment_step cfg core_idx n_samples n_features n_clusters
            (kmeans_core_ptrs cfg cluster_idx core_idx n_samples n_features n_clusters iter_idx) m)
          m) m).u32
          ((kmeans_core_ptrs cfg k 0 n_samples n_features n_clusters iter_idx).membership +
            4 * (i * q + t)) =
        nearest (kmeans_dist n_features
          (kmeans_core_ptrs cfg k 0 n_samples n_features n_clusters iter_idx) m
          (i * q + t)) n_clusters) ∧
    (∀ k i c, k < n → i < cfg.compute_core_num → c < n_clusters →
      (forLoop n (fun cluster_idx m =>
        forLoop cfg.compute_core_num (fun core_idx m =>
          kmeans_assignment_step cfg core_idx n_samples n_features n_clusters
            (kmeans_core_ptrs cfg cluster_idx core_idx n_samples n_features n_clusters iter_idx) m)
          m) m).u32
          ((kmeans_core_ptrs cfg k i n_samples n_features n_clusters iter_idx).partial_membership_cnt
            + 4 * c) =
        ∑ t in Finset.range q,
          if nearest (kmeans_dist n_features
            (kmeans_core_ptrs cfg k 0 n_samples n_features n_clusters iter_idx) m
            (i * q + t)) n_clusters = c
          then 1 else 0) := by
  have hPq : cfg.compute_core_num * q ≤ spc := by
    rw [← hq, hspc]; exact Nat.mul_div_le _ _
  obtain ⟨hfoot, -⟩ := kmeans_fits_eval cfg n_samples n_features n_clusters hfit spc hspc
  induction n with
  | zero =>
    refine ⟨rfl, ?_, ?_⟩
    · intro k i t hk; omega
    · intro k i c hk; omega
  | succ n ih =>
    obtain ⟨ihf, ihm, ihc⟩ := ih (by omega)
    obtain ⟨sf, sm, sc, sfr⟩ := kmeans_assignment_cluster_spec cfg n n_samples n_features
      n_clusters iter_idx
      (forLoop n (fun cluster_idx m =>
        forLoop cfg.compute_core_num (fun core_idx m =>
          kmeans_assignment_step cfg core_idx n_samples n_features n_clusters
            (kmeans_core_ptrs cfg cluster_idx core_idx n_samples n_features n_clusters iter_idx) m)
          m) m)
      hK (by omega) hfit spc q hspc hq cfg.compute_core_num le_rfl
    rw [kmeans_dist_congr n_features _ _ m ihf] at sm sc
    obtain ⟨-, emn, -, ecn, -, -⟩ :=
      kmeans_core_ptrs_eval cfg n 0 n_samples n_features n_clusters iter_idx (by omega) hfit
        spc hspc
    rw [forLoop_succ]
    refine ⟨by rw [sf, ihf], ?_, ?_⟩
    · intro k i t hk hi ht
      rcases Nat.lt_or_ge k n with h | h
      · obtain ⟨-, emk, -, -, -, -⟩ :=
          kmeans_core_ptrs_eval cfg k 0 n_samples n_features n_clusters iter_idx (by omega) hfit
            spc hspc
        have h3 := step_mul_le cfg.cluster_offset k n h
        have h4 := step_mul_le q i cfg.compute_core_num hi
        rw [sfr _ (by rw [emn, emk]; omega)]
        exact ihm k i t h hi ht
      · have : k = n := by omega
        subst this
        exact sm i t hi ht
    · intro k i c hk hi hc
      rcases Nat.lt_or_ge k n with h | h
      · obtain ⟨-, -, -, eck, -, -⟩ :=
          kmeans_core_ptrs_eval cfg k i n_samples n_features n_clusters iter_idx (by omega) hfit
            spc hspc
        have h3 := step_mul_le cfg.cluster_offset k n h
        have h4 := mul_step_le (n_clusters * 4) i cfg.compute_core_num hi
        rw [sfr _ (by rw [emn, eck]; omega)]
        exact ihc k i c h hi hc
      · have : k = n := by omega
        subst this
        exact sc i c hi hc

/-- The assignment phase of the fabric is the loop nest of the previous lemmas. -/
theorem kmeans_assignment_phase_spec (cfg : snrt_config)
    (n_samples n_features n_clusters iter_idx : Nat) (m : Mem) (hK : 0 < n_clusters)
    (hfit : kmeans_fits cfg n_samples n_features n_clusters)
    (q : Nat) (hq : n_samples / cfg.cluster_num / cfg.compute_core_num = q) :
    (kmeans_assignment_phase cfg n_samples n_features n_clusters iter_idx m).f64 = m.f64 ∧
    (∀ k i t, k < cfg.cluster_num → i < cfg.compute_core_num → t < q →
      (kmeans_assignment_phase cfg n_samples n_features n_clusters iter_idx m).u32
          ((kmeans_core_ptrs cfg k 0 n_samples n_features n_clusters iter_idx).membership +
            4 * (i * q + t)) =
        nearest (kmeans_dist n_features
          (kmeans_core_ptrs cfg k 0 n_samples n_features n_clusters iter_idx) m
          (i * q + t)) n_clusters) ∧
    (∀ k i c, k < cfg.cluster_num → i < cfg.compute_core_num → c < n_clusters →
      (kmeans_assignment_phase cfg n_samples n_features n_clusters iter_idx m).u32
          ((kmeans_core_ptrs cfg k i n_samples n_features n_clusters iter_idx).partial_membership_cnt
            + 4 * c) =
        ∑ t in Finset.range q,
          if nearest (kmeans_dist n_features
            (kmeans_core_ptrs cfg k 0 n_samples n_features n_clusters iter_idx) m
            (i * q + t)) n_clusters = c
          then 1 else 0) :=
  kmeans_assignment_clusters_spec cfg n_samples n_features n_clusters iter_idx m hK hfit
    (n_samples / cfg.cluster_num) q rfl hq cfg.cluster_num le_rfl

theorem kmeans_core_ptrs_membership (cfg : snrt_config) (k i : Nat)
    (n_samples n_features n_clusters iter_idx : Nat) :
    (kmeans_core_ptrs cfg k i n_samples n_features n_clusters iter_idx).membership =
      (kmeans_core_ptrs cfg k 0 n_samples n_features n_clusters iter_idx).membership := by
  unfold kmeans_core_ptrs kmeans_alloc
  split <;> rfl

/-- C4: after the assignment step of any iteration, from any memory `m` and for `K ≥ 1`,
the membership of every sample `j` owned by compute core `i` of cluster `k`
(`start_sample_idx ≤ j < end_sample_idx`) is a centroid index `mb < K` whose squared distance
to the sample is minimal over all centroids, and every centroid of lower index is strictly
farther: ties go to the lowest index. -/
theorem kmeans_membership_nearest (cfg : snrt_config)
    (n_samples n_features n_clusters iter_idx : Nat) (m : Mem) (k i j : Nat)
    (hK : 1 ≤ n_clusters) (hfit : kmeans_fits cfg n_samples n_features n_clusters)
    (hk : k < cfg.cluster_num) (hi : i < cfg.compute_core_num)
    (hstart : i * (n_samples / cfg.cluster_num / cfg.compute_core_num) ≤ j)
    (hend : j < i * (n_samples / cfg.cluster_num / cfg.compute_core_num) +
      n_samples / cfg.cluster_num / cfg.compute_core_num) :
    (kmeans_assignment_phase cfg n_samples n_features n_clusters iter_idx m).u32
        ((kmeans_core_ptrs cfg k i n_samples n_features n_clusters iter_idx).membership +
          sizeof_uint32 * j) < n_clusters ∧
    (∀ c, c < n_clusters →
      euclidean_distance_squared n_features m
          ((kmeans_core_ptrs cfg k i n_samples n_features n_clusters iter_idx).local_samples +
            sizeof_double * (j * n_features))
          ((kmeans_core_ptrs cfg k i n_samples n_features n_clusters iter_idx).local_centroids +
            sizeof_double *
              ((kmeans_assignment_phase cfg n_samples n_features n_clusters iter_idx m).u32
                ((kmeans_core_ptrs cfg k i n_samples n_features n_clusters iter_idx).membership +
                  sizeof_uint32 * j) * n_features)) ≤
        euclidean_distance_squared n_features m
          ((kmeans_core_ptrs cfg k i n_samples n_features n_clusters iter_idx).local_samples +
            sizeof_double * (j * n_features))
          ((kmeans_core_ptrs cfg k i n_samples n_features n_clusters iter_idx).local_centroids +
            sizeof_double * (c * n_features))) ∧
    (∀ c, c < (kmeans_assignment_phase cfg n_samples n_features n_clusters iter_idx m).u32
        ((kmeans_core_ptrs cfg k i n_samples n_features n_clusters iter_idx).membership +
          sizeof_uint32 * j) →
      euclidean_distance_squared n_features m
          ((kmeans_core_ptrs cfg k i n_samples n_features n_clusters iter_idx).local_samples +
            sizeof_double * (j * n_features))
          ((kmeans_core_ptrs cfg k i n_samples n_features n_clusters iter_idx).local_centroids +
            sizeof_double *
              ((kmeans_assignment_phase cfg n_samples n_features n_clusters iter_idx m).u32
                ((kmeans_core_ptrs cfg k i n_samples n_features n_clusters iter_idx).membership +
                  sizeof_uint32 * j) * n_features)) <
        euclidean_distance_squared n_features m
          ((kmeans_core_ptrs cfg k i n_samples n_features n_clusters iter_idx).local_samples +
            sizeof_double * (j * n_features))
          ((kmeans_core_ptrs cfg k i n_samples n_features n_clusters iter_idx).local_centroids +
            sizeof_double * (c * n_features))) := by
  obtain ⟨-, hm, -⟩ := kmeans_assignment_phase_spec cfg n_samples n_features n_clusters iter_idx m
    hK hfit _ rfl
  have hj : j = i * (n_samples / cfg.cluster_num / cfg.compute_core_num) +
      (j - i * (n_samples / cfg.cluster_num / cfg.compute_core_num)) := by omega
  have hmj := hm k i (j - i * (n_samples / cfg.cluster_num / cfg.compute_core_num)) hk hi
    (by omega)
  rw [← hj, ← kmeans_core_ptrs_membership cfg k i, ← kmeans_core_ptrs_dist cfg k i] at hmj
  simp only [sizeof_uint32]
  rw [hmj]
  obtain ⟨b, hb, hs, hmin, hfirst⟩ := nearest_state_spec
    (kmeans_dist n_features (kmeans_core_ptrs cfg k i n_samples n_features n_clusters iter_idx)
      m j) n_clusters hK
  have hnb : nearest (kmeans_dist n_features
      (kmeans_core_ptrs cfg k i n_samples n_features n_clusters iter_idx) m j) n_clusters = b := by
    simp [nearest, hs]
  rw [hnb]
  exact ⟨hb, hmin, hfirst⟩

/-- C6 as amended: for `K ≥ 1`, after the assignment step the membership of every owned
sample lies in `[0, K)`, so the counter `partial_membership_cnt[membership[j]]` lies inside
the `K`-entry array of the core and the cells
`partial_centroids[membership[j] * F + f]`, `f < F`, inside its `K * F`-entry array. -/
theorem kmeans_membership_in_range (cfg : snrt_config)
    (n_samples n_features n_clusters iter_idx : Nat) (m : Mem) (k i j : Nat)
    (hK : 1 ≤ n_clusters) (hfit : kmeans_fits cfg n_samples n_features n_clusters)
    (hk : k < cfg.cluster_num) (hi : i < cfg.compute_core_num)
    (hstart : i * (n_samples / cfg.cluster_num / cfg.compute_core_num) ≤ j)
    (hend : j < i * (n_samples / cfg.cluster_num / cfg.compute_core_num) +
      n_samples / cfg.cluster_num / cfg.compute_core_num) :
    (kmeans_assignment_phase cfg n_samples n_features n_clusters iter_idx m).u32
        ((kmeans_core_ptrs cfg k i n_samples n_features n_clusters iter_idx).membership +
          sizeof_uint32 * j) < n_clusters ∧
    (∀ f, f < n_features →
      (kmeans_assignment_phase cfg n_samples n_features n_clusters iter_idx m).u32
        ((kmeans_core_ptrs cfg k i n_samples n_features n_clusters iter_idx).membership +
          sizeof_uint32 * j) * n_features + f < n_clusters * n_features) := by
  obtain ⟨-, hm, -⟩ := kmeans_assignment_phase_spec cfg n_samples n_features n_clusters iter_idx m
    hK hfit _ rfl
  have hj : j = i * (n_samples / cfg.cluster_num / cfg.compute_core_num) +
      (j - i * (n_samples / cfg.cluster_num / cfg.compute_core_num)) := by omega
  have hmj := hm k i (j - i * (n_samples / cfg.cluster_num / cfg.compute_core_num)) hk hi
    (by omega)
  rw [← hj, ← kmeans_core_ptrs_membership cfg k i] at hmj
  simp only [sizeof_uint32]
  rw [hmj]
  have hlt := nearest_lt (kmeans_dist n_features
    (kmeans_core_ptrs cfg k 0 n_samples n_features n_clusters iter_idx) m j) n_clusters hK
  refine ⟨hlt, ?_⟩
  intro f hf
  have := step_mul_le n_features _ _ hlt
  omega

/-- C5 as amended: for `N` divisible by `C * P` and `K ≥ 1`, after the assignment step of any
iteration (from any memory `m`) the counters `partial_membership_cnt[c]` of all centroids,
all compute cores and all clusters add up to `N`. -/
theorem kmeans_count_conservation (cfg : snrt_config)
    (n_samples n_features n_clusters iter_idx : Nat) (m : Mem)
    (hdiv : cfg.cluster_num * cfg.compute_core_num ∣ n_samples)
    (hK : 1 ≤ n_clusters) (hfit : kmeans_fits cfg n_samples n_features n_clusters) :
    ∑ k in Finset.range cfg.cluster_num, ∑ i in Finset.range cfg.compute_core_num,
      ∑ c in Finset.range n_clusters,
        (kmeans_assignment_phase cfg n_samples n_features n_clusters iter_idx m).u32
          ((kmeans_core_ptrs cfg k i n_samples n_features n_clusters iter_idx).partial_membership_cnt
            + sizeof_uint32 * c) = n_samples := by
  obtain ⟨-, -, hc⟩ := kmeans_assignment_phase_spec cfg n_samples n_features n_clusters iter_idx m
    hK hfit _ rfl
  have hcore : ∀ k, k ∈ Finset.range cfg.cluster_num →
      ∀ i, i ∈ Finset.range cfg.compute_core_num →
      ∑ c in Finset.range n_clusters,
        (kmeans_assignment_phase cfg n_samples n_features n_clusters iter_idx m).u32
          ((kmeans_core_ptrs cfg k i n_samples n_features n_clusters iter_idx).partial_membership_cnt
            + sizeof_uint32 * c) = n_samples / cfg.cluster_num / cfg.compute_core_num := by
    intro k hk i hi
    rw [Finset.mem_range] at hk hi
    have e : ∀ c, c ∈ Finset.range n_clusters →
        (kmeans_assignment_phase cfg n_samples n_features n_clusters iter_idx m).u32
          ((kmeans_core_ptrs cfg k i n_samples n_features n_clusters iter_idx).partial_membership_cnt
            + sizeof_uint32 * c) = _ := fun c hcm => hc k i c hk hi (Finset.mem_range.mp hcm)
    rw [Finset.sum_congr rfl e, Finset.sum_comm]
    have e2 : ∀ t, t ∈ Finset.range (n_samples / cfg.cluster_num / cfg.compute_core_num) →
        (∑ c in Finset.range n_clusters,
          if nearest (kmeans_dist n_features
            (kmeans_core_ptrs cfg k 0 n_samples n_features n_clusters iter_idx) m
            (i * (n_samples / cfg.cluster_num / cfg.compute_core_num) + t)) n_clusters = c
          then 1 else 0) = 1 := by
      intro t _
      rw [Finset.sum_ite_eq, if_pos]
      exact Finset.mem_range.mpr (nearest_lt _ _ hK)
    rw [Finset.sum_congr rfl e2]
    simp
  rw [Finset.sum_congr rfl (fun k hk => Finset.sum_congr rfl (hcore k hk))]
  simp only [Finset.sum_const, Finset.card_range, smul_eq_mul]
  rcases Nat.eq_zero_or_pos cfg.cluster_num with hC | hC
  · rw [hC] at hdiv ⊢
    have : n_samples = 0 := by simpa using hdiv
    simp [this]
  rcases Nat.eq_zero_or_pos cfg.compute_core_num with hP | hP
  · rw [hP] at hdiv ⊢
    have : n_samples = 0 := by simpa using hdiv
    simp [this]
  obtain ⟨r, hr⟩ := hdiv
  have e1 : n_samples / cfg.cluster_num = cfg.compute_core_num * r := by
    rw [hr, Nat.mul_assoc]; exact Nat.mul_div_cancel_left _ hC
  rw [e1, Nat.mul_div_cancel_left _ hP, hr, Nat.mul_assoc]

/-- C4 on `cfg_1x2` with the samples `0`, `10` and the centroids `0`, `9`: sample 1, owned by
compute core 1, gets membership 1. -/
theorem kmeans_membership_nearest_witness :
    kmeans_fits cfg_1x2 2 1 2 ∧
    (kmeans_assignment_phase cfg_1x2 2 1 2 0 mem_two_points).u32
        ((kmeans_core_ptrs cfg_1x2 0 1 2 1 2 0).membership + sizeof_uint32 * 1) = 1 ∧
    (kmeans_assignment_phase cfg_1x2 2 1 2 0 mem_two_points).u32
        ((kmeans_core_ptrs cfg_1x2 0 1 2 1 2 0).membership + sizeof_uint32 * 1) < 2 :=
  ⟨by decide, by decide!,
    (kmeans_membership_nearest cfg_1x2 2 1 2 0 mem_two_points 0 1 1 (by decide) (by decide)
      (by decide) (by decide) (by decide) (by decide)).1⟩

/-- C6 as claimed fails for `K = 0`: on `cfg_1x2` with `N = 2`, sample 0 is owned by compute
core 0 and its membership is written as `0`, which is not in the empty range `[0, 0)`. -/
theorem kmeans_membership_out_of_range :
    kmeans_fits cfg_1x2 2 1 0 ∧
    0 * (2 / cfg_1x2.cluster_num / cfg_1x2.compute_core_num) ≤ 0 ∧
    0 < 0 * (2 / cfg_1x2.cluster_num / cfg_1x2.compute_core_num) +
      2 / cfg_1x2.cluster_num / cfg_1x2.compute_core_num ∧
    (kmeans_assignment_phase cfg_1x2 2 1 0 0 mem_zero).u32
        ((kmeans_core_ptrs cfg_1x2 0 0 2 1 0 0).membership + sizeof_uint32 * 0) = 0 ∧
    ¬ (kmeans_assignment_phase cfg_1x2 2 1 0 0 mem_zero).u32
        ((kmeans_core_ptrs cfg_1x2 0 0 2 1 0 0).membership + sizeof_uint32 * 0) < 0 := by
  refine ⟨by decide, by decide, by decide, by decide, by decide⟩

/-- C6 as amended, on `cfg_1x2` with two samples and two centroids. -/
theorem kmeans_membership_in_range_witness :
    kmeans_fits cfg_1x2 2 1 2 ∧
    (kmeans_assignment_phase cfg_1x2 2 1 2 0 mem_two_points).u32
        ((kmeans_core_ptrs cfg_1x2 0 0 2 1 2 0).membership + sizeof_uint32 * 0) < 2 :=
  ⟨by decide,
    (kmeans_membership_in_range cfg_1x2 2 1 2 0 mem_two_points 0 0 0 (by decide) (by decide)
      (by decide) (by decide) (by decide) (by decide)).1⟩

/-- C5 as claimed fails when `C * P` does not divide `N`: on `cfg_1x2` (`C = 1`, `P = 2`) with
`N = 3` and `K = 1` each core owns one sample, and the counters add up to `2`, not `3`. -/
theorem kmeans_count_not_conserved :
    kmeans_fits cfg_1x2 3 1 1 ∧
    ∑ k in Finset.range cfg_1x2.cluster_num, ∑ i in Finset.range cfg_1x2.compute_core_num,
      ∑ c in Finset.range 1,
        (kmeans_assignment_phase cfg_1x2 3 1 1 0 mem_zero).u32
          ((kmeans_core_ptrs cfg_1x2 k i 3 1 1 0).partial_membership_cnt + sizeof_uint32 * c) ≠
      3 := by
  refine ⟨by decide, by decide⟩

/-- C5 as amended, on `cfg_1x2` with `N = 2` and `K = 2`. -/
theorem kmeans_count_conservation_witness :
    cfg_1x2.cluster_num * cfg_1x2.compute_core_num ∣ 2 ∧ kmeans_fits cfg_1x2 2 1 2 ∧
    ∑ k in Finset.range cfg_1x2.cluster_num, ∑ i in Finset.range cfg_1x2.compute_core_num,
      ∑ c in Finset.range 2,
        (kmeans_assignment_phase cfg_1x2 2 1 2 0 mem_two_points).u32
          ((kmeans_core_ptrs cfg_1x2 k i 2 1 2 0).partial_membership_cnt + sizeof_uint32 * c) =
      2 :=
  ⟨by decide, by decide,
    kmeans_count_conservation cfg_1x2 2 1 2 0 mem_two_points (by decide) (by decide)
      (by decide)⟩

/-! ### K-Means: the update step -/

/-- A loop that stores one value into each cell of a row of doubles, iteration `f` writing
cell `o + f` of the array at `base`: when the body, run on any memory that differs from the
initial one only in the cells already written, stores `v f`, the row ends up holding `v`. -/
theorem store64_row_spec (base o n : Nat) (body : Nat → Mem → Mem) (m0 : Mem) (v : Nat → ℚ)
    (hbody : ∀ f, f < n → ∀ m : Mem, m.u32 = m0.u32 →
      (∀ a, ¬ (base + 8 * o ≤ a ∧ a < base + 8 * (o + f)) → m.f64 a = m0.f64 a) →
      body f m = m.store64 (base + 8 * (o + f)) (v f)) :
    (forLoop n body m0).u32 = m0.u32 ∧
    (∀ f, f < n → (forLoop n body m0).f64 (base + 8 * (o + f)) = v f) ∧
    (∀ a, ¬ (base + 8 * o ≤ a ∧ a < base + 8 * (o + n)) →
      (forLoop n body m0).f64 a = m0.f64 a) := by
  induction n with
  | zero =>
    refine ⟨rfl, ?_, ?_⟩
    · intro f hf; omega
    · intro a _; rfl
  | succ n ih =>
    obtain ⟨ihu, ihv, ihfr⟩ := ih (fun f hf => hbody f (by omega))
    rw [forLoop_succ, hbody n (by omega) _ ihu ihfr]
    refine ⟨?_, ?_, ?_⟩
    · simp only [Mem.store64_u32]; exact ihu
    · intro f hf
      simp only [Mem.store64_f64]
      rcases Nat.lt_or_ge f n with h | h
      · rw [if_neg (by omega)]; exact ihv f h
      · have : f = n := by omega
        subst this; rw [if_pos rfl]
    · intro a ha
      simp only [Mem.store64_f64]
      rw [if_neg (by omega)]
      exact ihfr a (by omega)

/-- The loop nest that zeroes the partial centroids of a core. -/
theorem zero_centroids_spec (pc F : Nat) (m : Mem) (n : Nat) :
    (forLoop n (fun c m => forLoop F (fun f m => m.store64 (pc + 8 * (c * F + f)) 0) m) m).u32 =
      m.u32 ∧
    (∀ c f, c < n → f < F →
      (forLoop n (fun c m => forLoop F (fun f m => m.store64 (pc + 8 * (c * F + f)) 0) m) m).f64
        (pc + 8 * (c * F + f)) = 0) ∧
    (∀ a, ¬ (pc ≤ a ∧ a < pc + 8 * (n * F)) →
      (forLoop n (fun c m => forLoop F (fun f m => m.store64 (pc + 8 * (c * F + f)) 0) m) m).f64 a =
        m.f64 a) := by
  induction n with
  | zero =>
    refine ⟨rfl, ?_, ?_⟩
    · intro c f hc; omega
    · intro a _; rfl
  | succ n ih =>
    obtain ⟨ihu, ihz, ihfr⟩ := ih
    obtain ⟨ru, rv, rfr⟩ := store64_row_spec pc (n * F) F
      (fun f m => m.store64 (pc + 8 * (n * F + f)) 0)
      (forLoop n (fun c m => forLoop F (fun f m => m.store64 (pc + 8 * (c * F + f)) 0) m) m)
      (fun _ => 0) (fun f _ m _ _ => rfl)
    rw [forLoop_succ]
    have e : (n + 1) * F = n * F + F := by ring
    refine ⟨by rw [ru, ihu], ?_, ?_⟩
    · intro c f hc hf
      rcases Nat.lt_or_ge c n with h | h
      · have := step_mul_le F c n h
        rw [rfr _ (by omega)]
        exact ihz c f h hf
      · have : c = n := by omega
        subst this
        exact rv f hf
    · intro a ha
      rw [e] at ha
      rw [rfr a (by omega)]
      exact ihfr a (by omega)

/-- The sample loop of the update step, after `d` samples. -/
theorem kmeans_update_loop_spec (F K : Nat) (p : kmeans_ptrs) (start : Nat) (m0 m : Mem)
    (hu : m.u32 = m0.u32)
    (hsmp : ∀ a, ¬ (p.partial_centroids ≤ a ∧ a < p.partial_centroids + 8 * (K * F)) →
      m.f64 a = m0.f64 a)
    (d : Nat)
    (hmb : ∀ t, t < d → m0.u32 (p.membership + 4 * (start + t)) < K)
    (hlay : p.local_samples + 8 * ((start + d) * F) ≤ p.partial_centroids) :
    (forLoop d (fun t m =>
      forLoop F (fun f m =>
        m.store64 (p.partial_centroids + 8 * (m.u32 (p.membership + 4 * (start + t)) * F + f))
          (m.f64 (p.partial_centroids + 8 * (m.u32 (p.membership + 4 * (start + t)) * F + f)) +
            m.f64 (p.local_samples + 8 * ((start + t) * F + f)))) m) m).u32 = m0.u32 ∧
    (∀ c f, c < K → f < F →
      (forLoop d (fun t m =>
        forLoop F (fun f m =>
          m.store64 (p.partial_centroids + 8 * (m.u32 (p.membership + 4 * (start + t)) * F + f))
            (m.f64 (p.partial_centroids + 8 * (m.u32 (p.membership + 4 * (start + t)) * F + f)) +
              m.f64 (p.local_samples + 8 * ((start + t) * F + f)))) m) m).f64
          (p.partial_centroids + 8 * (c * F + f)) =
        m.f64 (p.partial_centroids + 8 * (c * F + f)) +
          ∑ t in Finset.range d,
            if m0.u32 (p.membership + 4 * (start + t)) = c
            then m0.f64 (p.local_samples + 8 * ((start + t) * F + f)) else 0) ∧
    (∀ a, ¬ (p.partial_centroids ≤ a ∧ a < p.partial_centroids + 8 * (K * F)) →
      (forLoop d (fun t m =>
        forLoop F (fun f m =>
          m.store64 (p.partial_centroids + 8 * (m.u32 (p.membership + 4 * (start + t)) * F + f))
            (m.f64 (p.partial_centroids + 8 * (m.u32 (p.membership + 4 * (start + t)) * F + f)) +
              m.f64 (p.local_samples + 8 * ((start + t) * F + f)))) m) m).f64 a = m0.f64 a) := by
  induction d with
  | zero =>
    refine ⟨hu, ?_, hsmp⟩
    intro c f _ _
    simp [forLoop_zero]
  | succ d ih =>
    have hd1 : (start + (d + 1)) * F = (start + d) * F + F := by ring
    obtain ⟨ihu, ihv, ihfr⟩ := ih (fun t ht => hmb t (by omega)) (by rw [hd1] at hlay; omega)
    have hc0 := hmb d (by omega)
    have hrow := step_mul_le F _ _ hc0
    rw [forLoop_succ]
    generalize hr : forLoop d (fun t m =>
      forLoop F (fun f m =>
        m.store64 (p.partial_centroids + 8 * (m.u32 (p.membership + 4 * (start + t)) * F + f))
          (m.f64 (p.partial_centroids + 8 * (m.u32 (p.membership + 4 * (start + t)) * F + f)) +
            m.f64 (p.local_samples + 8 * ((start + t) * F + f)))) m) m = r at ihu ihv ihfr ⊢
    obtain ⟨ru, rv, rfr⟩ := store64_row_spec p.partial_centroids
      (m0.u32 (p.membership + 4 * (start + d)) * F) F
      (fun f m =>
        m.store64 (p.partial_centroids + 8 * (m.u32 (p.membership + 4 * (start + d)) * F + f))
          (m.f64 (p.partial_centroids + 8 * (m.u32 (p.membership + 4 * (start + d)) * F + f)) +
            m.f64 (p.local_samples + 8 * ((start + d) * F + f))))
      r
      (fun f => r.f64 (p.partial_centroids + 8 * (m0.u32 (p.membership + 4 * (start + d)) * F + f)) +
        m0.f64 (p.local_samples + 8 * ((start + d) * F + f)))
      (by
        intro f hf m' hu' hf'
        have e1 : m'.u32 (p.membership + 4 * (start + d)) =
            m0.u32 (p.membership + 4 * (start + d)) := by rw [hu', ihu]
        simp only [e1]
        rw [hf' _ (by omega), hf' (p.local_samples + 8 * ((start + d) * F + f)) (by omega),
          ihfr (p.local_samples + 8 * ((start + d) * F + f)) (by omega)])
    rw [hd1] at hlay
    refine ⟨by rw [ru, ihu], ?_, ?_⟩
    · intro c f hc hf
      rw [Finset.sum_range_succ]
      by_cases hcc : m0.u32 (p.membership + 4 * (start + d)) = c
      · rw [if_pos hcc, ← hcc, rv f hf, hcc, ihv c f hc hf]
        ring
      · rw [if_neg hcc]
        have hne : ¬ (p.partial_centroids + 8 * (m0.u32 (p.membership + 4 * (start + d)) * F) ≤
              p.partial_centroids + 8 * (c * F + f) ∧
            p.partial_centroids + 8 * (c * F + f) <
              p.partial_centroids + 8 * (m0.u32 (p.membership + 4 * (start + d)) * F + F)) := by
          rcases Nat.lt_or_ge c (m0.u32 (p.membership + 4 * (start + d))) with h | h
          · have := step_mul_le F _ _ h; omega
          · have h' : m0.u32 (p.membership + 4 * (start + d)) < c := by omega
            have := step_mul_le F _ _ h'; omega
        rw [rfr _ hne, ihv c f hc hf]
        ring
    · intro a ha
      rw [rfr a (by omega)]
      exact ihfr a ha

/-- The update step of one compute core: its partial centroids hold, per centroid and
feature, the sum of the owned samples with that membership; nothing else changes. -/
theorem kmeans_update_step_spec (cfg : snrt_config) (core_idx : Nat)
    (n_samples n_features n_clusters : Nat) (p : kmeans_ptrs) (m : Mem)
    (q : Nat) (hq : n_samples / cfg.cluster_num / cfg.compute_core_num = q)
    (hmb : ∀ t, t < q → m.u32 (p.membership + 4 * (core_idx * q + t)) < n_clusters)
    (hlay : p.local_samples + 8 * ((core_idx * q + q) * n_features) ≤ p.partial_centroids) :
    (kmeans_update_step cfg core_idx n_samples n_features n_clusters p m).u32 = m.u32 ∧
    (∀ c f, c < n_clusters → f < n_features →
      (kmeans_update_step cfg core_idx n_samples n_features n_clusters p m).f64
          (p.partial_centroids + 8 * (c * n_features + f)) =
        ∑ t in Finset.range q,
          if m.u32 (p.membership + 4 * (core_idx * q + t)) = c
          then m.f64 (p.local_samples + 8 * ((core_idx * q + t) * n_features + f)) else 0) ∧
    (∀ a, ¬ (p.partial_centroids ≤ a ∧
        a < p.partial_centroids + 8 * (n_clusters * n_features)) →
      (kmeans_update_step cfg core_idx n_samples n_features n_clusters p m).f64 a = m.f64 a) := by
  obtain ⟨zu, zz, zfr⟩ := zero_centroids_spec p.partial_centroids n_features m n_clusters
  have hstep : kmeans_update_step cfg core_idx n_samples n_features n_clusters p m =
      forLoop q (fun t m =>
        forLoop n_features (fun f m =>
          m.store64 (p.partial_centroids +
              8 * (m.u32 (p.membership + 4 * (core_idx * q + t)) * n_features + f))
            (m.f64 (p.partial_centroids +
                8 * (m.u32 (p.membership + 4 * (core_idx * q + t)) * n_features + f)) +
              m.f64 (p.local_samples + 8 * ((core_idx * q + t) * n_features + f)))) m)
        (forLoop n_clusters (fun c m =>
          forLoop n_features (fun f m =>
            m.store64 (p.partial_centroids + 8 * (c * n_features + f)) 0) m) m) := by
    unfold kmeans_update_step
    simp only [hq, sizeof_uint32, sizeof_double, Nat.add_sub_cancel_left]
  rw [hstep]
  obtain ⟨lu, lv, lfr⟩ := kmeans_update_loop_spec n_features n_clusters p (core_idx * q) m _
    zu zfr q hmb hlay
  refine ⟨lu, ?_, lfr⟩
  intro c f hc hf
  rw [lv c f hc hf, zz c f hc hf, zero_add]

/-! ### K-Means: the reductions -/

/-- The accumulation of a remote pair of buffers into `(cnt, centroids)`, the two pairs
being disjoint. -/
theorem kmeans_accumulate_spec (F : Nat) (cnt cen rcnt rcen : Nat) (m : Mem) (K n : Nat)
    (hn : n ≤ K)
    (hcnt : rcnt + 4 * K ≤ cnt ∨ cnt + 4 * K ≤ rcnt)
    (hcen : rcen + 8 * (K * F) ≤ cen ∨ cen + 8 * (K * F) ≤ rcen) :
    (∀ c, c < n →
      (kmeans_accumulate F n cnt cen rcnt rcen m).u32 (cnt + 4 * c) =
        m.u32 (cnt + 4 * c) + m.u32 (rcnt + 4 * c)) ∧
    (∀ a, ¬ (cnt ≤ a ∧ a < cnt + 4 * n) →
      (kmeans_accumulate F n cnt cen rcnt rcen m).u32 a = m.u32 a) ∧
    (∀ c f, c < n → f < F →
      (kmeans_accumulate F n cnt cen rcnt rcen m).f64 (cen + 8 * (c * F + f)) =
        m.f64 (cen + 8 * (c * F + f)) + m.f64 (rcen + 8 * (c * F + f))) ∧
    (∀ a, ¬ (cen ≤ a ∧ a < cen + 8 * (n * F)) →
      (kmeans_accumulate F n cnt cen rcnt rcen m).f64 a = m.f64 a) := by
  induction n with
  | zero =>
    refine ⟨?_, ?_, ?_, ?_⟩
    · intro c hc; omega
    · intro a _; rfl
    · intro c f hc; omega
    · intro a _; rfl
  | succ n ih =>
    obtain ⟨ihc, ihcf, ihv, ihvf⟩ := ih (by omega)
    have hstep : kmeans_accumulate F (n + 1) cnt cen rcnt rcen m =
        forLoop F (fun f m' =>
          m'.store64 (cen + 8 * (n * F + f))
            (m'.f64 (cen + 8 * (n * F + f)) + m'.f64 (rcen + 8 * (n * F + f))))
          ((kmeans_accumulate F n cnt cen rcnt rcen m).store32 (cnt + 4 * n)
            ((kmeans_accumulate F n cnt cen rcnt rcen m).u32 (cnt + 4 * n) +
              (kmeans_accumulate F n cnt cen rcnt rcen m).u32 (rcnt + 4 * n))) := by
      unfold kmeans_accumulate
      rw [forLoop_succ]
      simp only [sizeof_uint32, sizeof_double]
    rw [hstep]
    generalize kmeans_accumulate F n cnt cen rcnt rcen m = r at ihc ihcf ihv ihvf ⊢
    have hnK := step_mul_le F n K (by omega)
    have e : (n + 1) * F = n * F + F := by ring
    obtain ⟨ru, rv, rfr⟩ := store64_row_spec cen (n * F) F
      (fun f m' =>
        m'.store64 (cen + 8 * (n * F + f))
          (m'.f64 (cen + 8 * (n * F + f)) + m'.f64 (rcen + 8 * (n * F + f))))
      (r.store32 (cnt + 4 * n) (r.u32 (cnt + 4 * n) + r.u32 (rcnt + 4 * n)))
      (fun f => m.f64 (cen + 8 * (n * F + f)) + m.f64 (rcen + 8 * (n * F + f)))
      (by
        intro f hf m' _ hf'
        beta_reduce
        rw [hf' _ (by omega), hf' (rcen + 8 * (n * F + f)) (by omega)]
        simp only [Mem.store32_f64]
        rw [ihvf _ (by omega), ihvf (rcen + 8 * (n * F + f)) (by omega)])
    refine ⟨?_, ?_, ?_, ?_⟩
    · intro c hc
      rw [ru]
      simp only [Mem.store32_u32]
      rcases Nat.lt_or_ge c n with h | h
      · rw [if_neg (by omega)]; exact ihc c h
      · have : c = n := by omega
        subst this
        rw [if_pos rfl, ihcf _ (by omega), ihcf (rcnt + 4 * c) (by omega)]
    · intro a ha
      rw [ru]
      simp only [Mem.store32_u32]
      rw [if_neg (by omega)]
      exact ihcf a (by omega)
    · intro c f hc hf
      rcases Nat.lt_or_ge c n with h | h
      · have := step_mul_le F c n h
        rw [rfr _ (by omega)]
        simp only [Mem.store32_f64]
        exact ihv c f h hf
      · have : c = n := by omega
        subst this
        exact rv f hf
    · intro a ha
      rw [e] at ha
      rw [rfr a (by omega)]
      simp only [Mem.store32_f64]
      exact ihvf a (by omega)

/-- A reduction loop: the remote buffer pairs `(rc d, rv d)`, `d < n`, all disjoint from
`(cnt, cen)`, are accumulated into `(cnt, cen)` one after the other. -/
theorem kmeans_reduce_spec (F K : Nat) (cnt cen : Nat) (rc rv : Nat → Nat) (m : Mem) (n : Nat)
    (hc : ∀ d, d < n → rc d + 4 * K ≤ cnt ∨ cnt + 4 * K ≤ rc d)
    (hv : ∀ d, d < n → rv d + 8 * (K * F) ≤ cen ∨ cen + 8 * (K * F) ≤ rv d) :
    (∀ c, c < K →
      (forLoop n (fun d m => kmeans_accumulate F K cnt cen (rc d) (rv d) m) m).u32 (cnt + 4 * c) =
        m.u32 (cnt + 4 * c) + ∑ d in Finset.range n, m.u32 (rc d + 4 * c)) ∧
    (∀ a, ¬ (cnt ≤ a ∧ a < cnt + 4 * K) →
      (forLoop n (fun d m => kmeans_accumulate F K cnt cen (rc d) (rv d) m) m).u32 a = m.u32 a) ∧
    (∀ c f, c < K → f < F →
      (forLoop n (fun d m => kmeans_accumulate F K cnt cen (rc d) (rv d) m) m).f64
          (cen + 8 * (c * F + f)) =
        m.f64 (cen + 8 * (c * F + f)) + ∑ d in Finset.range n, m.f64 (rv d + 8 * (c * F + f))) ∧
    (∀ a, ¬ (cen ≤ a ∧ a < cen + 8 * (K * F)) →
      (forLoop n (fun d m => kmeans_accumulate F K cnt cen (rc d) (rv d) m) m).f64 a = m.f64 a) := by
  induction n with
  | zero =>
    refine ⟨?_, ?_, ?_, ?_⟩
    · intro c _; simp [forLoop_zero]
    · intro a _; rfl
    · intro c f _ _; simp [forLoop_zero]
    · intro a _; rfl
  | succ n ih =>
    obtain ⟨ihc, ihcf, ihv, ihvf⟩ := ih (fun d hd => hc d (by omega)) (fun d hd => hv d (by omega))
    obtain ⟨ac, acf, av, avf⟩ := kmeans_accumulate_spec F cnt cen (rc n) (rv n)
      (forLoop n (fun d m => kmeans_accumulate F K cnt cen (rc d) (rv d) m) m) K K le_rfl
      (hc n (by omega)) (hv n (by omega))
    rw [forLoop_succ]
    have hcn := hc n (by omega)
    have hvn := hv n (by omega)
    refine ⟨?_, ?_, ?_, ?_⟩
    · intro c hcK
      rw [ac c hcK, ihc c hcK, ihcf (rc n + 4 * c) (by omega), Finset.sum_range_succ]
      ring
    · intro a ha
      rw [acf a ha, ihcf a ha]
    · intro c f hcK hf
      have := step_mul_le F c K hcK
      rw [av c f hcK hf, ihv c f hcK hf, ihvf (rv n + 8 * (c * F + f)) (by omega),
        Finset.sum_range_succ]
      ring
    · intro a ha
      rw [avf a ha, ihvf a ha]

/-- The intra-cluster reduction adds the partial buffers of the cores `1 .. P - 1`, which
follow those of core 0 at distances of `K` counters and `K * F` doubles, to those of core 0. -/
theorem kmeans_intra_cluster_reduction_spec (cfg : snrt_config) (F K : Nat) (p : kmeans_ptrs)
    (m : Mem) :
    (∀ c, c < K →
      (kmeans_intra_cluster_reduction cfg F K p m).u32 (p.partial_membership_cnt + 4 * c) =
        m.u32 (p.partial_membership_cnt + 4 * c) +
          ∑ d in Finset.range (cfg.compute_core_num - 1),
            m.u32 (p.partial_membership_cnt + K * 4 * (1 + d) + 4 * c)) ∧
    (∀ a, ¬ (p.partial_membership_cnt ≤ a ∧ a < p.partial_membership_cnt + 4 * K) →
      (kmeans_intra_cluster_reduction cfg F K p m).u32 a = m.u32 a) ∧
    (∀ c f, c < K → f < F →
      (kmeans_intra_cluster_reduction cfg F K p m).f64 (p.partial_centroids + 8 * (c * F + f)) =
        m.f64 (p.partial_centroids + 8 * (c * F + f)) +
          ∑ d in Finset.range (cfg.compute_core_num - 1),
            m.f64 (p.partial_centroids + K * F * 8 * (1 + d) + 8 * (c * F + f))) ∧
    (∀ a, ¬ (p.partial_centroids ≤ a ∧ a < p.partial_centroids + 8 * (K * F)) →
      (kmeans_intra_cluster_reduction cfg F K p m).f64 a = m.f64 a) := by
  have hstep : kmeans_intra_cluster_reduction cfg F K p m =
      forLoop (cfg.compute_core_num - 1) (fun d m =>
        kmeans_accumulate F K p.partial_membership_cnt p.partial_centroids
          (p.partial_membership_cnt + K * 4 * (1 + d))
          (p.partial_centroids + K * F * 8 * (1 + d)) m) m := by
    unfold kmeans_intra_cluster_reduction
    congr 1
    funext d m'
    simp only [sizeof_uint32, sizeof_double]
    have e1 : 4 * ((1 + d) * K) = K * 4 * (1 + d) := by ring
    have e2 : 8 * ((1 + d) * K * F) = K * F * 8 * (1 + d) := by ring
    rw [e1, e2]
  rw [hstep]
  have h1 : ∀ d, K * 4 * 0 + K * 4 ≤ K * 4 * (1 + d) := fun d => mul_step_le (K * 4) 0 (1 + d) (by omega)
  have h2 : ∀ d, K * F * 8 * 0 + K * F * 8 ≤ K * F * 8 * (1 + d) :=
    fun d => mul_step_le (K * F * 8) 0 (1 + d) (by omega)
  exact kmeans_reduce_spec F K p.partial_membership_cnt p.partial_centroids
    (fun d => p.partial_membership_cnt + K * 4 * (1 + d))
    (fun d => p.partial_centroids + K * F * 8 * (1 + d)) m (cfg.compute_core_num - 1)
    (fun d _ => Or.inr (by have := h1 d; beta_reduce; omega))
    (fun d _ => Or.inr (by have := h2 d; beta_reduce; omega))

/-! ### K-Means: the update phase of a cluster -/

/-- The update steps of the cores `P - 1, ..., P - n` of cluster `k` (none of them core 0):
each fills its partial centroids with the sums over its samples. -/
theorem kmeans_update_peers_spec (cfg : snrt_config) (k : Nat)
    (n_samples n_features n_clusters iter_idx : Nat) (m : Mem)
    (hk : k < cfg.cluster_num) (hfit : kmeans_fits cfg n_samples n_features n_clusters)
    (spc q : Nat) (hspc : n_samples / cfg.cluster_num = spc)
    (hq : n_samples / cfg.cluster_num / cfg.compute_core_num = q)
    (hmb : ∀ i t, i < cfg.compute_core_num → t < q →
      m.u32 ((kmeans_core_ptrs cfg k 0 n_samples n_features n_clusters iter_idx).membership +
        4 * (i * q + t)) < n_clusters)
    (n : Nat) (hn : n + 1 ≤ cfg.compute_core_num) :
    (forLoop n (fun d m =>
        kmeans_update_segment cfg k (cfg.compute_core_num - 1 - d)
          n_samples n_features n_clusters iter_idx m) m).u32 = m.u32 ∧
    (∀ i c f, cfg.compute_core_num - n ≤ i → i < cfg.compute_core_num →
        c < n_clusters → f < n_features →
      (forLoop n (fun d m =>
        kmeans_update_segment cfg k (cfg.compute_core_num - 1 - d)
          n_samples n_features n_clusters iter_idx m) m).f64
          ((kmeans_core_ptrs cfg k i n_samples n_features n_clusters iter_idx).partial_centroids +
            8 * (c * n_features + f)) =
        ∑ t in Finset.range q,
          if m.u32 ((kmeans_core_ptrs cfg k 0 n_samples n_features n_clusters iter_idx).membership +
              4 * (i * q + t)) = c
          then m.f64 ((kmeans_core_ptrs cfg k 0 n_samples n_features n_clusters iter_idx).local_samples
              + 8 * ((i * q + t) * n_features + f))
          else 0) ∧
    (∀ a,
      ¬ ((kmeans_core_ptrs cfg k 0 n_samples n_features n_clusters iter_idx).partial_centroids +
            n_clusters * n_features * 8 * (cfg.compute_core_num - n) ≤ a ∧
          a < (kmeans_core_ptrs cfg k 0 n_samples n_features n_clusters iter_idx).partial_centroids +
            n_clusters * n_features * 8 * cfg.compute_core_num) →
      (forLoop n (fun d m =>
        kmeans_update_segment cfg k (cfg.compute_core_num - 1 - d)
          n_samples n_features n_clusters iter_idx m) m).f64 a = m.f64 a) := by
  have hPq : cfg.compute_core_num * q ≤ spc := by
    rw [← hq, hspc]; exact Nat.mul_div_le _ _
  obtain ⟨hfoot, -⟩ := kmeans_fits_eval cfg n_samples n_features n_clusters hfit spc hspc
  obtain ⟨el0, em0, -, -, -, ep0⟩ :=
    kmeans_core_ptrs_eval cfg k 0 n_samples n_features n_clusters iter_idx hk hfit spc hspc
  induction n with
  | zero =>
    refine ⟨rfl, ?_, ?_⟩
    · intro i c f h1 h2; omega
    · intro a _; rfl
  | succ n ih =>
    obtain ⟨ihu, ihv, ihfr⟩ := ih (by omega)
    rw [forLoop_succ]
    generalize forLoop n (fun d m =>
        kmeans_update_segment cfg k (cfg.compute_core_num - 1 - d)
          n_samples n_features n_clusters iter_idx m) m = r at ihu ihv ihfr ⊢
    have hcore : cfg.compute_core_num - 1 - n ≠ 0 := by omega
    have hseg : kmeans_update_segment cfg k (cfg.compute_core_num - 1 - n)
        n_samples n_features n_clusters iter_idx r =
        kmeans_update_step cfg (cfg.compute_core_num - 1 - n) n_samples n_features n_clusters
          (kmeans_core_ptrs cfg k (cfg.compute_core_num - 1 - n) n_samples n_features n_clusters
            iter_idx) r := by
      unfold kmeans_update_segment
      simp only [hcore, if_false]
    rw [hseg]
    obtain ⟨el, em, -, -, -, ep⟩ :=
      kmeans_core_ptrs_eval cfg k (cfg.compute_core_num - 1 - n) n_samples n_features n_clusters
        iter_idx hk hfit spc hspc
    have hi : cfg.compute_core_num - 1 - n < cfg.compute_core_num := by omega
    have h1 := step_mul_le q _ _ hi
    have h2 : ((cfg.compute_core_num - 1 - n) * q + q) * n_features ≤ spc * n_features :=
      Nat.mul_le_mul_right _ (by omega)
    have h3 := mul_step_le (n_clusters * n_features * 8) _ _ hi
    have h4 : n_clusters * n_features * 8 * (cfg.compute_core_num - 1 - n) +
        n_clusters * n_features * 8 =
        n_clusters * n_features * 8 * (cfg.compute_core_num - n) := by
      have : cfg.compute_core_num - n = cfg.compute_core_num - 1 - n + 1 := by omega
      rw [this]; ring
    have h5 : n_clusters * n_features * 8 * (cfg.compute_core_num - (n + 1)) =
        n_clusters * n_features * 8 * (cfg.compute_core_num - 1 - n) := by
      congr 1; omega
    obtain ⟨su, sv, sfr⟩ := kmeans_update_step_spec cfg (cfg.compute_core_num - 1 - n)
      n_samples n_features n_clusters
      (kmeans_core_ptrs cfg k (cfg.compute_core_num - 1 - n) n_samples n_features n_clusters
        iter_idx) r q hq
      (by
        intro t ht
        rw [ihu, em, ← em0]
        exact hmb _ t hi ht)
      (by rw [el, ep]; omega)
    refine ⟨by rw [su, ihu], ?_, ?_⟩
    · intro i c f hi1 hi2 hc hf
      obtain ⟨-, -, -, -, -, epi⟩ :=
        kmeans_core_ptrs_eval cfg k i n_samples n_features n_clusters iter_idx hk hfit spc hspc
      have hcf := step_mul_le n_features c n_clusters hc
      rcases Nat.lt_or_ge (cfg.compute_core_num - 1 - n) i with h | h
      · have h6 := mul_step_le (n_clusters * n_features * 8) _ _ h
        rw [sfr _ (by rw [ep, epi]; omega)]
        exact ihv i c f (by omega) hi2 hc hf
      · have : i = cfg.compute_core_num - 1 - n := by omega
        subst this
        rw [sv c f hc hf, ihu, em, el, ← em0, ← el0]
        apply Finset.sum_congr rfl
        intro t ht
        rw [Finset.mem_range] at ht
        have h7 : ((cfg.compute_core_num - 1 - n) * q + t) * n_features + n_features ≤
            spc * n_features := by
          have : ((cfg.compute_core_num - 1 - n) * q + t + 1) * n_features ≤ spc * n_features :=
            Nat.mul_le_mul_right _ (by omega)
          rw [Nat.add_mul, Nat.one_mul] at this
          exact this
        rw [ihfr _ (by rw [el0, ep0]; omega)]
    · intro a ha
      rw [h5, ep0] at ha
      rw [sfr a (by rw [ep]; omega)]
      exact ihfr a (by rw [ep0]; omega)

/-- The update phase of cluster `k`: after all cores have run, in the order
`P - 1, ..., 0`, the buffers of core 0 hold the sums over the cores of the per-core counters
and of the per-core sample sums. -/
theorem kmeans_update_cluster_spec (cfg : snrt_config) (k : Nat)
    (n_samples n_features n_clusters iter_idx : Nat) (m : Mem)
    (hk : k < cfg.cluster_num) (hfit : kmeans_fits cfg n_samples n_features n_clusters)
    (spc q : Nat) (hspc : n_samples / cfg.cluster_num = spc)
    (hq : n_samples / cfg.cluster_num / cfg.compute_core_num = q)
    (hP : 0 < cfg.compute_core_num)
    (hmb : ∀ i t, i < cfg.compute_core_num → t < q →
      m.u32 ((kmeans_core_ptrs cfg k 0 n_samples n_features n_clusters iter_idx).membership +
        4 * (i * q + t)) < n_clusters) :
    (∀ c, c < n_clusters →
      (forLoop cfg.compute_core_num (fun d m =>
        kmeans_update_segment cfg k (cfg.compute_core_num - 1 - d)
          n_samples n_features n_clusters iter_idx m) m).u32
          ((kmeans_core_ptrs cfg k 0 n_samples n_features n_clusters iter_idx).partial_membership_cnt
            + 4 * c) =
        ∑ i in Finset.range cfg.compute_core_num,
          m.u32 ((kmeans_core_ptrs cfg k i n_samples n_features n_clusters
            iter_idx).partial_membership_cnt + 4 * c)) ∧
    (∀ a,
      ¬ ((kmeans_core_ptrs cfg k 0 n_samples n_features n_clusters iter_idx).partial_membership_cnt
            ≤ a ∧
          a < (kmeans_core_ptrs cfg k 0 n_samples n_features n_clusters
            iter_idx).partial_membership_cnt + 4 * n_clusters) →
      (forLoop cfg.compute_core_num (fun d m =>
        kmeans_update_segment cfg k (cfg.compute_core_num - 1 - d)
          n_samples n_features n_clusters iter_idx m) m).u32 a = m.u32 a) ∧
    (∀ c f, c < n_clusters → f < n_features →
      (forLoop cfg.compute_core_num (fun d m =>
        kmeans_update_segment cfg k (cfg.compute_core_num - 1 - d)
          n_samples n_features n_clusters iter_idx m) m).f64
          ((kmeans_core_ptrs cfg k 0 n_samples n_features n_clusters iter_idx).partial_centroids +
            8 * (c * n_features + f)) =
        ∑ i in Finset.range cfg.compute_core_num, ∑ t in Finset.range q,
          if m.u32 ((kmeans_core_ptrs cfg k 0 n_samples n_features n_clusters iter_idx).membership +
              4 * (i * q + t)) = c
          then m.f64 ((kmeans_core_ptrs cfg k 0 n_samples n_features n_clusters iter_idx).local_samples
              + 8 * ((i * q + t) * n_features + f))
          else 0) ∧
    (∀ a,
      ¬ ((kmeans_core_ptrs cfg k 0 n_samples n_features n_clusters iter_idx).partial_centroids ≤ a ∧
          a < (kmeans_core_ptrs cfg k 0 n_samples n_features n_clusters iter_idx).partial_centroids +
            n_clusters * n_features * 8 * cfg.compute_core_num) →
      (forLoop cfg.compute_core_num (fun d m =>
        kmeans_update_segment cfg k (cfg.compute_core_num - 1 - d)
          n_samples n_features n_clusters iter_idx m) m).f64 a = m.f64 a) := by
  have hPq : cfg.compute_core_num * q ≤ spc := by
    rw [← hq, hspc]; exact Nat.mul_div_le _ _
  obtain ⟨hfoot, -⟩ := kmeans_fits_eval cfg n_samples n_features n_clusters hfit spc hspc
  obtain ⟨el0, em0, -, ec0, -, ep0⟩ :=
    kmeans_core_ptrs_eval cfg k 0 n_samples n_features n_clusters iter_idx hk hfit spc hspc
  obtain ⟨n, hn⟩ : ∃ n, cfg.compute_core_num = n + 1 := ⟨cfg.compute_core_num - 1, by omega⟩
  obtain ⟨pu, pv, pfr⟩ := kmeans_update_peers_spec cfg k n_samples n_features n_clusters iter_idx m
    hk hfit spc q hspc hq hmb n (by omega)
  have hloop : forLoop cfg.compute_core_num (fun d m =>
        kmeans_update_segment cfg k (cfg.compute_core_num - 1 - d)
          n_samples n_features n_clusters iter_idx m) m =
      kmeans_update_segment cfg k 0 n_samples n_features n_clusters iter_idx
        (forLoop n (fun d m =>
          kmeans_update_segment cfg k (cfg.compute_core_num - 1 - d)
            n_samples n_features n_clusters iter_idx m) m) := by
    have e : cfg.compute_core_num - 1 - n = 0 := by omega
    conv_lhs => rw [hn]
    rw [forLoop_succ, ← hn, e]
  rw [hloop]
  generalize forLoop n (fun d m =>
      kmeans_update_segment cfg k (cfg.compute_core_num - 1 - d)
        n_samples n_features n_clusters iter_idx m) m = r at pu pv pfr ⊢
  have hseg : kmeans_update_segment cfg k 0 n_samples n_features n_clusters iter_idx r =
      kmeans_intra_cluster_reduction cfg n_features n_clusters
        (kmeans_core_ptrs cfg k 0 n_samples n_features n_clusters iter_idx)
        (kmeans_update_step cfg 0 n_samples n_features n_clusters
          (kmeans_core_ptrs cfg k 0 n_samples n_features n_clusters iter_idx) r) := by
    unfold kmeans_update_segment
    simp only [if_true]
  rw [hseg]
  have h1 := step_mul_le q 0 _ hP
  have h2 : (0 * q + q) * n_features ≤ spc * n_features :=
    Nat.mul_le_mul_right _ (by omega)
  have h3 := mul_step_le (n_clusters * n_features * 8) 0 _ hP
  have hPn : cfg.compute_core_num - n = 1 := by omega
  rw [hPn] at pv pfr
  obtain ⟨su, sv, sfr⟩ := kmeans_update_step_spec cfg 0 n_samples n_features n_clusters
    (kmeans_core_ptrs cfg k 0 n_samples n_features n_clusters iter_idx) r q hq
    (by
      intro t ht
      rw [pu]
      exact hmb 0 t hP ht)
    (by rw [el0, ep0]; omega)
  generalize kmeans_update_step cfg 0 n_samples n_features n_clusters
    (kmeans_core_ptrs cfg k 0 n_samples n_features n_clusters iter_idx) r = u at su sv sfr ⊢
  obtain ⟨ic, icf, iv, ivf⟩ := kmeans_intra_cluster_reduction_spec cfg n_features n_clusters
    (kmeans_core_ptrs cfg k 0 n_samples n_features n_clusters iter_idx) u
  have hn1 : cfg.compute_core_num - 1 = n := by omega
  refine ⟨?_, ?_, ?_, ?_⟩
  · intro c hc
    rw [ic c hc, su, pu, hn1]
    conv_rhs => rw [hn]
    rw [Finset.sum_range_succ', Nat.add_comm]
    congr 1
    apply Finset.sum_congr rfl
    intro d hd
    rw [Finset.mem_range] at hd
    obtain ⟨-, -, -, ecd, -, -⟩ :=
      kmeans_core_ptrs_eval cfg k (d + 1) n_samples n_features n_clusters iter_idx hk hfit
        spc hspc
    rw [ecd, ec0]
    congr 1
    have : 1 + d = d + 1 := by omega
    rw [this]; omega
  · intro a ha
    rw [icf a ha, su, pu]
  · intro c f hc hf
    have hcf := step_mul_le n_features c n_clusters hc
    rw [iv c f hc hf, hn1]
    conv_rhs => rw [hn]
    rw [Finset.sum_range_succ', add_comm]
    congr 1
    · apply Finset.sum_congr rfl
      intro d hd
      rw [Finset.mem_range] at hd
      obtain ⟨-, -, -, -, -, epd⟩ :=
        kmeans_core_ptrs_eval cfg k (d + 1) n_samples n_features n_clusters iter_idx hk hfit
          spc hspc
      have h6 := mul_step_le (n_clusters * n_features * 8) 0 (d + 1) (by omega)
      have e1 : (kmeans_core_ptrs cfg k 0 n_samples n_features n_clusters
            iter_idx).partial_centroids + n_clusters * n_features * 8 * (1 + d) +
          8 * (c * n_features + f) =
          (kmeans_core_ptrs cfg k (d + 1) n_samples n_features n_clusters
            iter_idx).partial_centroids + 8 * (c * n_features + f) := by
        have : 1 + d = d + 1 := by omega
        rw [this, epd, ep0]; omega
      rw [e1, sfr _ (by rw [epd, ep0]; omega)]
      exact pv (d + 1) c f (by omega) (by omega) hc hf
    · rw [sv c f hc hf, pu]
      apply Finset.sum_congr rfl
      intro t ht
      rw [Finset.mem_range] at ht
      have h7 : (0 * q + t) * n_features + n_features ≤ spc * n_features := by
        have : (0 * q + t + 1) * n_features ≤ spc * n_features :=
          Nat.mul_le_mul_right _ (by omega)
        rw [Nat.add_mul, Nat.one_mul] at this
        exact this
      rw [pfr _ (by rw [el0, ep0]; omega)]
  · intro a ha
    rw [ep0] at ha
    rw [ivf a (by rw [ep0]; omega), sfr a (by rw [ep0]; omega), pfr a (by rw [ep0]; omega)]

/-- The update phase on the first `n` clusters. -/
theorem kmeans_update_clusters_spec (cfg : snrt_config)
    (n_samples n_features n_clusters iter_idx : Nat) (m : Mem)
    (hfit : kmeans_fits cfg n_samples n_features n_clusters)
    (spc q : Nat) (hspc : n_samples / cfg.cluster_num = spc)
    (hq : n_samples / cfg.cluster_num / cfg.compute_core_num = q)
    (hP : 0 < cfg.compute_core_num)
    (hmb : ∀ k i t, k < cfg.cluster_num → i < cfg.compute_core_num → t < q →
      m.u32 ((kmeans_core_ptrs cfg k 0 n_samples n_features n_clusters iter_idx).membership +
        4 * (i * q + t)) < n_clusters)
    (n : Nat) (hn : n ≤ cfg.cluster_num) :
    (∀ k c, k < n → c < n_clusters →
      (forLoop n (fun cluster_idx m =>
        forLoop cfg.compute_core_num (fun d m =>
          kmeans_update_segment cfg cluster_idx (cfg.compute_core_num - 1 - d)
            n_samples n_features n_clusters iter_idx m) m) m).u32
          ((kmeans_core_ptrs cfg k 0 n_samples n_features n_clusters iter_idx).partial_membership_cnt
            + 4 * c) =
        ∑ i in Finset.range cfg.compute_core_num,
          m.u32 ((kmeans_core_ptrs cfg k i n_samples n_features n_clusters
            iter_idx).partial_membership_cnt + 4 * c)) ∧
    (∀ a,
      (∀ k, k < n →
        ¬ ((kmeans_core_ptrs cfg k 0 n_samples n_features n_clusters
              iter_idx).partial_membership_cnt ≤ a ∧
          a < (kmeans_core_ptrs cfg k 0 n_samples n_features n_clusters
            iter_idx).partial_membership_cnt + 4 * n_clusters)) →
      (forLoop n (fun cluster_idx m =>
        forLoop cfg.compute_core_num (fun d m =>
          kmeans_update_segment cfg cluster_idx (cfg.compute_core_num - 1 - d)
            n_samples n_features n_clusters iter_idx m) m) m).u32 a = m.u32 a) ∧
    (∀ k c f, k < n → c < n_clusters → f < n_features →
      (forLoop n (fun cluster_idx m =>
        forLoop cfg.compute_core_num (fun d m =>
          kmeans_update_segment cfg cluster_idx (cfg.compute_core_num - 1 - d)
            n_samples n_features n_clusters iter_idx m) m) m).f64
          ((kmeans_core_ptrs cfg k 0 n_samples n_features n_clusters iter_idx).partial_centroids +
            8 * (c * n_features + f)) =
        ∑ i in Finset.range cfg.compute_core_num, ∑ t in Finset.range q,
          if m.u32 ((kmeans_core_ptrs cfg k 0 n_samples n_features n_clusters iter_idx).membership +
              4 * (i * q + t)) = c
          then m.f64 ((kmeans_core_ptrs cfg k 0 n_samples n_features n_clusters iter_idx).local_samples
              + 8 * ((i * q + t) * n_features + f))
          else 0) ∧
    (∀ a,
      (∀ k, k < n →
        ¬ ((kmeans_core_ptrs cfg k 0 n_samples n_features n_clusters iter_idx).partial_centroids
              ≤ a ∧
          a < (kmeans_core_ptrs cfg k 0 n_samples n_features n_clusters
            iter_idx).partial_centroids + n_clusters * n_features * 8 * cfg.compute_core_num)) →
      (forLoop n (fun cluster_idx m =>
        forLoop cfg.compute_core_num (fun d m =>
          kmeans_update_segment cfg cluster_idx (cfg.compute_core_num - 1 - d)
            n_samples n_features n_clusters iter_idx m) m) m).f64 a = m.f64 a) := by
  have hPq : cfg.compute_core_num * q ≤ spc := by
    rw [← hq, hspc]; exact Nat.mul_div_le _ _
  obtain ⟨hfoot, -⟩ := kmeans_fits_eval cfg n_samples n_features n_clusters hfit spc hspc
  induction n with
  | zero =>
    refine ⟨?_, ?_, ?_, ?_⟩
    · intro k c hk; omega
    · intro a _; rfl
    · intro k c f hk; omega
    · intro a _; rfl
  | succ n ih =>
    obtain ⟨ihc, ihcf, ihv, ihvf⟩ := ih (by omega)
    rw [forLoop_succ]
    generalize forLoop n (fun cluster_idx m =>
        forLoop cfg.compute_core_num (fun d m =>
          kmeans_update_segment cfg cluster_idx (cfg.compute_core_num - 1 - d)
            n_samples n_features n_clusters iter_idx m) m) m = r at ihc ihcf ihv ihvf ⊢
    have hnC : n < cfg.cluster_num := by omega
    obtain ⟨eln, emn, -, ecn, -, epn⟩ :=
      kmeans_core_ptrs_eval cfg n 0 n_samples n_features n_clusters iter_idx hnC hfit spc hspc
    -- what cluster `n` reads has not been written by the clusters before it
    have hwin_u : ∀ a, cfg.l1_start + n * cfg.cluster_offset ≤ a → r.u32 a = m.u32 a := by
      intro a ha
      apply ihcf
      intro k hk
      obtain ⟨-, -, -, eck, -, -⟩ :=
        kmeans_core_ptrs_eval cfg k 0 n_samples n_features n_clusters iter_idx (by omega) hfit
          spc hspc
      have := step_mul_le cfg.cluster_offset k n hk
      have := mul_step_le (n_clusters * 4) 0 _ hP
      rw [eck]; omega
    have hwin_f : ∀ a, cfg.l1_start + n * cfg.cluster_offset ≤ a → r.f64 a = m.f64 a := by
      intro a ha
      apply ihvf
      intro k hk
      obtain ⟨-, -, -, -, -, epk⟩ :=
        kmeans_core_ptrs_eval cfg k 0 n_samples n_features n_clusters iter_idx (by omega) hfit
          spc hspc
      have := step_mul_le cfg.cluster_offset k n hk
      rw [epk]; omega
    obtain ⟨sc, scf, sv, svf⟩ := kmeans_update_cluster_spec cfg n n_samples n_features n_clusters
      iter_idx r hnC hfit spc q hspc hq hP
      (by
        intro i t hi ht
        rw [hwin_u _ (by rw [emn]; omega)]
        exact hmb n i t hnC hi ht)
    refine ⟨?_, ?_, ?_, ?_⟩
    · intro k c hk hc
      rcases Nat.lt_or_ge k n with h | h
      · obtain ⟨-, -, -, eck, -, -⟩ :=
          kmeans_core_ptrs_eval cfg k 0 n_samples n_features n_clusters iter_idx (by omega) hfit
            spc hspc
        have := step_mul_le cfg.cluster_offset k n h
        have := mul_step_le (n_clusters * 4) 0 _ hP
        rw [scf _ (by rw [eck, ecn]; omega)]
        exact ihc k c h hc
      · have : k = n := by omega
        subst this
        rw [sc c hc]
        apply Finset.sum_congr rfl
        intro i hi
        obtain ⟨-, -, -, eci, -, -⟩ :=
          kmeans_core_ptrs_eval cfg k i n_samples n_features n_clusters iter_idx hnC hfit
            spc hspc
        exact hwin_u _ (by rw [eci]; omega)
    · intro a ha
      rw [scf a (ha n (by omega))]
      exact ihcf a (fun k hk => ha k (by omega))
    · intro k c f hk hc hf
      have hcf := step_mul_le n_features c n_clusters hc
      rcases Nat.lt_or_ge k n with h | h
      · obtain ⟨-, -, -, -, -, epk⟩ :=
          kmeans_core_ptrs_eval cfg k 0 n_samples n_features n_clusters iter_idx (by omega) hfit
            spc hspc
        have := step_mul_le cfg.cluster_offset k n h
        have := mul_step_le (n_clusters * n_features * 8) 0 _ hP
        rw [svf _ (by rw [epk, epn]; omega)]
        exact ihv k c f h hc hf
      · have : k = n := by omega
        subst this
        rw [sv c f hc hf]
        apply Finset.sum_congr rfl
        intro i _
        apply Finset.sum_congr rfl
        intro t _
        rw [hwin_u _ (by rw [emn]; omega), hwin_f _ (by rw [eln]; omega)]
    · intro a ha
      rw [svf a (ha n (by omega))]
      exact ihvf a (fun k hk => ha k (by omega))

/-- The normalize step divides every final centroid by the final counter of its centroid. -/
theorem kmeans_normalize_spec (F : Nat) (p : kmeans_ptrs) (m : Mem) (n : Nat) :
    (kmeans_normalize F n p m).u32 = m.u32 ∧
    (∀ c f, c < n → f < F →
      (kmeans_normalize F n p m).f64 (p.final_centroids + 8 * (c * F + f)) =
        m.f64 (p.final_centroids + 8 * (c * F + f)) /
          (m.u32 (p.final_membership_cnt + 4 * c) : ℚ)) ∧
    (∀ a, ¬ (p.final_centroids ≤ a ∧ a < p.final_centroids + 8 * (n * F)) →
      (kmeans_normalize F n p m).f64 a = m.f64 a) := by
  induction n with
  | zero =>
    refine ⟨rfl, ?_, ?_⟩
    · intro c f hc; omega
    · intro a _; rfl
  | succ n ih =>
    obtain ⟨ihu, ihv, ihfr⟩ := ih
    have hstep : kmeans_normalize F (n + 1) p m =
        forLoop F (fun f m' =>
          m'.store64 (p.final_centroids + 8 * (n * F + f))
            (m'.f64 (p.final_centroids + 8 * (n * F + f)) /
              (m'.u32 (p.final_membership_cnt + 4 * n) : ℚ)))
          (kmeans_normalize F n p m) := by
      unfold kmeans_normalize
      rw [forLoop_succ]
      simp only [sizeof_uint32, sizeof_double]
    rw [hstep]
    generalize kmeans_normalize F n p m = r at ihu ihv ihfr ⊢
    have e : (n + 1) * F = n * F + F := by ring
    obtain ⟨ru, rv, rfr⟩ := store64_row_spec p.final_centroids (n * F) F
      (fun f m' =>
        m'.store64 (p.final_centroids + 8 * (n * F + f))
          (m'.f64 (p.final_centroids + 8 * (n * F + f)) /
            (m'.u32 (p.final_membership_cnt + 4 * n) : ℚ)))
      r
      (fun f => m.f64 (p.final_centroids + 8 * (n * F + f)) /
        (m.u32 (p.final_membership_cnt + 4 * n) : ℚ))
      (by
        intro f hf m' hu' hf'
        beta_reduce
        rw [hf' _ (by omega), hu', ihu, ihfr _ (by omega)])
    refine ⟨by rw [ru, ihu], ?_, ?_⟩
    · intro c f hc hf
      rcases Nat.lt_or_ge c n with h | h
      · have := step_mul_le F c n h
        rw [rfr _ (by omega)]
        exact ihv c f h hf
      · have : c = n := by omega
        subst this
        exact rv f hf
    · intro a ha
      rw [e] at ha
      rw [rfr a (by omega)]
      exact ihfr a (by omega)

/-- A sum over blocks of `q` consecutive indices is the sum over all indices. -/
theorem sum_blocks {M : Type} [AddCommMonoid M] (P q : Nat) (h : Nat → M) :
    ∑ i in Finset.range P, ∑ t in Finset.range q, h (i * q + t) =
      ∑ j in Finset.range (P * q), h j := by
  induction P with
  | zero => simp
  | succ P ih =>
    rw [Finset.sum_range_succ, ih, Nat.add_mul, Nat.one_mul, Finset.sum_range_add]

/-- The inter-cluster reduction, run from cluster 0: the buffers of core 0 of the clusters
`1 .. C - 1` are added to the final buffers. -/
theorem kmeans_inter_cluster_reduction_spec (cfg : snrt_config)
    (n_samples n_features n_clusters iter_idx : Nat) (m : Mem)
    (hfit : kmeans_fits cfg n_samples n_features n_clusters)
    (hC : 0 < cfg.cluster_num) (hP : 0 < cfg.compute_core_num) (hK : 0 < n_clusters) :
    (∀ c, c < n_clusters →
      (kmeans_inter_cluster_reduction cfg n_features n_clusters
        (kmeans_core_ptrs cfg 0 0 n_samples n_features n_clusters iter_idx) m).u32
          ((kmeans_core_ptrs cfg 0 0 n_samples n_features n_clusters iter_idx).final_membership_cnt
            + 4 * c) =
        ∑ k in Finset.range cfg.cluster_num,
          m.u32 ((kmeans_core_ptrs cfg k 0 n_samples n_features n_clusters
            iter_idx).partial_membership_cnt + 4 * c)) ∧
    (∀ a,
      ¬ ((kmeans_core_ptrs cfg 0 0 n_samples n_features n_clusters iter_idx).final_membership_cnt
            ≤ a ∧
          a < (kmeans_core_ptrs cfg 0 0 n_samples n_features n_clusters
            iter_idx).final_membership_cnt + 4 * n_clusters) →
      (kmeans_inter_cluster_reduction cfg n_features n_clusters
        (kmeans_core_ptrs cfg 0 0 n_samples n_features n_clusters iter_idx) m).u32 a = m.u32 a) ∧
    (∀ c f, c < n_clusters → f < n_features →
      (kmeans_inter_cluster_reduction cfg n_features n_clusters
        (kmeans_core_ptrs cfg 0 0 n_samples n_features n_clusters iter_idx) m).f64
          ((kmeans_core_ptrs cfg 0 0 n_samples n_features n_clusters iter_idx).final_centroids +
            8 * (c * n_features + f)) =
        ∑ k in Finset.range cfg.cluster_num,
          m.f64 ((kmeans_core_ptrs cfg k 0 n_samples n_features n_clusters
            iter_idx).partial_centroids + 8 * (c * n_features + f))) ∧
    (∀ a,
      ¬ ((kmeans_core_ptrs cfg 0 0 n_samples n_features n_clusters iter_idx).final_centroids ≤ a ∧
          a < (kmeans_core_ptrs cfg 0 0 n_samples n_features n_clusters
            iter_idx).final_centroids + 8 * (n_clusters * n_features)) →
      (kmeans_inter_cluster_reduction cfg n_features n_clusters
        (kmeans_core_ptrs cfg 0 0 n_samples n_features n_clusters iter_idx) m).f64 a = m.f64 a) := by
  obtain ⟨hfoot, hspace⟩ := kmeans_fits_eval cfg n_samples n_features n_clusters hfit _ rfl
  obtain ⟨-, -, efc, ec0, efv, ep0⟩ :=
    kmeans_core_ptrs_eval cfg 0 0 n_samples n_features n_clusters iter_idx hC hfit _ rfl
  have hPK := mul_step_le (n_clusters * 4) 0 _ hP
  have hPKF := mul_step_le (n_clusters * n_features * 8) 0 _ hP
  have hS : 0 < cfg.cluster_offset := by omega
  have hCS : cfg.cluster_num ≤ cfg.cluster_num * cfg.cluster_offset :=
    Nat.le_mul_of_pos_right _ hS
  have hrc : ∀ d, d < cfg.cluster_num - 1 →
      snrt_remote_cluster_ptr cfg
        (kmeans_core_ptrs cfg 0 0 n_samples n_features n_clusters iter_idx).partial_membership_cnt
        0 (1 + d) =
      (kmeans_core_ptrs cfg (d + 1) 0 n_samples n_features n_clusters
        iter_idx).partial_membership_cnt := by
    intro d hd
    obtain ⟨-, -, -, ecd, -, -⟩ :=
      kmeans_core_ptrs_eval cfg (d + 1) 0 n_samples n_features n_clusters iter_idx (by omega)
        hfit _ rfl
    have h1 := step_mul_le cfg.cluster_offset (d + 1) cfg.cluster_num (by omega)
    have e : 1 + d = d + 1 := by omega
    rw [e, snrt_remote_cluster_ptr_eval cfg _ (d + 1) (by rw [ec0]; omega) (by omega), ec0, ecd]
    omega
  have hrv : ∀ d, d < cfg.cluster_num - 1 →
      snrt_remote_cluster_ptr cfg
        (kmeans_core_ptrs cfg 0 0 n_samples n_features n_clusters iter_idx).partial_centroids
        0 (1 + d) =
      (kmeans_core_ptrs cfg (d + 1) 0 n_samples n_features n_clusters
        iter_idx).partial_centroids := by
    intro d hd
    obtain ⟨-, -, -, -, -, epd⟩ :=
      kmeans_core_ptrs_eval cfg (d + 1) 0 n_samples n_features n_clusters iter_idx (by omega)
        hfit _ rfl
    have h1 := step_mul_le cfg.cluster_offset (d + 1) cfg.cluster_num (by omega)
    have e : 1 + d = d + 1 := by omega
    rw [e, snrt_remote_cluster_ptr_eval cfg _ (d + 1) (by rw [ep0]; omega) (by omega), ep0, epd]
    omega
  obtain ⟨n, hn⟩ : ∃ n, cfg.cluster_num = n + 1 := ⟨cfg.cluster_num - 1, by omega⟩
  have hn1 : cfg.cluster_num - 1 = n := by omega
  obtain ⟨rc, rcf, rv, rvf⟩ := kmeans_reduce_spec n_features n_clusters
    (kmeans_core_ptrs cfg 0 0 n_samples n_features n_clusters iter_idx).final_membership_cnt
    (kmeans_core_ptrs cfg 0 0 n_samples n_features n_clusters iter_idx).final_centroids
    (fun d => snrt_remote_cluster_ptr cfg
      (kmeans_core_ptrs cfg 0 0 n_samples n_features n_clusters iter_idx).partial_membership_cnt
      0 (1 + d))
    (fun d => snrt_remote_cluster_ptr cfg
      (kmeans_core_ptrs cfg 0 0 n_samples n_features n_clusters iter_idx).partial_centroids
      0 (1 + d))
    m (cfg.cluster_num - 1)
    (by
      intro d hd
      right
      obtain ⟨-, -, -, ecd, -, -⟩ :=
        kmeans_core_ptrs_eval cfg (d + 1) 0 n_samples n_features n_clusters iter_idx (by omega)
          hfit _ rfl
      have h1 := step_mul_le cfg.cluster_offset 0 (d + 1) (by omega)
      beta_reduce
      rw [hrc d hd, efc, ecd]; omega)
    (by
      intro d hd
      right
      obtain ⟨-, -, -, -, -, epd⟩ :=
        kmeans_core_ptrs_eval cfg (d + 1) 0 n_samples n_features n_clusters iter_idx (by omega)
          hfit _ rfl
      have h1 := step_mul_le cfg.cluster_offset 0 (d + 1) (by omega)
      beta_reduce
      rw [hrv d hd, efv, epd]; omega)
  have hstep : kmeans_inter_cluster_reduction cfg n_features n_clusters
      (kmeans_core_ptrs cfg 0 0 n_samples n_features n_clusters iter_idx) m =
      forLoop (cfg.cluster_num - 1) (fun d m =>
        kmeans_accumulate n_features n_clusters
          (kmeans_core_ptrs cfg 0 0 n_samples n_features n_clusters iter_idx).final_membership_cnt
          (kmeans_core_ptrs cfg 0 0 n_samples n_features n_clusters iter_idx).final_centroids
          (snrt_remote_cluster_ptr cfg
            (kmeans_core_ptrs cfg 0 0 n_samples n_features n_clusters
              iter_idx).partial_membership_cnt 0 (1 + d))
          (snrt_remote_cluster_ptr cfg
            (kmeans_core_ptrs cfg 0 0 n_samples n_features n_clusters iter_idx).partial_centroids
            0 (1 + d)) m) m := rfl
  rw [hstep]
  have halias_c : (kmeans_core_ptrs cfg 0 0 n_samples n_features n_clusters
      iter_idx).final_membership_cnt =
      (kmeans_core_ptrs cfg 0 0 n_samples n_features n_clusters
        iter_idx).partial_membership_cnt := by rw [efc, ec0]; omega
  have halias_v : (kmeans_core_ptrs cfg 0 0 n_samples n_features n_clusters
      iter_idx).final_centroids =
      (kmeans_core_ptrs cfg 0 0 n_samples n_features n_clusters iter_idx).partial_centroids := by
    rw [efv, ep0]; omega
  refine ⟨?_, rcf, ?_, rvf⟩
  · intro c hc
    rw [rc c hc]
    conv_rhs => rw [hn]
    rw [Finset.sum_range_succ', hn1]
    rw [Nat.add_comm (∑ d in Finset.range n, _) _]
    congr 1
    · rw [halias_c]
    · apply Finset.sum_congr rfl
      intro d hd
      rw [Finset.mem_range] at hd
      beta_reduce
      rw [hrc d (by omega)]
  · intro c f hc hf
    rw [rv c f hc hf]
    conv_rhs => rw [hn]
    rw [Finset.sum_range_succ', hn1]
    rw [add_comm (∑ d in Finset.range n, _) _]
    congr 1
    · rw [halias_v]
    · apply Finset.sum_congr rfl
      intro d hd
      rw [Finset.mem_range] at hd
      beta_reduce
      rw [hrv d (by omega)]

/-- One Lloyd iteration of `kmeans` in the order `kmeans_sched_peers_first`, in which the
peers of a cluster have finished their update step when core 0 reduces: from any memory `m`,
with `N` divisible by `C * P`, every centroid receiving at least one sample, exact arithmetic
and the allocations fitting the TCDM, after the normalize step, for every centroid `c < K`,
`final_membership_cnt[c]` is the number of samples, over all clusters, whose membership is
`c`, and `final_centroids[c]` is, feature by feature, the sum of those samples divided by that
number. The contribution of core 0 of cluster 0 is present because its partial buffers are
the final buffers. -/
theorem kmeans_iteration_peers_first (cfg : snrt_config)
    (n_samples n_features n_clusters iter_idx : Nat) (m : Mem)
    (hdiv : cfg.cluster_num * cfg.compute_core_num ∣ n_samples)
    (hfit : kmeans_fits cfg n_samples n_features n_clusters)
    (hne : ∀ c, c < n_clusters → ∃ k j, k < cfg.cluster_num ∧ j < n_samples / cfg.cluster_num ∧
      (kmeans_iteration cfg (kmeans_sched_peers_first cfg) n_samples n_features n_clusters iter_idx m).u32
        ((kmeans_core_ptrs cfg k 0 n_samples n_features n_clusters iter_idx).membership +
          sizeof_uint32 * j) = c) :
    ∀ c, c < n_clusters →
      (kmeans_iteration cfg (kmeans_sched_peers_first cfg) n_samples n_features n_clusters iter_idx m).u32
          ((kmeans_core_ptrs cfg 0 0 n_samples n_features n_clusters iter_idx).final_membership_cnt
            + sizeof_uint32 * c) =
        (∑ k in Finset.range cfg.cluster_num, ∑ j in Finset.range (n_samples / cfg.cluster_num),
          if (kmeans_iteration cfg (kmeans_sched_peers_first cfg) n_samples n_features n_clusters iter_idx m).u32
              ((kmeans_core_ptrs cfg k 0 n_samples n_features n_clusters iter_idx).membership +
                sizeof_uint32 * j) = c
          then 1 else 0) ∧
      ∀ f, f < n_features →
        (kmeans_iteration cfg (kmeans_sched_peers_first cfg) n_samples n_features n_clusters iter_idx m).f64
            ((kmeans_core_ptrs cfg 0 0 n_samples n_features n_clusters iter_idx).final_centroids +
              sizeof_double * (c * n_features + f)) =
          (∑ k in Finset.range cfg.cluster_num, ∑ j in Finset.range (n_samples / cfg.cluster_num),
            if (kmeans_iteration cfg (kmeans_sched_peers_first cfg) n_samples n_features n_clusters iter_idx m).u32
                ((kmeans_core_ptrs cfg k 0 n_samples n_features n_clusters iter_idx).membership +
                  sizeof_uint32 * j) = c
            then m.f64
              ((kmeans_core_ptrs cfg k 0 n_samples n_features n_clusters iter_idx).local_samples +
                sizeof_double * (j * n_features + f))
            else 0) /
          ((∑ k in Finset.range cfg.cluster_num,
            ∑ j in Finset.range (n_samples / cfg.cluster_num),
              if (kmeans_iteration cfg (kmeans_sched_peers_first cfg) n_samples n_features n_clusters iter_idx m).u32
                  ((kmeans_core_ptrs cfg k 0 n_samples n_features n_clusters
                    iter_idx).membership + sizeof_uint32 * j) = c
              then 1 else 0 : Nat) : ℚ) := by
  intro c hc
  have hK : 0 < n_clusters := by omega
  obtain ⟨k0, j0, hk0, hj0, -⟩ := hne 0 hK
  have hC : 0 < cfg.cluster_num := by omega
  have hP : 0 < cfg.compute_core_num := by
    rcases Nat.eq_zero_or_pos cfg.compute_core_num with h | h
    · rw [h, Nat.mul_zero, zero_dvd_iff] at hdiv
      rw [hdiv, Nat.zero_div] at hj0
      omega
    · exact h
  obtain ⟨q, hq0⟩ := hdiv
  have hspc : n_samples / cfg.cluster_num = cfg.compute_core_num * q := by
    rw [hq0, Nat.mul_assoc]; exact Nat.mul_div_cancel_left _ hC
  have hq : n_samples / cfg.cluster_num / cfg.compute_core_num = q := by
    rw [hspc]; exact Nat.mul_div_cancel_left _ hP
  have hqpos : 0 < q := by
    rcases Nat.eq_zero_or_pos q with h | h
    · rw [hspc, h] at hj0; omega
    · exact h
  simp only [sizeof_uint32, sizeof_double]
  rw [hspc]
  obtain ⟨hfoot, -⟩ := kmeans_fits_eval cfg n_samples n_features n_clusters hfit _ hspc
  -- the phases
  have hiter : kmeans_iteration cfg (kmeans_sched_peers_first cfg) n_samples n_features n_clusters iter_idx m =
      kmeans_normalize n_features n_clusters
        (kmeans_core_ptrs cfg 0 0 n_samples n_features n_clusters iter_idx)
        (kmeans_inter_cluster_reduction cfg n_features n_clusters
          (kmeans_core_ptrs cfg 0 0 n_samples n_features n_clusters iter_idx)
          (kmeans_update_phase cfg (kmeans_sched_peers_first cfg) n_samples n_features n_clusters iter_idx
            (kmeans_assignment_phase cfg n_samples n_features n_clusters iter_idx m))) := by
    unfold kmeans_iteration kmeans_final_segment
    simp only [hC, hP, and_self, if_true]
  obtain ⟨af, am, ac⟩ := kmeans_assignment_phase_spec cfg n_samples n_features n_clusters
    iter_idx m hK hfit q hq
  generalize kmeans_assignment_phase cfg n_samples n_features n_clusters iter_idx m = m1
    at hiter af am ac
  obtain ⟨uc, ucf, uv, -⟩ := kmeans_update_clusters_spec cfg n_samples n_features n_clusters
    iter_idx m1 hfit _ q hspc hq hP
    (by
      intro k i t hk hi ht
      rw [am k i t hk hi ht]
      exact nearest_lt _ _ hK)
    cfg.cluster_num le_rfl
  have hupd : kmeans_update_phase cfg (kmeans_sched_peers_first cfg) n_samples n_features n_clusters iter_idx m1 =
      forLoop cfg.cluster_num (fun cluster_idx m =>
        forLoop cfg.compute_core_num (fun d m =>
          kmeans_update_segment cfg cluster_idx (cfg.compute_core_num - 1 - d)
            n_samples n_features n_clusters iter_idx m) m) m1 := rfl
  rw [← hupd] at uc ucf uv
  generalize kmeans_update_phase cfg (kmeans_sched_peers_first cfg) n_samples n_features n_clusters iter_idx m1 = m2
    at hiter uc ucf uv
  obtain ⟨ic, icf, iv, -⟩ := kmeans_inter_cluster_reduction_spec cfg n_samples n_features
    n_clusters iter_idx m2 hfit hC hP hK
  generalize kmeans_inter_cluster_reduction cfg n_features n_clusters
    (kmeans_core_ptrs cfg 0 0 n_samples n_features n_clusters iter_idx) m2 = m3
    at hiter ic icf iv
  obtain ⟨nu, nv, -⟩ := kmeans_normalize_spec n_features
    (kmeans_core_ptrs cfg 0 0 n_samples n_features n_clusters iter_idx) m3 n_clusters
  rw [← hiter] at nu nv
  generalize kmeans_iteration cfg (kmeans_sched_peers_first cfg) n_samples n_features n_clusters iter_idx m = m4 at nu nv ⊢
  obtain ⟨-, -, efc, -, -, -⟩ :=
    kmeans_core_ptrs_eval cfg 0 0 n_samples n_features n_clusters iter_idx hC hfit _ hspc
  -- the membership array is what the assignment phase left
  have hmemb : ∀ k i t, k < cfg.cluster_num → i < cfg.compute_core_num → t < q →
      m4.u32 ((kmeans_core_ptrs cfg k 0 n_samples n_features n_clusters iter_idx).membership +
        4 * (i * q + t)) =
      m1.u32 ((kmeans_core_ptrs cfg k 0 n_samples n_features n_clusters iter_idx).membership +
        4 * (i * q + t)) := by
    intro k i t hk hi ht
    obtain ⟨-, emk, -, eck, -, -⟩ :=
      kmeans_core_ptrs_eval cfg k 0 n_samples n_features n_clusters iter_idx hk hfit _ hspc
    have h1 := step_mul_le q i _ hi
    have h2 := mul_step_le (n_clusters * 4) 0 _ hP
    have h3 : k = 0 ∨ 0 * cfg.cluster_offset + cfg.cluster_offset ≤ k * cfg.cluster_offset := by
      rcases Nat.eq_zero_or_pos k with h | h
      · exact Or.inl h
      · exact Or.inr (step_mul_le _ 0 k h)
    rw [nu, icf _ (by rw [efc, emk]; rcases h3 with h | h
                      · subst h; omega
                      · omega)]
    apply ucf
    intro k' hk'
    obtain ⟨-, -, -, eck', -, -⟩ :=
      kmeans_core_ptrs_eval cfg k' 0 n_samples n_features n_clusters iter_idx hk' hfit _ hspc
    rw [eck', emk]
    rcases Nat.lt_trichotomy k' k with h | h | h
    · have := step_mul_le cfg.cluster_offset k' k h; omega
    · subst h; omega
    · have := step_mul_le cfg.cluster_offset k k' h; omega
  have hcount : m4.u32
      ((kmeans_core_ptrs cfg 0 0 n_samples n_features n_clusters iter_idx).final_membership_cnt +
        4 * c) =
      ∑ k in Finset.range cfg.cluster_num, ∑ j in Finset.range (cfg.compute_core_num * q),
        if m4.u32 ((kmeans_core_ptrs cfg k 0 n_samples n_features n_clusters iter_idx).membership +
            4 * j) = c
        then 1 else 0 := by
    have e1 : m4.u32
        ((kmeans_core_ptrs cfg 0 0 n_samples n_features n_clusters iter_idx).final_membership_cnt +
          4 * c) =
        ∑ k in Finset.range cfg.cluster_num,
          m2.u32 ((kmeans_core_ptrs cfg k 0 n_samples n_features n_clusters
            iter_idx).partial_membership_cnt + 4 * c) := by
      rw [nu]; exact ic c hc
    rw [e1]
    apply Finset.sum_congr rfl
    intro k hk
    rw [Finset.mem_range] at hk
    rw [uc k c hk hc, ← sum_blocks cfg.compute_core_num q
      (fun j => if m4.u32 ((kmeans_core_ptrs cfg k 0 n_samples n_features n_clusters
        iter_idx).membership + 4 * j) = c then 1 else 0)]
    apply Finset.sum_congr rfl
    intro i hi
    rw [Finset.mem_range] at hi
    rw [ac k i c hk hi hc]
    apply Finset.sum_congr rfl
    intro t ht
    rw [Finset.mem_range] at ht
    beta_reduce
    rw [hmemb k i t hk hi ht, am k i t hk hi ht]
  refine ⟨hcount, ?_⟩
  intro f hf
  have e3 : m3.u32
      ((kmeans_core_ptrs cfg 0 0 n_samples n_features n_clusters iter_idx).final_membership_cnt +
        4 * c) =
      ∑ k in Finset.range cfg.cluster_num, ∑ j in Finset.range (cfg.compute_core_num * q),
        if m4.u32 ((kmeans_core_ptrs cfg k 0 n_samples n_features n_clusters iter_idx).membership +
            4 * j) = c
        then 1 else 0 := by
    rw [← nu]; exact hcount
  rw [nv c f hc hf, e3, iv c f hc hf]
  congr 1
  apply Finset.sum_congr rfl
  intro k hk
  rw [Finset.mem_range] at hk
  rw [uv k c f hk hc hf, ← sum_blocks cfg.compute_core_num q
    (fun j => if m4.u32 ((kmeans_core_ptrs cfg k 0 n_samples n_features n_clusters
      iter_idx).membership + 4 * j) = c
      then m.f64 ((kmeans_core_ptrs cfg k 0 n_samples n_features n_clusters
        iter_idx).local_samples + 8 * (j * n_features + f)) else 0)]
  apply Finset.sum_congr rfl
  intro i hi
  rw [Finset.mem_range] at hi
  apply Finset.sum_congr rfl
  intro t ht
  rw [Finset.mem_range] at ht
  beta_reduce
  rw [hmemb k i t hk hi ht, af]

/-- The order `kmeans_sched_peers_first` on `cfg_2x2` with the samples `0, 10 | 2, 12` and
the centroids `1`, `11`: centroid 1 receives the samples `10` and `12`; its final counter is
`2` and its final centroid `11`. -/
theorem kmeans_iteration_peers_first_example :
    cfg_2x2.cluster_num * cfg_2x2.compute_core_num ∣ 4 ∧ kmeans_fits cfg_2x2 4 1 2 ∧
    (kmeans_iteration cfg_2x2 (kmeans_sched_peers_first cfg_2x2) 4 1 2 0 mem_loaded).u32
        ((kmeans_core_ptrs cfg_2x2 0 0 4 1 2 0).final_membership_cnt + sizeof_uint32 * 1) = 2 ∧
    (kmeans_iteration cfg_2x2 (kmeans_sched_peers_first cfg_2x2) 4 1 2 0 mem_loaded).f64
        ((kmeans_core_ptrs cfg_2x2 0 0 4 1 2 0).final_centroids + sizeof_double * (1 * 1 + 0)) =
      11 ∧
    (kmeans_iteration cfg_2x2 (kmeans_sched_peers_first cfg_2x2) 4 1 2 0 mem_loaded).u32
        ((kmeans_core_ptrs cfg_2x2 0 0 4 1 2 0).final_membership_cnt + sizeof_uint32 * 1) =
      ∑ k in Finset.range cfg_2x2.cluster_num, ∑ j in Finset.range (4 / cfg_2x2.cluster_num),
        if (kmeans_iteration cfg_2x2 (kmeans_sched_peers_first cfg_2x2) 4 1 2 0 mem_loaded).u32
            ((kmeans_core_ptrs cfg_2x2 k 0 4 1 2 0).membership + sizeof_uint32 * j) = 1
        then 1 else 0 := by
  have hne : ∀ c, c < 2 → ∃ k j, k < cfg_2x2.cluster_num ∧ j < 4 / cfg_2x2.cluster_num ∧
      (kmeans_iteration cfg_2x2 (kmeans_sched_peers_first cfg_2x2) 4 1 2 0 mem_loaded).u32
        ((kmeans_core_ptrs cfg_2x2 k 0 4 1 2 0).membership + sizeof_uint32 * j) = c := by
    intro c hc
    interval_cases c
    · exact ⟨0, 0, by decide, by decide, by decide!⟩
    · exact ⟨0, 1, by decide, by decide, by decide!⟩
  exact ⟨by decide, by decide, by decide!, by decide!,
    (kmeans_iteration_peers_first cfg_2x2 4 1 2 0 mem_loaded (by decide) (by decide) hne 1
      (by decide)).1⟩

/-- C7, the code at a failing input: on `cfg_2x2` with the samples `0, 10 | 2, 12` and the
initial centroids `1`, `11` (a perfect clustering) and a zeroed TCDM, `kmeans` with
`n_iter = 0` writes `final_centroids`, which no iteration has filled, back to the caller:
the caller's centroids become `0`, `0`, whatever the order of the cores. With `n_iter = 1`
and the peers of each cluster running before core 0 they stay `1`, `11`. -/
theorem kmeans_zero_iterations_clobbers_centroids :
    (∀ sched, (kmeans cfg_2x2 sched 4 1 2 0 samples_4 centroids_perfect mem_zero).1 0 = 0) ∧
    (∀ sched, (kmeans cfg_2x2 sched 4 1 2 0 samples_4 centroids_perfect mem_zero).1 1 = 0) ∧
    centroids_perfect 0 = 1 ∧ centroids_perfect 1 = 11 ∧
    (kmeans cfg_2x2 (kmeans_sched_peers_first cfg_2x2) 4 1 2 1 samples_4 centroids_perfect
      mem_zero).1 0 = 1 ∧
    (kmeans cfg_2x2 (kmeans_sched_peers_first cfg_2x2) 4 1 2 1 samples_4 centroids_perfect
      mem_zero).1 1 = 11 := by
  have h0 : ∀ sched, kmeans cfg_2x2 sched 4 1 2 0 samples_4 centroids_perfect mem_zero =
      kmeans cfg_2x2 kmeans_sched_core0_first 4 1 2 0 samples_4 centroids_perfect mem_zero := by
    intro sched
    simp only [kmeans, forLoop_zero]
  refine ⟨?_, ?_, by decide!, by decide!, by decide!, by decide!⟩
  · intro sched
    rw [h0 sched]
    decide!
  · intro sched
    rw [h0 sched]
    decide!

/-- C3, the code at a failing input: on `cfg_2x2` with the samples `0, 10 | 2, 12`, the
centroids `1`, `11` and a TCDM that holds zeros elsewhere, in the execution in which core 0
of each cluster runs its update step and its intra-cluster reduction before core 1 has run
its update step (no barrier stands between the two). The memberships are `0, 1 | 0, 1` and
the final counter of centroid 1 is 2, but core 0 has added the not yet written
`partial_centroids` of core 1: the final centroid 1 is `0`, where the samples of membership 1
are `10` and `12` with mean `11`; the caller gets `1`, `0`. With the peers first the same
input gives `11`. -/
theorem kmeans_iteration_race_drops_peer_sums :
    (kmeans_iteration cfg_2x2 kmeans_sched_core0_first 4 1 2 0 mem_loaded).u32
        ((kmeans_core_ptrs cfg_2x2 0 0 4 1 2 0).membership + sizeof_uint32 * 1) = 1 ∧
    (kmeans_iteration cfg_2x2 kmeans_sched_core0_first 4 1 2 0 mem_loaded).u32
        ((kmeans_core_ptrs cfg_2x2 1 0 4 1 2 0).membership + sizeof_uint32 * 1) = 1 ∧
    mem_loaded.f64 ((kmeans_core_ptrs cfg_2x2 0 0 4 1 2 0).local_samples +
      sizeof_double * (1 * 1 + 0)) = 10 ∧
    mem_loaded.f64 ((kmeans_core_ptrs cfg_2x2 1 0 4 1 2 0).local_samples +
      sizeof_double * (1 * 1 + 0)) = 12 ∧
    (kmeans_iteration cfg_2x2 kmeans_sched_core0_first 4 1 2 0 mem_loaded).u32
        ((kmeans_core_ptrs cfg_2x2 0 0 4 1 2 0).final_membership_cnt + sizeof_uint32 * 1) = 2 ∧
    (kmeans_iteration cfg_2x2 kmeans_sched_core0_first 4 1 2 0 mem_loaded).f64
        ((kmeans_core_ptrs cfg_2x2 0 0 4 1 2 0).final_centroids + sizeof_double * (1 * 1 + 0)) =
      0 ∧
    (kmeans_iteration cfg_2x2 (kmeans_sched_peers_first cfg_2x2) 4 1 2 0 mem_loaded).f64
        ((kmeans_core_ptrs cfg_2x2 0 0 4 1 2 0).final_centroids + sizeof_double * (1 * 1 + 0)) =
      11 ∧
    (kmeans cfg_2x2 kmeans_sched_core0_first 4 1 2 1 samples_4 centroids_perfect
      mem_zero).1 0 = 1 ∧
    (kmeans cfg_2x2 kmeans_sched_core0_first 4 1 2 1 samples_4 centroids_perfect
      mem_zero).1 1 = 0 := by
  refine ⟨by decide!, by decide!, by decide!, by decide!, by decide!, by decide!, by decide!,
    by decide!, by decide!⟩

/-- C11, the code at a failing input (the tiled scenario, `beta = 0`): at stage 2 the compute
cores work on tile 1, which is not the first k-tile of its m-row (`i_k = 1`), and
`sc_st_gemm` is called with the job's `beta = 0`, which it hands to the inner kernel; the
partial sum of tile 0 in `local_c[0]` is not accumulated. -/
theorem gemm_compute_passes_job_beta :
    (gemm_iteration gemm_args_tiled 2).compute =
      some { i_compute := 1, buff_idx := 1, i_m := 0, i_k := 1, c_buff_idx := 0,
             a := .local_a 1, b := .local_b 1, beta := 0, c := .local_c 0 } ∧
    gemm_compute_call cfg_1x8 0 gemm_args_tiled 2 =
      some { m := 2, n := 16, k := 16, a := .local_a 1, a_offset := 0, lda := 128, transa := 0,
             b := .local_b 1, ldb := 16, transb := 0, c := .local_c 0, c_offset := 0,
             ldc := 128, beta := 0, setup_ssr := 1 } := by
  constructor
  · decide
  · decide

/-- C13: for every tile `t < n_tiles` (with `n_tiles + 2` representable as an `int`), the
block `DMA in` of stage `t`, the block `Compute` of stage `t + 1` and the block `DMA out` of
stage `t + 2` all work on tile `t` with `buff_idx = t % 2` and `c_buff_idx = (t / k_tiles) % 2`,
and their transfers and kernel call use `local_a[t % 2]`, `local_b[t % 2]` and
`local_c[(t / k_tiles) % 2]`; a tile `t'` of the same m-row uses the same C slot and a tile of
the next m-row the other one. -/
theorem gemm_buffer_slots (args : gemm_args_t) (t : Nat)
    (h2 : args.m_tiles * args.k_tiles + 2 < 2 ^ 31) (ht : t < args.m_tiles * args.k_tiles) :
    (∃ d, (gemm_iteration args t).dma_in = some d ∧ d.i_dma_in = t ∧
      d.i_m = t / args.k_tiles ∧ d.i_k = t % args.k_tiles ∧
      d.buff_idx = t % 2 ∧ d.c_buff_idx = t / args.k_tiles % 2 ∧
      d.issued.map (fun x => x.buf) =
        [.local_a (t % 2), .local_b (t % 2), .local_c (t / args.k_tiles % 2)]) ∧
    (∃ c, (gemm_iteration args (t + 1)).compute = some c ∧ c.i_compute = t ∧
      c.i_m = t / args.k_tiles ∧ c.i_k = t % args.k_tiles ∧
      c.buff_idx = t % 2 ∧ c.c_buff_idx = t / args.k_tiles % 2 ∧
      c.a = .local_a (t % 2) ∧ c.b = .local_b (t % 2) ∧
      c.c = .local_c (t / args.k_tiles % 2)) ∧
    (∃ o, (gemm_iteration args (t + 2)).dma_out = some o ∧ o.i_dma_out = t ∧
      o.i_m = t / args.k_tiles ∧ o.i_k = t % args.k_tiles ∧
      o.buff_idx = t % 2 ∧ o.c_buff_idx = t / args.k_tiles % 2 ∧
      o.issued.map (fun x => x.buf) = [.local_c (t / args.k_tiles % 2)]) ∧
    (∀ t', t' / args.k_tiles = t / args.k_tiles →
      (gemm_compute_block args (t' + 1)).c = (gemm_compute_block args (t + 1)).c ∧
      (gemm_dma_in_block args t').c_buff_idx = (gemm_dma_in_block args t).c_buff_idx ∧
      (gemm_dma_out_block args (t' + 2)).c_buff_idx =
        (gemm_dma_out_block args (t + 2)).c_buff_idx) ∧
    (∀ t', t' / args.k_tiles = t / args.k_tiles + 1 →
      (gemm_compute_block args (t' + 1)).c ≠ (gemm_compute_block args (t + 1)).c ∧
      (gemm_dma_in_block args t').c_buff_idx ≠ (gemm_dma_in_block args t).c_buff_idx ∧
      (gemm_dma_out_block args (t' + 2)).c_buff_idx ≠
        (gemm_dma_out_block args (t + 2)).c_buff_idx) := by
  have hn := gemm_n_tiles_eval args h2
  refine ⟨?_, ?_, ?_, ?_, ?_⟩
  · refine ⟨gemm_dma_in_block args t, ?_, rfl, rfl, rfl, rfl, rfl, rfl⟩
    simp only [gemm_iteration, hn]
    rw [if_pos (by exact_mod_cast ht)]
  · refine ⟨gemm_compute_block args (t + 1), ?_, ?_⟩
    · simp only [gemm_iteration, hn]
      rw [if_pos]
      constructor
      · omega
      · push_cast; omega
    · simp [gemm_compute_block]
  · refine ⟨gemm_dma_out_block args (t + 2), ?_, ?_⟩
    · simp only [gemm_iteration]
      rw [if_pos (by omega)]
    · simp [gemm_dma_out_block]
  · intro t' h
    simp [gemm_compute_block, gemm_dma_in_block, gemm_dma_out_block, h]
  · intro t' h
    simp only [gemm_compute_block, gemm_dma_in_block, gemm_dma_out_block, Nat.add_sub_cancel, h,
      ne_eq, gemm_buf.local_c.injEq]
    omega

/-- C13 on the tiled scenario (`m_tiles = k_tiles = 2`), tile `t = 1`. -/
theorem gemm_buffer_slots_witness :
    gemm_args_tiled.m_tiles * gemm_args_tiled.k_tiles + 2 < 2 ^ 31 ∧
    1 < gemm_args_tiled.m_tiles * gemm_args_tiled.k_tiles ∧
    ∃ c, (gemm_iteration gemm_args_tiled (1 + 1)).compute = some c ∧ c.i_compute = 1 ∧
      c.i_m = 1 / gemm_args_tiled.k_tiles ∧ c.i_k = 1 % gemm_args_tiled.k_tiles ∧
      c.buff_idx = 1 % 2 ∧ c.c_buff_idx = 1 / gemm_args_tiled.k_tiles % 2 ∧
      c.a = .local_a (1 % 2) ∧ c.b = .local_b (1 % 2) ∧
      c.c = .local_c (1 / gemm_args_tiled.k_tiles % 2) :=
  ⟨by decide, by decide,
    (gemm_buffer_slots gemm_args_tiled 1 (by decide) (by decide)).2.1⟩

theorem strided_rows_iff (P m i r : Nat) (hi : i < P) :
    (r < m ∧ r % P = i) ↔ ∃ j, j < sc_st_gemm_frac_m P m i ∧ r = i + j * P := by
  have hm := Nat.div_add_mod m P
  have hrem := Nat.mod_lt m (by omega : P > 0)
  simp only [sc_st_gemm_frac_m]
  constructor
  · rintro ⟨hr, hmod⟩
    have hrd := Nat.div_add_mod r P
    rw [hmod] at hrd
    refine ⟨r / P, ?_, ?_⟩
    · by_contra hcon
      split_ifs at hcon with hlt
      · have h1 : m / P + 1 ≤ r / P := by omega
        have h2 := Nat.mul_le_mul_left P h1
        rw [Nat.mul_add] at h2
        omega
      · have h1 : m / P ≤ r / P := by omega
        have h2 := Nat.mul_le_mul_left P h1
        omega
    · rw [Nat.mul_comm]; omega
  · rintro ⟨j, hj, rfl⟩
    constructor
    · split_ifs at hj with hlt
      · have h1 : j ≤ m / P := by omega
        have h2 := Nat.mul_le_mul_right P h1
        rw [Nat.mul_comm (m / P) P] at h2
        omega
      · have h1 : j + 1 ≤ m / P := by omega
        have h2 := Nat.mul_le_mul_right P h1
        rw [Nat.add_mul, Nat.mul_comm (m / P) P] at h2
        omega
    · rw [Nat.add_mul_mod_self_right]; exact Nat.mod_eq_of_lt hi

theorem strided_rows_card (P m i : Nat) (hi : i < P) :
    ((Finset.range m).filter (fun r => r % P = i)).card = sc_st_gemm_frac_m P m i := by
  have himg : (Finset.range m).filter (fun r => r % P = i) =
      (Finset.range (sc_st_gemm_frac_m P m i)).image (fun j => i + j * P) := by
    ext r
    simp only [Finset.mem_filter, Finset.mem_range, Finset.mem_image]
    rw [strided_rows_iff P m i r hi]
    constructor
    · rintro ⟨j, hj, rfl⟩; exact ⟨j, hj, rfl⟩
    · rintro ⟨j, hj, rfl⟩; exact ⟨j, hj, rfl⟩
  rw [himg, Finset.card_image_of_injective, Finset.card_range]
  intro x y hxy
  have hxy2 : i + x * P = i + y * P := hxy
  exact Nat.eq_of_mul_eq_mul_right (by omega : 0 < P) (by omega : x * P = y * P)

/-- C14: in `sc_st_gemm` on a cluster of `P ≥ 1` compute cores and a tile of height
`m = M / m_tiles`, compute core `i < P` gets `frac_m = m / P + (1 if i < m mod P else 0)` rows,
which is the number of rows `r < m` with `r mod P = i`; its rows `i + j·P` (`j < frac_m`) are
exactly those rows, so the row sets of different cores are disjoint and cover `[0, m)`; the
inner kernel is not called when `frac_m = 0`, and otherwise it is called once with `frac_m`
rows, `offsetA = i·lda·prec`, `lda_strided = P·lda`, `offsetC = i·ldc·prec` and
`ldc_strided = P·ldc` (the products taken without 32-bit overflow). -/
theorem sc_st_gemm_row_partition (cfg : snrt_config) (args : gemm_args_t) (a b c : gemm_buf)
    (beta : Nat) (hP : 1 ≤ cfg.compute_core_num)
    (hlda : cfg.compute_core_num * (args.K / args.k_tiles) < 2 ^ 32)
    (hoffA : cfg.compute_core_num * (args.K / args.k_tiles) * args.prec < 2 ^ 32)
    (hldc : cfg.compute_core_num * args.N < 2 ^ 32)
    (hoffC : cfg.compute_core_num * args.N * args.prec < 2 ^ 32) :
    (∀ i, i < cfg.compute_core_num →
      sc_st_gemm_frac_m cfg.compute_core_num (args.M / args.m_tiles) i =
        args.M / args.m_tiles / cfg.compute_core_num +
          (if i < args.M / args.m_tiles % cfg.compute_core_num then 1 else 0) ∧
      sc_st_gemm_frac_m cfg.compute_core_num (args.M / args.m_tiles) i =
        ((Finset.range (args.M / args.m_tiles)).filter
          (fun r => r % cfg.compute_core_num = i)).card ∧
      (∀ r, (r < args.M / args.m_tiles ∧ r % cfg.compute_core_num = i) ↔
        ∃ j, j < sc_st_gemm_frac_m cfg.compute_core_num (args.M / args.m_tiles) i ∧
          r = i + j * cfg.compute_core_num) ∧
      (sc_st_gemm_frac_m cfg.compute_core_num (args.M / args.m_tiles) i = 0 →
        sc_st_gemm cfg i args a b beta c = none) ∧
      (0 < sc_st_gemm_frac_m cfg.compute_core_num (args.M / args.m_tiles) i →
        sc_st_gemm cfg i args a b beta c =
          some { m := sc_st_gemm_frac_m cfg.compute_core_num (args.M / args.m_tiles) i,
                 n := args.N, k := args.K / args.k_tiles, a := a,
                 a_offset := i * (args.K / args.k_tiles) * args.prec,
                 lda := cfg.compute_core_num * (args.K / args.k_tiles),
                 transa := args.transa, b := b,
                 ldb := if args.transb ≠ 0 then args.K / args.k_tiles else args.N,
                 transb := args.transb, c := c,
                 c_offset := i * args.N * args.prec,
                 ldc := cfg.compute_core_num * args.N,
                 beta := beta, setup_ssr := args.setup_ssr })) ∧
    (∀ r, r < args.M / args.m_tiles → ∃ i, i < cfg.compute_core_num ∧
      ∃ j, j < sc_st_gemm_frac_m cfg.compute_core_num (args.M / args.m_tiles) i ∧
        r = i + j * cfg.compute_core_num) ∧
    (∀ i1 i2 j1 j2, i1 < cfg.compute_core_num → i2 < cfg.compute_core_num →
      j1 < sc_st_gemm_frac_m cfg.compute_core_num (args.M / args.m_tiles) i1 →
      j2 < sc_st_gemm_frac_m cfg.compute_core_num (args.M / args.m_tiles) i2 →
      i1 + j1 * cfg.compute_core_num = i2 + j2 * cfg.compute_core_num → i1 = i2 ∧ j1 = j2) := by
  refine ⟨?_, ?_, ?_⟩
  · intro i hi
    refine ⟨?_, (strided_rows_card _ _ i hi).symm, fun r => strided_rows_iff _ _ i r hi, ?_, ?_⟩
    · simp only [sc_st_gemm_frac_m]
      split_ifs <;> rfl
    · intro h0
      simp only [sc_st_gemm, if_pos hi, h0, Nat.lt_irrefl, if_false]
    · intro hpos
      have h1 : i * (args.K / args.k_tiles) ≤ cfg.compute_core_num * (args.K / args.k_tiles) :=
        Nat.mul_le_mul_right _ (by omega)
      have h2 := Nat.mul_le_mul_right args.prec h1
      have h3 : i * args.N ≤ cfg.compute_core_num * args.N := Nat.mul_le_mul_right _ (by omega)
      have h4 := Nat.mul_le_mul_right args.prec h3
      simp only [sc_st_gemm, if_pos hi, if_pos hpos]
      rw [u32_of_lt hlda, u32_of_lt hldc, u32_of_lt (by omega : i * (args.K / args.k_tiles) < 2 ^ 32),
        u32_of_lt (by omega : i * args.N < 2 ^ 32),
        u32_of_lt (by omega : i * (args.K / args.k_tiles) * args.prec < 2 ^ 32),
        u32_of_lt (by omega : i * args.N * args.prec < 2 ^ 32)]
  · intro r hr
    have hlt := Nat.mod_lt r (by omega : cfg.compute_core_num > 0)
    exact ⟨r % cfg.compute_core_num, hlt,
      (strided_rows_iff _ _ _ r hlt).1 ⟨hr, rfl⟩⟩
  · intro i1 i2 j1 j2 h1 h2 _ _ heq
    have e1 : (i1 + j1 * cfg.compute_core_num) % cfg.compute_core_num = i1 := by
      rw [Nat.add_mul_mod_self_right]; exact Nat.mod_eq_of_lt h1
    have e2 : (i2 + j2 * cfg.compute_core_num) % cfg.compute_core_num = i2 := by
      rw [Nat.add_mul_mod_self_right]; exact Nat.mod_eq_of_lt h2
    have hi : i1 = i2 := by rw [← e1, ← e2, heq]
    subst hi
    exact ⟨rfl, Nat.eq_of_mul_eq_mul_right (by omega : 0 < cfg.compute_core_num) (by omega)⟩

/-- C14 on a cluster of 8 compute cores and the tiled scenario (tile height 16): core 3 gets
2 rows, rows 3 and 11. -/
theorem sc_st_gemm_row_partition_witness :
    sc_st_gemm_frac_m cfg_1x8.compute_core_num (gemm_args_tiled.M / gemm_args_tiled.m_tiles) 3 =
      ((Finset.range (gemm_args_tiled.M / gemm_args_tiled.m_tiles)).filter
        (fun r => r % cfg_1x8.compute_core_num = 3)).card ∧
    sc_st_gemm cfg_1x8 3 gemm_args_tiled (.local_a 0) (.local_b 0) 0 (.local_c 0) =
      some { m := 2, n := 16, k := 16, a := .local_a 0, a_offset := 384, lda := 128, transa := 0,
             b := .local_b 0, ldb := 16, transb := 0, c := .local_c 0, c_offset := 384,
             ldc := 128, beta := 0, setup_ssr := 1 } :=
  have h := (sc_st_gemm_row_partition cfg_1x8 gemm_args_tiled (.local_a 0) (.local_b 0)
    (.local_c 0) 0 (by decide) (by decide) (by decide) (by decide) (by decide)).1 3 (by decide)
  ⟨h.2.1, (h.2.2.2.2 (by decide)).trans (by decide)⟩

theorem u32_lt (n : Nat) : u32 n < 2 ^ 32 := by
  unfold u32; omega

theorem u32_cast (n : Nat) : ((u32 n : Nat) : Int) = (n : Int) % 2 ^ 32 := by
  unfold u32; push_cast; rfl

theorem u32_sub_cast (a b : Nat) :
    ((u32 (u32 a + 2 ^ 32 - u32 b) : Nat) : Int) = ((a : Int) - (b : Int)) % 2 ^ 32 := by
  have hb := u32_lt b
  rw [u32_cast, Nat.cast_sub (by omega), Nat.cast_add, u32_cast, u32_cast]
  have h : ((a : Int) % 2 ^ 32 + ((2 ^ 32 : Nat) : Int) - (b : Int) % 2 ^ 32) ≡
      (a : Int) + 0 - (b : Int) [ZMOD 2 ^ 32] :=
    ((Int.mod_modEq _ _).add (by
      show ((2 ^ 32 : Nat) : Int) % 2 ^ 32 = 0 % 2 ^ 32
      norm_num)).sub (Int.mod_modEq _ _)
  rw [add_zero] at h
  exact h

theorem snrt_l1_alloc_common_cast (cfg : snrt_config) (k base size : Nat) :
    ((snrt_l1_alloc_common cfg k base size).1 : Int) =
      ((base : Int) - (k : Int) * (cfg.cluster_offset : Int)) % 2 ^ 32 := by
  unfold snrt_l1_alloc_common
  rw [u32_sub_cast]
  push_cast
  rfl

theorem snrt_remote_cluster_ptr_cast (cfg : snrt_config) (src s d : Nat) :
    ((snrt_remote_cluster_ptr cfg src s d : Nat) : Int) =
      ((src : Int) + ((d : Int) - (s : Int)) * (cfg.cluster_offset : Int)) % 2 ^ 32 := by
  unfold snrt_remote_cluster_ptr
  rw [u32_cast, Nat.cast_add, u32_cast, u32_cast, Nat.cast_mul, u32_sub_cast]
  have h2 : (((d : Int) - (s : Int)) % 2 ^ 32 * (cfg.cluster_offset : Int)) % 2 ^ 32 ≡
      ((d : Int) - (s : Int)) * (cfg.cluster_offset : Int) [ZMOD 2 ^ 32] :=
    (Int.mod_modEq _ _).trans ((Int.mod_modEq _ _).mul_right _)
  exact (Int.mod_modEq _ _).add h2

/-- C15: `snrt_l1_alloc_compute_core_private(base, size)` on the core with within-cluster
index `i` of a cluster with `P` compute cores returns `base + i·size` and sets
`*new_base = base + P·size`; taken modulo `2 ^ 32`, these are the values of the 32-bit
computation `base + size * i` and `base + size * P` of the machine. -/
theorem snrt_l1_alloc_compute_core_private_spec (cfg : snrt_config) (i base size : Nat) :
    snrt_l1_alloc_compute_core_private cfg i base size =
      (base + i * size, base + cfg.compute_core_num * size) ∧
    u32 (snrt_l1_alloc_compute_core_private cfg i base size).1 =
      u32 (u32 base + u32 (u32 size * u32 i)) ∧
    u32 (snrt_l1_alloc_compute_core_private cfg i base size).2 =
      u32 (u32 base + u32 (u32 size * u32 cfg.compute_core_num)) := by
  refine ⟨?_, ?_, ?_⟩
  · simp only [snrt_l1_alloc_compute_core_private, Nat.mul_comm]
  · simp only [snrt_l1_alloc_compute_core_private, u32]
    rw [Nat.add_mod, Nat.mul_mod]
  · simp only [snrt_l1_alloc_compute_core_private, u32]
    rw [Nat.add_mod, Nat.mul_mod]

/-- C16: `snrt_l1_alloc_common(base, size)` on cluster `k` returns `base − k·S` (as a 32-bit
address) and sets `*new_base = base + size`; for two clusters `k`, `k'` whose bases sit at the
same TCDM offset, `base_0 + k·S` and `base_0 + k'·S`, the returned pointers are equal and both
are cluster 0's `base_0`. -/
theorem snrt_l1_alloc_common_spec (cfg : snrt_config) (k k' base_0 size : Nat)
    (h0 : base_0 < 2 ^ 32) :
    (∀ base, ((snrt_l1_alloc_common cfg k base size).1 : Int) =
        ((base : Int) - (k : Int) * (cfg.cluster_offset : Int)) % 2 ^ 32 ∧
      (snrt_l1_alloc_common cfg k base size).2 = base + size) ∧
    (snrt_l1_alloc_common cfg k (base_0 + k * cfg.cluster_offset) size).1 = base_0 ∧
    (snrt_l1_alloc_common cfg k (base_0 + k * cfg.cluster_offset) size).1 =
      (snrt_l1_alloc_common cfg k' (base_0 + k' * cfg.cluster_offset) size).1 ∧
    (snrt_l1_alloc_common cfg 0 base_0 size).1 = base_0 := by
  have key : ∀ j, (snrt_l1_alloc_common cfg j (base_0 + j * cfg.cluster_offset) size).1 =
      base_0 := by
    intro j
    have h := snrt_l1_alloc_common_cast cfg j (base_0 + j * cfg.cluster_offset) size
    have e : (((base_0 + j * cfg.cluster_offset : Nat) : Int) -
        (j : Int) * (cfg.cluster_offset : Int)) = (base_0 : Int) := by
      push_cast; ring
    rw [e, Int.emod_eq_of_lt (by omega) (by omega)] at h
    exact_mod_cast h
  refine ⟨fun base => ⟨snrt_l1_alloc_common_cast cfg k base size, rfl⟩, key k, ?_, ?_⟩
  · rw [key k, key k']
  · have h := key 0
    simpa using h

/-- C16 on two clusters (`S = 4096`), cluster 1 against cluster 0, with `base_0 = 4096`. -/
theorem snrt_l1_alloc_common_spec_witness :
    (snrt_l1_alloc_common cfg_2x2 1 (4096 + 1 * cfg_2x2.cluster_offset) 16).1 = 4096 ∧
    (snrt_l1_alloc_common cfg_2x2 1 (4096 + 1 * cfg_2x2.cluster_offset) 16).1 =
      (snrt_l1_alloc_common cfg_2x2 0 (4096 + 0 * cfg_2x2.cluster_offset) 16).1 :=
  have h := snrt_l1_alloc_common_spec cfg_2x2 1 0 4096 16 (by decide)
  ⟨h.2.1, h.2.2.1⟩

/-- C17: for each of the three allocators the value written to `*new_base` is a function of
`base`, `size` and the number `P` of compute cores only: it is the same on every core of every
cluster, whatever the other constants of the platform; and `snrt_l1_alloc_cluster_private`
returns `base` and sets `*new_base = base + size`, on every core. -/
theorem snrt_l1_alloc_new_base_uniform :
    (∀ base size : Nat, snrt_l1_alloc_cluster_private base size = (base, base + size)) ∧
    (∃ f : Nat → Nat → Nat → Nat, ∀ (cfg : snrt_config) (i base size : Nat),
      (snrt_l1_alloc_compute_core_private cfg i base size).2 =
        f base size cfg.compute_core_num) ∧
    (∃ f : Nat → Nat → Nat → Nat, ∀ (cfg : snrt_config) (k base size : Nat),
      (snrt_l1_alloc_common cfg k base size).2 = f base size cfg.compute_core_num) ∧
    (∀ (cfg : snrt_config) (k k' i i' base size : Nat),
      (snrt_l1_alloc_compute_core_private cfg i base size).2 =
        (snrt_l1_alloc_compute_core_private cfg i' base size).2 ∧
      (snrt_l1_alloc_common cfg k base size).2 = (snrt_l1_alloc_common cfg k' base size).2) :=
  ⟨fun _ _ => rfl,
    ⟨fun base size P => base + size * P, fun _ _ _ _ => rfl⟩,
    ⟨fun base size _ => base + size, fun _ _ _ _ => rfl⟩,
    fun _ _ _ _ _ _ _ => ⟨rfl, rfl⟩⟩

/-- C18: `snrt_remote_cluster_ptr(src, src_cluster_idx, dst_cluster_idx)` returns
`src + (dst_cluster_idx − src_cluster_idx)·S` modulo `2 ^ 32`, the difference being the one of
the integers: also when `dst_cluster_idx < src_cluster_idx` and the unsigned difference
wraps, as from cluster 1 to cluster 0 with `S = 4096`, where `8192` becomes `4096`. -/
theorem snrt_remote_cluster_ptr_spec (cfg : snrt_config) (src s d : Nat) :
    ((snrt_remote_cluster_ptr cfg src s d : Nat) : Int) =
      ((src : Int) + ((d : Int) - (s : Int)) * (cfg.cluster_offset : Int)) % 2 ^ 32 ∧
    snrt_remote_cluster_ptr cfg src s d < 2 ^ 32 ∧
    snrt_remote_cluster_ptr cfg_2x2 8192 1 0 = 4096 :=
  ⟨snrt_remote_cluster_ptr_cast cfg src s d, u32_lt _, by decide⟩

/-- C19: when `snrt_l1_alloc_common` and `snrt_l1_alloc_compute_core_private` are called with
the same `prev_base` and `size`, as `kmeans` does for the membership counters and for the
centroids, then on cluster 0 the common pointer is compute core 0's private pointer, on every
cluster `k` the common pointer is `snrt_remote_cluster_ptr` of core 0's private pointer from
cluster `k` to cluster 0, and the base left by the second call is `prev_base + P·size`, at or
past the end of the common view and of every core's private slot; so it is for the two aliased
pairs of `kmeans`. -/
theorem snrt_l1_alloc_alias (cfg : snrt_config) (k prev_base size : Nat)
    (hP : 1 ≤ cfg.compute_core_num) (hprev : prev_base < 2 ^ 32) :
    (snrt_l1_alloc_common cfg 0 prev_base size).1 =
      (snrt_l1_alloc_compute_core_private cfg 0 prev_base size).1 ∧
    (snrt_l1_alloc_common cfg k prev_base size).1 =
      snrt_remote_cluster_ptr cfg (snrt_l1_alloc_compute_core_private cfg 0 prev_base size).1
        k 0 ∧
    (∀ i, (snrt_l1_alloc_compute_core_private cfg i prev_base size).2 =
      prev_base + cfg.compute_core_num * size) ∧
    (snrt_l1_alloc_common cfg 0 prev_base size).1 + size ≤
      prev_base + cfg.compute_core_num * size ∧
    (∀ i, i < cfg.compute_core_num →
      (snrt_l1_alloc_compute_core_private cfg i prev_base size).1 + size ≤
        prev_base + cfg.compute_core_num * size) ∧
    (∀ n_samples n_features n_clusters,
      (kmeans_alloc cfg k 0 n_samples n_features n_clusters).final_membership_cnt =
        snrt_remote_cluster_ptr cfg
          (kmeans_alloc cfg k 0 n_samples n_features n_clusters).partial_membership_cnt k 0 ∧
      (kmeans_alloc cfg k 0 n_samples n_features n_clusters).final_centroids =
        snrt_remote_cluster_ptr cfg
          (kmeans_alloc cfg k 0 n_samples n_features n_clusters).partial_centroids k 0) := by
  have hc0 : (snrt_l1_alloc_common cfg 0 prev_base size).1 = prev_base := by
    have h := snrt_l1_alloc_common_cast cfg 0 prev_base size
    rw [Nat.cast_zero, zero_mul, sub_zero, Int.emod_eq_of_lt (by omega) (by omega)] at h
    exact_mod_cast h
  have hp0 : ∀ b s, (snrt_l1_alloc_compute_core_private cfg 0 b s).1 = b := by
    intro b s
    simp [snrt_l1_alloc_compute_core_private]
  have hrem : ∀ b s, (snrt_l1_alloc_common cfg k b s).1 =
      snrt_remote_cluster_ptr cfg (snrt_l1_alloc_compute_core_private cfg 0 b s).1 k 0 := by
    intro b s
    have h1 := snrt_l1_alloc_common_cast cfg k b s
    have h2 := snrt_remote_cluster_ptr_cast cfg b k 0
    have e : (b : Int) + (((0 : Nat) : Int) - (k : Int)) * (cfg.cluster_offset : Int) =
        (b : Int) - (k : Int) * (cfg.cluster_offset : Int) := by
      push_cast; ring
    rw [e, ← h1] at h2
    rw [hp0]
    exact_mod_cast h2.symm
  refine ⟨by rw [hc0, hp0], hrem _ _, ?_, ?_, ?_, ?_⟩
  · intro i
    simp only [snrt_l1_alloc_compute_core_private, Nat.mul_comm]
  · rw [hc0]
    have := Nat.mul_le_mul_right size hP
    omega
  · intro i hi
    simp only [snrt_l1_alloc_compute_core_private]
    have := mul_step_le size i cfg.compute_core_num hi
    rw [Nat.mul_comm cfg.compute_core_num size]
    omega
  · intro n_samples n_features n_clusters
    simp only [kmeans_alloc]
    exact ⟨hrem _ _, hrem _ _⟩

/-- C19 on one cluster of two compute cores, `prev_base = 4096` and `size = 16`. -/
theorem snrt_l1_alloc_alias_witness :
    (snrt_l1_alloc_common cfg_1x2 0 4096 16).1 =
      (snrt_l1_alloc_compute_core_private cfg_1x2 0 4096 16).1 ∧
    (snrt_l1_alloc_common cfg_1x2 0 4096 16).1 =
      snrt_remote_cluster_ptr cfg_1x2 (snrt_l1_alloc_compute_core_private cfg_1x2 0 4096 16).1
        0 0 :=
  have h := snrt_l1_alloc_alias cfg_1x2 0 4096 16 (by decide) (by decide)
  ⟨h.1, h.2.1⟩

theorem dma_2d_lines {β : Type} (m : Nat → β) (dst src L ss t1 : Nat)
    (hdisj : ∀ r x, r < t1 → x < L →
      src + r * ss + x < dst ∨ dst + t1 * L ≤ src + r * ss + x) (n : Nat) (hn : n ≤ t1) :
    (∀ a, a < dst ∨ dst + n * L ≤ a →
      forLoop n (fun r m => dma_copy_line m (dst + r * L) (src + r * ss) L) m a = m a) ∧
    (∀ r x, r < n → x < L →
      forLoop n (fun r m => dma_copy_line m (dst + r * L) (src + r * ss) L) m (dst + r * L + x) =
        m (src + r * ss + x)) := by
  induction n with
  | zero =>
    exact ⟨fun a _ => rfl, fun r x hr _ => absurd hr (Nat.not_lt_zero r)⟩
  | succ n ih =>
    obtain ⟨iha, ihb⟩ := ih (by omega)
    have hnL : n * L + L ≤ t1 * L := step_mul_le L n t1 (by omega)
    have hsucc : (n + 1) * L = n * L + L := Nat.succ_mul n L
    constructor
    · intro a ha
      rw [forLoop_succ]
      simp only [dma_copy_line]
      rw [if_neg (by omega)]
      exact iha a (by omega)
    · intro r x hr hx
      rw [forLoop_succ]
      simp only [dma_copy_line]
      by_cases hrn : r = n
      · subst hrn
        rw [if_pos (by omega)]
        have e : src + r * ss + (dst + r * L + x - (dst + r * L)) = src + r * ss + x := by omega
        rw [e]
        have hd := hdisj r x (by omega) hx
        exact iha _ (by omega)
      · have hlt : r < n := by omega
        have := step_mul_le L r n hlt
        rw [if_neg (by omega)]
        exact ihb r x hlt hx

/-- C20: `snrt_dma_load_2d_tile(dst, src, i1, i0, t1, t0, full_x0, prec)` issues the 2D
transfer with source `src + (i1·t1·full_x0 + i0·t0)·prec`, destination `dst`, line size and
destination stride `t0·prec`, source stride `full_x0·prec` and repeat `t1` (the products
without 32-bit overflow); when the bytes of the tile in the source do not lie in the
destination buffer, then after the transfer every byte `b < prec` of element `(r, c)`,
`r < t1`, `c < t0`, of the densely packed destination is the same byte of element
`(i1·t1 + r, i0·t0 + c)` of the row-major source of row length `full_x0`. -/
theorem snrt_dma_load_2d_tile_spec {β : Type} (m : Nat → β)
    (dst src i1 i0 t1 t0 full_x0 prec : Nat)
    (hoff : (i1 * t1 * full_x0 + i0 * t0) * prec < 2 ^ 32) (hprec : 0 < prec)
    (hline : t0 * prec < 2 ^ 32) (hstride : full_x0 * prec < 2 ^ 32)
    (hdisj : ∀ r x, r < t1 → x < t0 * prec →
      src + (i1 * t1 * full_x0 + i0 * t0) * prec + r * (full_x0 * prec) + x < dst ∨
      dst + t1 * (t0 * prec) ≤
        src + (i1 * t1 * full_x0 + i0 * t0) * prec + r * (full_x0 * prec) + x) :
    snrt_dma_load_2d_tile dst src i1 i0 t1 t0 full_x0 prec =
      { dst := dst, src := src + (i1 * t1 * full_x0 + i0 * t0) * prec, size := t0 * prec,
        dst_stride := t0 * prec, src_stride := full_x0 * prec, reps := t1 } ∧
    ∀ r c b, r < t1 → c < t0 → b < prec →
      (snrt_dma_load_2d_tile dst src i1 i0 t1 t0 full_x0 prec).run m
          (dst + ((r * t0 + c) * prec + b)) =
        m (src + (((i1 * t1 + r) * full_x0 + (i0 * t0 + c)) * prec + b)) := by
  have hcall : snrt_dma_load_2d_tile dst src i1 i0 t1 t0 full_x0 prec =
      { dst := dst, src := src + (i1 * t1 * full_x0 + i0 * t0) * prec, size := t0 * prec,
        dst_stride := t0 * prec, src_stride := full_x0 * prec, reps := t1 } := by
    have hsum : i1 * t1 * full_x0 + i0 * t0 < 2 ^ 32 :=
      lt_of_le_of_lt (Nat.le_mul_of_pos_right _ hprec) hoff
    have h1 : i0 * t0 < 2 ^ 32 := by omega
    have h2 : i1 * t1 * full_x0 < 2 ^ 32 := by omega
    have h3 : u32 (u32 (i1 * t1) * full_x0) = i1 * t1 * full_x0 := by
      unfold u32
      rw [Nat.mod_mul_mod]
      exact Nat.mod_eq_of_lt h2
    simp only [snrt_dma_load_2d_tile, snrt_dma_start_2d, Nat.zero_add]
    rw [u32_of_lt h1, u32_of_lt h1, h3,
      Nat.add_comm (i0 * t0) (i1 * t1 * full_x0), u32_of_lt hsum, u32_of_lt hoff,
      u32_of_lt hline, u32_of_lt hstride]
  refine ⟨hcall, ?_⟩
  intro r c b hr hc hb
  rw [hcall]
  have h := (dma_2d_lines m dst (src + (i1 * t1 * full_x0 + i0 * t0) * prec) (t0 * prec)
    (full_x0 * prec) t1 hdisj t1 (le_refl _)).2 r (c * prec + b) hr (by
      have := step_mul_le prec c t0 hc
      omega)
  have e1 : dst + ((r * t0 + c) * prec + b) = dst + r * (t0 * prec) + (c * prec + b) := by ring
  have e2 : src + (((i1 * t1 + r) * full_x0 + (i0 * t0 + c)) * prec + b) =
      src + (i1 * t1 * full_x0 + i0 * t0) * prec + r * (full_x0 * prec) + (c * prec + b) := by
    ring
  rw [e1, e2]
  exact h

/-- C20 on the tile `(1, 1)` of shape `(2, 2)` of an array of row length 4 with 8-byte
elements at address 1024, loaded to address 0: byte 3 of element `(1, 1)` of the tile. -/
theorem snrt_dma_load_2d_tile_spec_witness :
    (snrt_dma_load_2d_tile 0 1024 1 1 2 2 4 8).run (fun a => a) (0 + ((1 * 2 + 1) * 8 + 3)) =
      (fun a => a) (1024 + (((1 * 2 + 1) * 4 + (1 * 2 + 1)) * 8 + 3)) :=
  (snrt_dma_load_2d_tile_spec (fun a => a) 0 1024 1 1 2 2 4 8 (by decide) (by decide)
    (by decide) (by decide) (fun r x _ _ => Or.inr (by omega))).2 1 1 3
    (by decide) (by decide) (by decide)

/-- C12, the code at a failing input (the tiled scenario: `M = 32`, `m_tiles = 2`, so
`frac_m = 16`, `N = 16`, `prec = 8`): the `DMA out` of the last tile of m-row `i_m = 1`
(stage 5) stores a tile of `frac_m / 8 = 2` rows at tile index 1, that is rows 2 and 3 of `C`
(256 bytes at byte offset 256), where the full buffer is the 16 rows from row 16 on (byte
offset 2048); the `DMA in` of that m-row (stage 2) loads `C` with the same 2 rows, while `A`
is loaded with 16 rows; and over the whole run no store reaches a row of `C` beyond row 3. -/
theorem gemm_c_tile_rows_truncated :
    (gemm_iteration gemm_args_tiled 5).dma_out =
      some { i_dma_out := 3, buff_idx := 1, i_m := 1, i_k := 1, c_buff_idx := 1, c_move := true,
             issued := [{ store := true, array := .c, buf := .local_c 1, tile_x1_idx := 1,
                          tile_x0_idx := 0, tile_x1_size := 2, tile_x0_size := 16,
                          full_x0_size := 16, prec := 8 }] } ∧
    (∀ c local_c : Nat,
      tile_transfer.issue { store := true, array := .c, buf := .local_c 1, tile_x1_idx := 1,
                            tile_x0_idx := 0, tile_x1_size := 2, tile_x0_size := 16,
                            full_x0_size := 16, prec := 8 } c local_c =
        { dst := c + 256, src := local_c, size := 128, dst_stride := 128, src_stride := 128,
          reps := 2 } ∧
      snrt_dma_store_2d_tile c local_c 1 0 (gemm_args_tiled.M / gemm_args_tiled.m_tiles) 16 16 8 =
        { dst := c + 2048, src := local_c, size := 128, dst_stride := 128, src_stride := 128,
          reps := 16 }) ∧
    (gemm_iteration gemm_args_tiled 2).dma_in =
      some { i_dma_in := 2, buff_idx := 0, i_m := 1, i_k := 0, c_buff_idx := 1, c_move := true,
             issued := [{ store := false, array := .a, buf := .local_a 0, tile_x1_idx := 1,
                          tile_x0_idx := 0, tile_x1_size := 16, tile_x0_size := 16,
                          full_x0_size := 32, prec := 8 },
                        { store := false, array := .b, buf := .local_b 0, tile_x1_idx := 0,
                          tile_x0_idx := 0, tile_x1_size := 16, tile_x0_size := 16,
                          full_x0_size := 32, prec := 8 },
                        { store := false, array := .c, buf := .local_c 1, tile_x1_idx := 1,
                          tile_x0_idx := 0, tile_x1_size := 2, tile_x0_size := 16,
                          full_x0_size := 16, prec := 8 }] } ∧
    (∀ s ∈ gemm gemm_args_tiled, ∀ o, s.dma_out = some o → ∀ t ∈ o.issued, ∀ c local_c : Nat,
      (t.issue c local_c).dst + (t.issue c local_c).reps * (t.issue c local_c).dst_stride ≤
        c + 4 * (16 * 8)) := by
  refine ⟨by decide, fun c local_c => ⟨?_, ?_⟩, by decide, ?_⟩
  · simp [tile_transfer.issue, snrt_dma_store_2d_tile, snrt_dma_start_2d, u32]
  · simp [snrt_dma_store_2d_tile, snrt_dma_start_2d, u32, gemm_args_tiled]
  · have hall : ∀ s ∈ gemm gemm_args_tiled, ∀ o, s.dma_out = some o → ∀ t ∈ o.issued,
        t.store = true ∧ t.tile_x1_idx ≤ 1 ∧ t.tile_x0_idx = 0 ∧ t.tile_x1_size = 2 ∧
        t.tile_x0_size = 16 ∧ t.full_x0_size = 16 ∧ t.prec = 8 := by
      decide
    intro s hs o ho t ht c local_c
    obtain ⟨h1, h2, h3, h4, h5, h6, h7⟩ := hall s hs o ho t ht
    simp only [tile_transfer.issue, h1, if_true, snrt_dma_store_2d_tile, snrt_dma_start_2d, h3,
      h4, h5, h6, h7, u32]
    interval_cases t.tile_x1_idx <;> simp

theorem dma_copy_line_frame {β : Type} (m : Nat → β) (dst src size a : Nat)
    (ha : ¬ (dst ≤ a ∧ a < dst + size)) : dma_copy_line m dst src size a = m a := by
  simp only [dma_copy_line, if_neg ha]

theorem dma_2d_run_frame {β : Type} (t : dma_2d_transfer) (m : Nat → β) (a : Nat)
    (ha : ∀ r, r < t.reps →
      ¬ (t.dst + r * t.dst_stride ≤ a ∧ a < t.dst + r * t.dst_stride + t.size)) :
    t.run m a = m a := by
  unfold dma_2d_transfer.run
  exact forLoop_frame (fun (s : Nat → β) => s) t.reps _
    (fun r a => t.dst + r * t.dst_stride ≤ a ∧ a < t.dst + r * t.dst_stride + t.size)
    (fun r _ s a hW => dma_copy_line_frame s _ _ _ a hW) m a ha

theorem dma_2d_run_line {β : Type} (t : dma_2d_transfer) (m : Nat → β)
    (hds : t.size ≤ t.dst_stride)
    (hdisj : ∀ r r' x x', r < t.reps → r' < t.reps → x < t.size → x' < t.size →
      t.src + r * t.src_stride + x ≠ t.dst + r' * t.dst_stride + x')
    (r x : Nat) (hr : r < t.reps) (hx : x < t.size) :
    t.run m (t.dst + r * t.dst_stride + x) = m (t.src + r * t.src_stride + x) := by
  unfold dma_2d_transfer.run
  rw [forLoop_last (fun (s : Nat → β) => s) t.reps _
    (fun r a => t.dst + r * t.dst_stride ≤ a ∧ a < t.dst + r * t.dst_stride + t.size)
    (fun r _ s a hW => dma_copy_line_frame s _ _ _ a hW) m _ r hr]
  · simp only [dma_copy_line]
    rw [if_pos (by omega)]
    have e : t.src + r * t.src_stride + (t.dst + r * t.dst_stride + x - (t.dst + r * t.dst_stride)) =
        t.src + r * t.src_stride + x := by omega
    rw [e]
    refine forLoop_frame (fun (s : Nat → β) => s) r _
      (fun r a => t.dst + r * t.dst_stride ≤ a ∧ a < t.dst + r * t.dst_stride + t.size)
      (fun r _ s a hW => dma_copy_line_frame s _ _ _ a hW) m _ ?_
    intro r' hr' hW
    exact hdisj r r' x (t.src + r * t.src_stride + x - (t.dst + r' * t.dst_stride)) hr
      (by omega) hx (by omega) (by omega)
  · intro r' hlt _ hW
    have := step_mul_le t.dst_stride r r' hlt
    omega

theorem tile_offset_eval (i1 i0 t1 t0 full_x0 prec : Nat) (hprec : 0 < prec)
    (hoff : (i1 * t1 * full_x0 + i0 * t0) * prec < 2 ^ 32) :
    u32 (u32 (0 + u32 (i0 * t0) + u32 (u32 (i1 * t1) * full_x0)) * prec) =
      (i1 * t1 * full_x0 + i0 * t0) * prec := by
  have hsum : i1 * t1 * full_x0 + i0 * t0 < 2 ^ 32 :=
    lt_of_le_of_lt (Nat.le_mul_of_pos_right _ hprec) hoff
  have h1 : i0 * t0 < 2 ^ 32 := by omega
  have h2 : i1 * t1 * full_x0 < 2 ^ 32 := by omega
  have h3 : u32 (u32 (i1 * t1) * full_x0) = i1 * t1 * full_x0 := by
    unfold u32
    rw [Nat.mod_mul_mod]
    exact Nat.mod_eq_of_lt h2
  rw [Nat.zero_add, u32_of_lt h1, h3, Nat.add_comm (i0 * t0) (i1 * t1 * full_x0),
    u32_of_lt hsum, u32_of_lt hoff]

theorem snrt_dma_load_2d_tile_eval (dst src i1 i0 t1 t0 full_x0 prec : Nat) (hprec : 0 < prec)
    (hoff : (i1 * t1 * full_x0 + i0 * t0) * prec < 2 ^ 32)
    (hline : t0 * prec < 2 ^ 32) (hstride : full_x0 * prec < 2 ^ 32) :
    snrt_dma_load_2d_tile dst src i1 i0 t1 t0 full_x0 prec =
      { dst := dst, src := src + (i1 * t1 * full_x0 + i0 * t0) * prec, size := t0 * prec,
        dst_stride := t0 * prec, src_stride := full_x0 * prec, reps := t1 } := by
  have h := tile_offset_eval i1 i0 t1 t0 full_x0 prec hprec hoff
  rw [Nat.zero_add] at h
  simp only [snrt_dma_load_2d_tile, snrt_dma_start_2d, Nat.zero_add, u32_of_lt (u32_lt _), h,
    u32_of_lt hline, u32_of_lt hstride]

theorem snrt_dma_store_2d_tile_eval (dst src i1 i0 t1 t0 full_x0 prec : Nat) (hprec : 0 < prec)
    (hoff : (i1 * t1 * full_x0 + i0 * t0) * prec < 2 ^ 32)
    (hline : t0 * prec < 2 ^ 32) (hstride : full_x0 * prec < 2 ^ 32) :
    snrt_dma_store_2d_tile dst src i1 i0 t1 t0 full_x0 prec =
      { dst := dst + (i1 * t1 * full_x0 + i0 * t0) * prec, src := src, size := t0 * prec,
        dst_stride := full_x0 * prec, src_stride := t0 * prec, reps := t1 } := by
  have h := tile_offset_eval i1 i0 t1 t0 full_x0 prec hprec hoff
  rw [Nat.zero_add] at h
  simp only [snrt_dma_store_2d_tile, snrt_dma_start_2d, Nat.zero_add, u32_of_lt (u32_lt _), h,
    u32_of_lt hline, u32_of_lt hstride]

theorem tile_line_elem (i1 i0 t1 t0 full_x0 prec R C b r : Nat)
    (hcol : (i0 + 1) * t0 ≤ full_x0) (hC : C < full_x0) (hb : b < prec)
    (hlo : (i1 * t1 * full_x0 + i0 * t0) * prec + r * (full_x0 * prec) ≤
      (R * full_x0 + C) * prec + b)
    (hhi : (R * full_x0 + C) * prec + b <
      (i1 * t1 * full_x0 + i0 * t0) * prec + r * (full_x0 * prec) + t0 * prec) :
    R = i1 * t1 + r ∧ i0 * t0 ≤ C ∧ C < (i0 + 1) * t0 := by
  have hE : (i1 * t1 * full_x0 + i0 * t0) * prec + r * (full_x0 * prec) =
      ((i1 * t1 + r) * full_x0 + i0 * t0) * prec := by ring
  have hE2 : ((i1 * t1 + r) * full_x0 + i0 * t0) * prec + t0 * prec =
      ((i1 * t1 + r) * full_x0 + i0 * t0 + t0) * prec := by ring
  rw [hE] at hlo hhi
  rw [hE2] at hhi
  have hcol2 : (i0 + 1) * t0 = i0 * t0 + t0 := by ring
  have h1 : (i1 * t1 + r) * full_x0 + i0 * t0 ≤ R * full_x0 + C := by
    by_contra hcon
    have h := Nat.mul_le_mul_right prec
      (by omega : R * full_x0 + C + 1 ≤ (i1 * t1 + r) * full_x0 + i0 * t0)
    rw [Nat.add_mul, Nat.one_mul] at h
    omega
  have h2 : R * full_x0 + C < (i1 * t1 + r) * full_x0 + i0 * t0 + t0 := by
    by_contra hcon
    have h := Nat.mul_le_mul_right prec
      (by omega : (i1 * t1 + r) * full_x0 + i0 * t0 + t0 ≤ R * full_x0 + C)
    omega
  have hR : R = i1 * t1 + r := by
    rcases Nat.lt_trichotomy R (i1 * t1 + r) with hlt | heq | hgt
    · have := step_mul_le full_x0 R (i1 * t1 + r) hlt
      omega
    · exact heq
    · have := step_mul_le full_x0 (i1 * t1 + r) R hgt
      omega
  subst hR
  refine ⟨rfl, by omega, by omega⟩

/-- C21: `snrt_dma_store_2d_tile` is the inverse of `snrt_dma_load_2d_tile`. For a tile
`(i1, i0)` of shape `(t1, t0)` with `(i0 + 1)·t0 ≤ full_x0` (so `t0 ≤ full_x0`), elements of
`prec > 0` bytes and offsets without 32-bit overflow: when the packed tile buffer at `buf`
does not overlap the tile in the array at `arr`, and the buffer `buf2` loaded into does not
overlap it either, then storing the buffer and loading the same tile gives every byte of the
buffer back, and the store changes no byte outside the lines of the tile, so no element of
the array outside rows `[i1·t1, (i1+1)·t1)` × columns `[i0·t0, (i0+1)·t0)`. -/
theorem snrt_dma_store_load_2d_tile {β : Type} (m : Nat → β)
    (arr buf buf2 i1 i0 t1 t0 full_x0 prec : Nat) (hprec : 0 < prec)
    (hcol : (i0 + 1) * t0 ≤ full_x0)
    (hoff : (i1 * t1 * full_x0 + i0 * t0) * prec < 2 ^ 32)
    (hstride : full_x0 * prec < 2 ^ 32)
    (hbuf : ∀ r r' x x', r < t1 → r' < t1 → x < t0 * prec → x' < t0 * prec →
      buf + r * (t0 * prec) + x ≠
        arr + (i1 * t1 * full_x0 + i0 * t0) * prec + r' * (full_x0 * prec) + x')
    (hbuf2 : ∀ r x, r < t1 → x < t0 * prec →
      arr + (i1 * t1 * full_x0 + i0 * t0) * prec + r * (full_x0 * prec) + x < buf2 ∨
      buf2 + t1 * (t0 * prec) ≤
        arr + (i1 * t1 * full_x0 + i0 * t0) * prec + r * (full_x0 * prec) + x) :
    (∀ r c b, r < t1 → c < t0 → b < prec →
      (snrt_dma_load_2d_tile buf2 arr i1 i0 t1 t0 full_x0 prec).run
          ((snrt_dma_store_2d_tile arr buf i1 i0 t1 t0 full_x0 prec).run m)
          (buf2 + ((r * t0 + c) * prec + b)) =
        m (buf + ((r * t0 + c) * prec + b))) ∧
    (∀ r c b, r < t1 → c < t0 → b < prec →
      (snrt_dma_store_2d_tile arr buf i1 i0 t1 t0 full_x0 prec).run m
          (arr + (((i1 * t1 + r) * full_x0 + (i0 * t0 + c)) * prec + b)) =
        m (buf + ((r * t0 + c) * prec + b))) ∧
    (∀ a, (∀ r, r < t1 →
        ¬ (arr + (i1 * t1 * full_x0 + i0 * t0) * prec + r * (full_x0 * prec) ≤ a ∧
          a < arr + (i1 * t1 * full_x0 + i0 * t0) * prec + r * (full_x0 * prec) + t0 * prec)) →
      (snrt_dma_store_2d_tile arr buf i1 i0 t1 t0 full_x0 prec).run m a = m a) ∧
    (∀ R C b, C < full_x0 → b < prec →
      ¬ (i1 * t1 ≤ R ∧ R < (i1 + 1) * t1 ∧ i0 * t0 ≤ C ∧ C < (i0 + 1) * t0) →
      (snrt_dma_store_2d_tile arr buf i1 i0 t1 t0 full_x0 prec).run m
          (arr + ((R * full_x0 + C) * prec + b)) =
        m (arr + ((R * full_x0 + C) * prec + b))) := by
  have ht0 : t0 ≤ full_x0 := by
    have : (i0 + 1) * t0 = i0 * t0 + t0 := by ring
    omega
  have hLF : t0 * prec ≤ full_x0 * prec := Nat.mul_le_mul_right prec ht0
  have hline : t0 * prec < 2 ^ 32 := by omega
  have hst := snrt_dma_store_2d_tile_eval arr buf i1 i0 t1 t0 full_x0 prec hprec hoff hline hstride
  have hld := snrt_dma_load_2d_tile_eval buf2 arr i1 i0 t1 t0 full_x0 prec hprec hoff hline hstride
  have hstore : ∀ r x, r < t1 → x < t0 * prec →
      (snrt_dma_store_2d_tile arr buf i1 i0 t1 t0 full_x0 prec).run m
          (arr + (i1 * t1 * full_x0 + i0 * t0) * prec + r * (full_x0 * prec) + x) =
        m (buf + r * (t0 * prec) + x) := by
    intro r x hr hx
    rw [hst]
    exact dma_2d_run_line _ m hLF hbuf r x hr hx
  have hframe : ∀ a, (∀ r, r < t1 →
        ¬ (arr + (i1 * t1 * full_x0 + i0 * t0) * prec + r * (full_x0 * prec) ≤ a ∧
          a < arr + (i1 * t1 * full_x0 + i0 * t0) * prec + r * (full_x0 * prec) + t0 * prec)) →
      (snrt_dma_store_2d_tile arr buf i1 i0 t1 t0 full_x0 prec).run m a = m a := by
    intro a ha
    rw [hst]
    exact dma_2d_run_frame _ m a ha
  have hx : ∀ c b, c < t0 → b < prec → c * prec + b < t0 * prec := by
    intro c b hc hb
    have := step_mul_le prec c t0 hc
    omega
  refine ⟨?_, ?_, hframe, ?_⟩
  · intro r c b hr hc hb
    have e1 : buf2 + ((r * t0 + c) * prec + b) = buf2 + r * (t0 * prec) + (c * prec + b) := by
      ring
    have e2 : buf + ((r * t0 + c) * prec + b) = buf + r * (t0 * prec) + (c * prec + b) := by ring
    rw [hld, e1, e2, ← hstore r (c * prec + b) hr (hx c b hc hb)]
    exact (dma_2d_lines _ buf2 (arr + (i1 * t1 * full_x0 + i0 * t0) * prec) (t0 * prec)
      (full_x0 * prec) t1 hbuf2 t1 (le_refl _)).2 r (c * prec + b) hr (hx c b hc hb)
  · intro r c b hr hc hb
    have e1 : arr + (((i1 * t1 + r) * full_x0 + (i0 * t0 + c)) * prec + b) =
        arr + (i1 * t1 * full_x0 + i0 * t0) * prec + r * (full_x0 * prec) + (c * prec + b) := by
      ring
    have e2 : buf + ((r * t0 + c) * prec + b) = buf + r * (t0 * prec) + (c * prec + b) := by ring
    rw [e1, e2]
    exact hstore r (c * prec + b) hr (hx c b hc hb)
  · intro R C b hC hb hout
    apply hframe
    intro r hr hin
    obtain ⟨h1, h2, h3⟩ := tile_line_elem i1 i0 t1 t0 full_x0 prec R C b r hcol hC hb
      (by omega) (by omega)
    apply hout
    have : (i1 + 1) * t1 = i1 * t1 + t1 := by ring
    exact ⟨by omega, by omega, h2, h3⟩

/-- C21 on the tile `(1, 1)` of shape `(2, 2)` of an array of row length 4 with 8-byte
elements at address 1024: the packed buffer at address 0 is stored and the tile is loaded to
address 64; byte 3 of element `(1, 1)`. -/
theorem snrt_dma_store_load_2d_tile_witness :
    (snrt_dma_load_2d_tile 64 1024 1 1 2 2 4 8).run
        ((snrt_dma_store_2d_tile 1024 0 1 1 2 2 4 8).run (fun a => a))
        (64 + ((1 * 2 + 1) * 8 + 3)) =
      (fun a => a) (0 + ((1 * 2 + 1) * 8 + 3)) :=
  (snrt_dma_store_load_2d_tile (fun a => a) 1024 0 64 1 1 2 2 4 8 (by decide) (by decide)
    (by decide) (by decide) (fun r r' x x' hr _ hx _ => by omega)
    (fun r x _ _ => Or.inr (by omega))).1 1 1 3 (by decide) (by decide) (by decide)

theorem scalar_fill_spec {β : Type} (m : Nat → β) (ptr : Nat) (value : β) (n a : Nat) :
    forLoop n (fun j m => Function.update m (ptr + j) value) m a =
      if ptr ≤ a ∧ a < ptr + n then value else m a := by
  induction n with
  | zero =>
    rw [forLoop_zero, if_neg (by omega)]
  | succ n ih =>
    rw [forLoop_succ]
    by_cases h : a = ptr + n
    · subst h
      rw [Function.update_same, if_pos (by omega)]
    · rw [Function.update_noteq h, ih]
      by_cases h2 : ptr ≤ a ∧ a < ptr + n
      · rw [if_pos h2, if_pos (by omega)]
      · rw [if_neg h2, if_neg (by omega)]

theorem self_copy_spec {β : Type} (m : Nat → β) (ptr : Nat) (value : β)
    (hhead : ∀ x, x < 64 → m (ptr + x) = value) (n a : Nat) :
    forLoop n (fun r m => dma_copy_line m (ptr + r * 64) (ptr + r * 0) 64) m a =
      if ptr ≤ a ∧ a < ptr + n * 64 then value else m a := by
  induction n generalizing a with
  | zero =>
    rw [forLoop_zero, if_neg (by omega)]
  | succ n ih =>
    rw [forLoop_succ]
    simp only [dma_copy_line]
    by_cases h : ptr + n * 64 ≤ a ∧ a < ptr + n * 64 + 64
    · rw [if_pos h, if_pos (by omega), ih]
      by_cases h2 : ptr ≤ ptr + n * 0 + (a - (ptr + n * 64)) ∧
          ptr + n * 0 + (a - (ptr + n * 64)) < ptr + n * 64
      · rw [if_pos h2]
      · rw [if_neg h2]
        have e : ptr + n * 0 + (a - (ptr + n * 64)) = ptr + (a - (ptr + n * 64)) := by omega
        rw [e]
        exact hhead _ (by omega)
    · rw [if_neg h, ih]
      by_cases h2 : ptr ≤ a ∧ a < ptr + n * 64
      · rw [if_pos h2, if_pos (by omega)]
      · rw [if_neg h2, if_neg (by omega)]

theorem snrt_dma_memset_eval {β : Type} (m : Nat → β) (ptr : Nat) (value : β) (len a : Nat) :
    snrt_dma_memset m ptr value len a =
      if ptr ≤ a ∧ (a < ptr + 64 ∨ a < ptr + u32 len / 64 * 64) then value else m a := by
  simp only [snrt_dma_memset, snrt_dma_start_2d, dma_2d_transfer.run]
  rw [self_copy_spec _ ptr value (fun x hx => by rw [scalar_fill_spec, if_pos (by omega)]),
    scalar_fill_spec]
  by_cases h1 : ptr ≤ a ∧ a < ptr + u32 len / 64 * 64
  · rw [if_pos h1, if_pos ⟨h1.1, Or.inr h1.2⟩]
  · rw [if_neg h1]
    by_cases h2 : ptr ≤ a ∧ a < ptr + 64
    · rw [if_pos h2, if_pos ⟨h2.1, Or.inl h2.2⟩]
    · rw [if_neg h2, if_neg (by omega)]

theorem snrt_dma_memset_frame {β : Type} (m : Nat → β) (ptr : Nat) (value : β) (len a : Nat)
    (hlen : len < 2 ^ 32) (ha : ¬ (ptr ≤ a ∧ a < ptr + max 64 len)) :
    snrt_dma_memset m ptr value len a = m a := by
  rw [snrt_dma_memset_eval, u32_of_lt hlen, if_neg]
  have := Nat.div_mul_le_self len 64
  omega

/-- C22: for every byte value and every `len` (a `uint32_t`) that is a multiple of 64, after
`snrt_dma_memset(ptr, value, len)`, that is 64 scalar stores and the 2D self-copy of 64-byte
lines with source stride 0, destination stride 64 and repeat `len / 64`, every byte of
`[ptr, ptr + len)` is `value`. -/
theorem snrt_dma_memset_fills {β : Type} (m : Nat → β) (ptr : Nat) (value : β) (len : Nat)
    (hlen : len < 2 ^ 32) (h64 : len % 64 = 0) :
    (snrt_dma_start_2d ptr ptr 64 64 0 (u32 len / 64) =
      { dst := ptr, src := ptr, size := 64, dst_stride := 64, src_stride := 0,
        reps := len / 64 }) ∧
    ∀ a, ptr ≤ a → a < ptr + len → snrt_dma_memset m ptr value len a = value := by
  refine ⟨by rw [u32_of_lt hlen]; rfl, ?_⟩
  intro a h1 h2
  rw [snrt_dma_memset_eval, u32_of_lt hlen, if_pos]
  have := Nat.div_add_mod len 64
  omega

/-- C22 on the scenario `len = 1024`, `value = 0xAB`, at `ptr = 4096` in a memory of zeros:
the last byte of the region. -/
theorem snrt_dma_memset_fills_witness :
    snrt_dma_memset (fun _ => 0) 4096 0xAB 1024 (4096 + 1023) = 0xAB :=
  (snrt_dma_memset_fills (fun _ => 0) 4096 0xAB 1024 (by decide) (by decide)).2 (4096 + 1023)
    (by decide) (by decide)

/-- C30, the code at a failing input (`len = 0`, a multiple of 64, at `ptr = 4096` in a
memory of zeros): the 64 scalar stores are made whatever `len` is, so the bytes at
`ptr, ..., ptr + 63`, which lie outside the empty range `[ptr, ptr + 0)`, become `value`;
the byte at `ptr + 64` is untouched. -/
theorem snrt_dma_memset_zero_len_writes :
    snrt_dma_memset (fun _ => 0) 4096 0xAB 0 4096 = 0xAB ∧
    snrt_dma_memset (fun _ => 0) 4096 0xAB 0 (4096 + 63) = 0xAB ∧
    snrt_dma_memset (fun _ => 0) 4096 0xAB 0 (4096 + 64) = 0 ∧
    (fun _ => 0 : Nat → Nat) 4096 = 0 := by
  refine ⟨?_, ?_, ?_, rfl⟩
  · rw [snrt_dma_memset_eval]; decide
  · rw [snrt_dma_memset_eval]; decide
  · rw [snrt_dma_memset_eval]; decide

theorem shl_or_eq_add (a b i : Nat) (hb : b < 2 ^ i) : (a <<< i) ||| b = 2 ^ i * a + b := by
  rw [Nat.shiftLeft_eq, Nat.mul_comm, Nat.mul_add_lt_is_or hb]

/-- C23: for all 16-bit `m_size`, `n_size`, `k_size` (and 8-bit `gemm_op`, `gemm_fmt`),
`redmule_cfg` writes a first dimension word with `k_size` in bits 31..16 and `m_size` in bits
15..0, so that `mcfg0 >> 16 = k_size` and `mcfg0 & 0xFFFF = m_size`, a second dimension word
equal to `n_size`, and the arithmetic word `(gemm_op << 10) | (gemm_fmt << 7)`. -/
theorem redmule_cfg_packing (x w z m_size n_size k_size gemm_op gemm_fmt : Nat)
    (hm : m_size < 2 ^ 16) (hn : n_size < 2 ^ 16) (hk : k_size < 2 ^ 16)
    (hop : gemm_op < 2 ^ 8) (hfmt : gemm_fmt < 2 ^ 8) :
    (redmule_cfg x w z m_size n_size k_size gemm_op gemm_fmt).mcfg0 =
      k_size * 2 ^ 16 + m_size ∧
    (redmule_cfg x w z m_size n_size k_size gemm_op gemm_fmt).mcfg0 >>> 16 = k_size ∧
    (redmule_cfg x w z m_size n_size k_size gemm_op gemm_fmt).mcfg0 &&& 0xFFFF = m_size ∧
    (redmule_cfg x w z m_size n_size k_size gemm_op gemm_fmt).mcfg1 = n_size ∧
    (redmule_cfg x w z m_size n_size k_size gemm_op gemm_fmt).arith =
      (gemm_op <<< 10) ||| (gemm_fmt <<< 7) := by
  have h0 : (redmule_cfg x w z m_size n_size k_size gemm_op gemm_fmt).mcfg0 =
      k_size * 2 ^ 16 + m_size := by
    simp only [redmule_cfg, Nat.shiftLeft_zero]
    rw [shl_or_eq_add k_size m_size 16 hm, u32_of_lt (by omega)]
    omega
  refine ⟨h0, ?_, ?_, ?_, ?_⟩
  · rw [h0, Nat.shiftRight_eq_div_pow]
    omega
  · rw [h0]
    have e : (0xFFFF : Nat) = 2 ^ 16 - 1 := by norm_num
    rw [e, Nat.and_pow_two_sub_one_eq_mod]
    omega
  · simp only [redmule_cfg, Nat.shiftLeft_zero]
    exact u32_of_lt (by omega)
  · simp only [redmule_cfg]
    apply u32_of_lt
    have h1 : gemm_op <<< 10 < 2 ^ 18 := by
      rw [Nat.shiftLeft_eq]; omega
    have h2 : gemm_fmt <<< 7 < 2 ^ 18 := by
      rw [Nat.shiftLeft_eq]; omega
    have := Nat.or_lt_two_pow h1 h2
    omega

/-- C23 on `m_size = 96`, `n_size = 64`, `k_size = 0xFFFF`, `gemm_op = 1`, `gemm_fmt = 1`. -/
theorem redmule_cfg_packing_witness :
    (redmule_cfg 0 0 0 96 64 0xFFFF 1 1).mcfg0 >>> 16 = 0xFFFF ∧
    (redmule_cfg 0 0 0 96 64 0xFFFF 1 1).mcfg0 &&& 0xFFFF = 96 ∧
    (redmule_cfg 0 0 0 96 64 0xFFFF 1 1).mcfg1 = 64 :=
  have h := redmule_cfg_packing 0 0 0 96 64 0xFFFF 1 1 (by decide) (by decide) (by decide)
    (by decide) (by decide)
  ⟨h.2.1, h.2.2.1, h.2.2.2.1⟩

theorem count_loop_spec (n : Nat) (P : Nat → Prop) [DecidablePred P] (body : Nat → Int → Int)
    (hbody : ∀ i errors, i < n → body i errors = errors + if P i then 1 else 0) :
    forLoop n body 0 = (((Finset.range n).filter P).card : Int) := by
  induction n with
  | zero => simp [forLoop_zero]
  | succ n ih =>
    rw [forLoop_succ, hbody n _ (by omega), ih (fun i e hi => hbody i e (by omega)),
      Finset.range_succ, Finset.filter_insert]
    by_cases h : P n
    · rw [if_pos h, if_pos h, Finset.card_insert_of_not_mem (by simp)]
      push_cast
      rfl
    · rw [if_neg h, if_neg h]
      simp

theorem lane_mask16_lo (w : Nat) : u16 (w &&& 0x0000FFFF) = half_word w 0 := by
  have e : (0x0000FFFF : Nat) = 2 ^ 16 - 1 := by norm_num
  simp only [u16, half_word, e, Nat.and_pow_two_sub_one_eq_mod, Nat.mod_mod, Nat.mul_zero,
    Nat.pow_zero, Nat.div_one]

theorem lane_mask16_hi (w : Nat) : u16 ((w >>> 16) &&& 0x0000FFFF) = half_word w 1 := by
  have e : (0x0000FFFF : Nat) = 2 ^ 16 - 1 := by norm_num
  simp only [u16, half_word, e, Nat.and_pow_two_sub_one_eq_mod, Nat.shiftRight_eq_div_pow,
    Nat.mod_mod, Nat.mul_one]

theorem lane_mask8 (w k : Nat) : u8 ((w >>> (8 * k)) &&& 0x000000FF) = byte_lane w k := by
  have e : (0x000000FF : Nat) = 2 ^ 8 - 1 := by norm_num
  simp only [u8, byte_lane, e, Nat.and_pow_two_sub_one_eq_mod, Nat.shiftRight_eq_div_pow,
    Nat.mod_mod]

theorem diff_out_of_tolerance (a g w : Nat) (ha : a < 2 ^ w) (hg : g < 2 ^ w)
    (hw : 2 ^ w > 0) (error : Int) :
    (if (if a > g then a - g else if a < g then g - a else 0) % 2 ^ w > ERR then (1 : Int)
      else error) = if out_of_tolerance a g then 1 else error := by
  have e : (if a > g then a - g else if a < g then g - a else 0) % 2 ^ w =
      (a - g) + (g - a) := by
    rw [Nat.mod_eq_of_lt (by split_ifs <;> omega)]
    split_ifs <;> omega
  rw [e]
  unfold out_of_tolerance
  by_cases h : ERR < a - g ∨ ERR < g - a
  · rw [if_pos h, if_pos (by omega)]
  · rw [if_neg h, if_neg (by omega)]

theorem half_word_u32 (w : Nat) :
    half_word (u32 w) 0 = half_word w 0 ∧ half_word (u32 w) 1 = half_word w 1 := by
  simp only [half_word, u32, Nat.mul_zero, Nat.mul_one, Nat.pow_zero, Nat.div_one]
  constructor <;> omega

theorem half_word_lt (w lane : Nat) : half_word w lane < 2 ^ 16 :=
  Nat.mod_lt _ (by norm_num)

theorem redmule16_body_spec (actual_z golden_z : Nat → Nat) (len : Int) :
    redmule16_compare_int actual_z golden_z len =
      (((Finset.range len.toNat).filter
        (fun i => word_differs16 (actual_z i) (golden_z i))).card : Int) := by
  unfold redmule16_compare_int
  apply count_loop_spec
  intro i errors _
  simp only [lane_mask16_hi]
  simp only [lane_mask16_lo, (half_word_u32 _).1, (half_word_u32 _).2]
  unfold u16
  rw [diff_out_of_tolerance _ _ 16 (half_word_lt _ _) (half_word_lt _ _) (by norm_num),
    diff_out_of_tolerance _ _ 16 (half_word_lt _ _) (half_word_lt _ _) (by norm_num)]
  unfold word_differs16
  by_cases h0 : out_of_tolerance (half_word (actual_z i) 0) (half_word (golden_z i) 0) <;>
    by_cases h1 : out_of_tolerance (half_word (actual_z i) 1) (half_word (golden_z i) 1) <;>
    simp [h0, h1]

theorem card_filter_bounds (n : Nat) (P : Nat → Prop) [DecidablePred P] :
    ((Finset.range n).filter P).card ≤ n ∧
    (((Finset.range n).filter P).card = 0 ↔ ∀ i, i < n → ¬ P i) := by
  constructor
  · exact (Finset.card_filter_le _ _).trans (by rw [Finset.card_range])
  · rw [Finset.card_eq_zero, Finset.filter_eq_empty_iff]
    simp only [Finset.mem_range]

theorem out_of_tolerance_self (a : Nat) : ¬ out_of_tolerance a a := by
  unfold out_of_tolerance ERR
  omega

/-- C24: `redmule16_compare_int(actual, golden, len)` returns the number of word indices
`i` in `[0, len)` for which the low half-words or the high half-words of `actual[i]` and
`golden[i]`, as unsigned integers, differ by more than `ERR = 0x0011`. So the result is at
least 0 and at most `len` (0 for a negative `len`), a word with both halves out of tolerance
counts once, and the result is 0 exactly when every half-word is within tolerance, as it is
for `actual = golden`. -/
theorem redmule16_compare_int_count (actual_z golden_z : Nat → Nat) (len : Int) :
    redmule16_compare_int actual_z golden_z len =
      (((Finset.range len.toNat).filter
        (fun i => word_differs16 (actual_z i) (golden_z i))).card : Int) ∧
    0 ≤ redmule16_compare_int actual_z golden_z len ∧
    redmule16_compare_int actual_z golden_z len ≤ max len 0 ∧
    (redmule16_compare_int actual_z golden_z len = 0 ↔
      ∀ i : Nat, (i : Int) < len →
        ¬ out_of_tolerance (half_word (actual_z i) 0) (half_word (golden_z i) 0) ∧
        ¬ out_of_tolerance (half_word (actual_z i) 1) (half_word (golden_z i) 1)) ∧
    redmule16_compare_int actual_z actual_z len = 0 ∧
    redmule16_compare_int (fun _ => 0x00200020) (fun _ => 0) 1 = 1 := by
  have hb := card_filter_bounds len.toNat (fun i => word_differs16 (actual_z i) (golden_z i))
  refine ⟨redmule16_body_spec _ _ _, ?_, ?_, ?_, ?_, ?_⟩
  · rw [redmule16_body_spec]
    exact Int.natCast_nonneg _
  · rw [redmule16_body_spec]
    have := hb.1
    omega
  · rw [redmule16_body_spec, Int.natCast_eq_zero, hb.2]
    unfold word_differs16
    constructor
    · intro h i hi
      exact not_or.1 (h i (by omega))
    · intro h i hi
      exact not_or.2 (h i (by omega))
  · rw [redmule16_body_spec, Int.natCast_eq_zero,
      (card_filter_bounds len.toNat (fun i => word_differs16 (actual_z i) (actual_z i))).2]
    intro i _
    unfold word_differs16
    exact not_or.2 ⟨out_of_tolerance_self _, out_of_tolerance_self _⟩
  · rw [redmule16_body_spec]
    decide

theorem lane_mask8_0 (w : Nat) : u8 (w &&& 0x000000FF) = byte_lane w 0 := by
  have h := lane_mask8 w 0
  rwa [Nat.mul_zero, Nat.shiftRight_zero] at h

theorem lane_mask8_1 (w : Nat) : u8 ((w >>> 8) &&& 0x000000FF) = byte_lane w 1 := lane_mask8 w 1

theorem lane_mask8_2 (w : Nat) : u8 ((w >>> 16) &&& 0x000000FF) = byte_lane w 2 := lane_mask8 w 2

theorem lane_mask8_3 (w : Nat) : u8 ((w >>> 24) &&& 0x000000FF) = byte_lane w 3 := lane_mask8 w 3

theorem byte_lane_u32 (w : Nat) :
    byte_lane (u32 w) 0 = byte_lane w 0 ∧ byte_lane (u32 w) 1 = byte_lane w 1 ∧
    byte_lane (u32 w) 2 = byte_lane w 2 ∧ byte_lane (u32 w) 3 = byte_lane w 3 := by
  refine ⟨?_, ?_, ?_, ?_⟩ <;> simp only [byte_lane, u32] <;> (try norm_num) <;> omega

theorem byte_lane_lt (w lane : Nat) : byte_lane w lane < 2 ^ 8 :=
  Nat.mod_lt _ (by norm_num)

theorem word_differs8_iff (a g : Nat) :
    word_differs8 a g ↔
      out_of_tolerance (byte_lane a 0) (byte_lane g 0) ∨
      out_of_tolerance (byte_lane a 1) (byte_lane g 1) ∨
      out_of_tolerance (byte_lane a 2) (byte_lane g 2) ∨
      out_of_tolerance (byte_lane a 3) (byte_lane g 3) := by
  unfold word_differs8
  constructor
  · rintro ⟨lane, hl, h⟩
    interval_cases lane
    · exact Or.inl h
    · exact Or.inr (Or.inl h)
    · exact Or.inr (Or.inr (Or.inl h))
    · exact Or.inr (Or.inr (Or.inr h))
  · rintro (h | h | h | h)
    · exact ⟨0, by decide, h⟩
    · exact ⟨1, by decide, h⟩
    · exact ⟨2, by decide, h⟩
    · exact ⟨3, by decide, h⟩

theorem redmule8_body_spec (actual_z golden_z : Nat → Nat) (len : Int) :
    redmule8_compare_int actual_z golden_z len =
      (((Finset.range len.toNat).filter
        (fun i => word_differs8 (actual_z i) (golden_z i))).card : Int) := by
  unfold redmule8_compare_int
  apply count_loop_spec
  intro i errors _
  simp only [lane_mask8_1, lane_mask8_2, lane_mask8_3]
  simp only [lane_mask8_0, (byte_lane_u32 _).1, (byte_lane_u32 _).2.1, (byte_lane_u32 _).2.2.1,
    (byte_lane_u32 _).2.2.2]
  unfold u8
  rw [diff_out_of_tolerance _ _ 8 (byte_lane_lt _ _) (byte_lane_lt _ _) (by norm_num),
    diff_out_of_tolerance _ _ 8 (byte_lane_lt _ _) (byte_lane_lt _ _) (by norm_num),
    diff_out_of_tolerance _ _ 8 (byte_lane_lt _ _) (byte_lane_lt _ _) (by norm_num),
    diff_out_of_tolerance _ _ 8 (byte_lane_lt _ _) (byte_lane_lt _ _) (by norm_num)]
  have hiff := word_differs8_iff (actual_z i) (golden_z i)
  by_cases h0 : out_of_tolerance (byte_lane (actual_z i) 0) (byte_lane (golden_z i) 0) <;>
    by_cases h1 : out_of_tolerance (byte_lane (actual_z i) 1) (byte_lane (golden_z i) 1) <;>
    by_cases h2 : out_of_tolerance (byte_lane (actual_z i) 2) (byte_lane (golden_z i) 2) <;>
    by_cases h3 : out_of_tolerance (byte_lane (actual_z i) 3) (byte_lane (golden_z i) 3) <;>
    simp [h0, h1, h2, h3, hiff]

/-- C25: `redmule8_compare_int(actual, golden, len)` returns the number of word indices `i`
in `[0, len)` for which at least one of the four byte lanes of `actual[i]` and `golden[i]`,
as unsigned 8-bit integers, differs by more than `ERR = 0x0011 = 17`. So the result is at
least 0 and at most `len` (0 for a negative `len`), and it is 0 exactly when every byte lane
is within tolerance. -/
theorem redmule8_compare_int_count (actual_z golden_z : Nat → Nat) (len : Int) :
    redmule8_compare_int actual_z golden_z len =
      (((Finset.range len.toNat).filter
        (fun i => word_differs8 (actual_z i) (golden_z i))).card : Int) ∧
    ERR = 17 ∧
    0 ≤ redmule8_compare_int actual_z golden_z len ∧
    redmule8_compare_int actual_z golden_z len ≤ max len 0 ∧
    (redmule8_compare_int actual_z golden_z len = 0 ↔
      ∀ i : Nat, (i : Int) < len → ∀ lane, lane < 4 →
        ¬ out_of_tolerance (byte_lane (actual_z i) lane) (byte_lane (golden_z i) lane)) ∧
    redmule8_compare_int (fun _ => 0x12000000) (fun _ => 0) 2 = 2 ∧
    redmule8_compare_int (fun _ => 0x11111111) (fun _ => 0) 2 = 0 := by
  have hb := card_filter_bounds len.toNat (fun i => word_differs8 (actual_z i) (golden_z i))
  refine ⟨redmule8_body_spec _ _ _, rfl, ?_, ?_, ?_, ?_, ?_⟩
  · rw [redmule8_body_spec]
    exact Int.natCast_nonneg _
  · rw [redmule8_body_spec]
    have := hb.1
    omega
  · rw [redmule8_body_spec, Int.natCast_eq_zero, hb.2]
    unfold word_differs8
    constructor
    · intro h i hi lane hl hout
      exact h i (by omega) ⟨lane, hl, hout⟩
    · rintro h i hi ⟨lane, hl, hout⟩
      exact h i (by omega) lane hl hout
  · rw [redmule8_body_spec]
    decide
  · rw [redmule8_body_spec]
    decide

theorem last_k_tile_next_row (t k : Nat) (hk : 0 < k) (hlast : t % k = k - 1) :
    (t + 1) / k = t / k + 1 := by
  have h := Nat.div_add_mod t k
  have e : t + 1 = k * (t / k + 1) := by
    rw [Nat.mul_add, Nat.mul_one]
    omega
  rw [e, Nat.mul_div_cancel_left _ hk]

/-- C28: in every stage `i` of the pipeline of `gemm` with both a `DMA in` (of tile `i`) and
a `Compute` (of tile `i − 1`), the A/B slot that the DMA core writes, `i mod 2`, is not the
slot `(i − 1) mod 2` that the compute cores read; and whenever the tile `i − 2` of the
`DMA out` of a stage is the last k-tile of its m-row, its C slot is not the C slot that the
compute cores write in that stage. `n_tiles + 2` is representable as an `int`. -/
theorem gemm_stage_slots_disjoint (args : gemm_args_t) (i : Nat)
    (h2 : args.m_tiles * args.k_tiles + 2 < 2 ^ 31) :
    (∀ d c, (gemm_iteration args i).dma_in = some d → (gemm_iteration args i).compute = some c →
      d.i_dma_in = i ∧ c.i_compute = i - 1 ∧ d.buff_idx = i % 2 ∧ c.buff_idx = (i - 1) % 2 ∧
      d.buff_idx ≠ c.buff_idx ∧
      (∀ t ∈ d.issued, t.buf = .local_a d.buff_idx ∨ t.buf = .local_b d.buff_idx ∨
        t.buf = .local_c d.c_buff_idx) ∧
      gemm_buf.local_a d.buff_idx ≠ c.a ∧ gemm_buf.local_b d.buff_idx ≠ c.b) ∧
    (∀ o c, (gemm_iteration args i).dma_out = some o →
      (gemm_iteration args i).compute = some c → o.i_k = args.k_tiles - 1 →
      o.i_dma_out = i - 2 ∧ o.c_move = true ∧ o.c_buff_idx ≠ c.c_buff_idx ∧
      (∀ t ∈ o.issued, t.buf ≠ c.c)) := by
  have hn := gemm_n_tiles_eval args h2
  constructor
  · intro d c hd hc
    simp only [gemm_iteration] at hd hc
    split_ifs at hd hc with h1 h3
    cases hd
    cases hc
    refine ⟨rfl, rfl, rfl, rfl, ?_, ?_, ?_, ?_⟩
    · simp only [gemm_dma_in_block, gemm_compute_block, ne_eq]
      omega
    · intro t ht
      simp only [gemm_dma_in_block, List.mem_cons, List.mem_singleton, List.not_mem_nil,
        or_false] at ht
      rcases ht with rfl | rfl | rfl
      · exact Or.inl rfl
      · exact Or.inr (Or.inl rfl)
      · exact Or.inr (Or.inr rfl)
    · simp only [gemm_dma_in_block, gemm_compute_block, ne_eq, gemm_buf.local_a.injEq]
      omega
    · simp only [gemm_dma_in_block, gemm_compute_block, ne_eq, gemm_buf.local_b.injEq]
      omega
  · intro o c ho hc hlast
    simp only [gemm_iteration] at ho hc
    split_ifs at ho hc with h1 h3
    cases ho
    cases hc
    rw [hn] at h3
    have hk : 0 < args.k_tiles := by
      rcases Nat.eq_zero_or_pos args.k_tiles with h0 | h0
      · rw [h0, Nat.mul_zero] at h3
        omega
      · exact h0
    have hm : 0 < args.m_tiles := by
      rcases Nat.eq_zero_or_pos args.m_tiles with h0 | h0
      · rw [h0, Nat.zero_mul] at h3
        omega
      · exact h0
    have hkle : args.k_tiles ≤ args.m_tiles * args.k_tiles := Nat.le_mul_of_pos_left _ hm
    have hku : u32 (args.k_tiles + 2 ^ 32 - 1) = args.k_tiles - 1 := by
      unfold u32
      omega
    simp only [gemm_dma_out_block] at hlast
    have hrow := last_k_tile_next_row (i - 2) args.k_tiles hk hlast
    have e : i - 2 + 1 = i - 1 := by omega
    rw [e] at hrow
    refine ⟨rfl, ?_, ?_, ?_⟩
    · simp only [gemm_dma_out_block, hku, hlast, decide_True]
    · simp only [gemm_dma_out_block, gemm_compute_block, hrow, ne_eq]
      omega
    · intro t ht
      simp only [gemm_dma_out_block, List.mem_singleton] at ht
      subst ht
      simp only [gemm_compute_block, hrow, ne_eq, gemm_buf.local_c.injEq]
      omega

/-- C28 on the tiled scenario (`m_tiles = k_tiles = 2`) at stage 3, which stores tile 1, the
last k-tile of m-row 0, loads tile 3 and computes tile 2. -/
theorem gemm_stage_slots_disjoint_witness :
    (∀ d c, (gemm_iteration gemm_args_tiled 3).dma_in = some d →
      (gemm_iteration gemm_args_tiled 3).compute = some c → d.buff_idx ≠ c.buff_idx) ∧
    (∀ o c, (gemm_iteration gemm_args_tiled 3).dma_out = some o →
      (gemm_iteration gemm_args_tiled 3).compute = some c →
      o.i_k = gemm_args_tiled.k_tiles - 1 → o.c_buff_idx ≠ c.c_buff_idx) :=
  have h := gemm_stage_slots_disjoint gemm_args_tiled 3 (by decide)
  ⟨fun d c hd hc => (h.1 d c hd hc).2.2.2.2.1, fun o c ho hc hl => (h.2 o c ho hc hl).2.2.1⟩

/-- C29: for `snrt_l1_alloc_compute_core_private(base, size)` on a cluster of `P` compute
cores, the regions `[ptr_i, ptr_i + size)` of two distinct cores `i ≠ j` below `P` have no
byte in common, every region lies inside `[base, new_base)`, and the regions together are
exactly `[base, new_base)`. -/
theorem snrt_l1_alloc_compute_core_private_tiling (cfg : snrt_config) (base size : Nat) :
    (∀ i j, i < cfg.compute_core_num → j < cfg.compute_core_num → i ≠ j → ∀ a,
      ¬ (((snrt_l1_alloc_compute_core_private cfg i base size).1 ≤ a ∧
          a < (snrt_l1_alloc_compute_core_private cfg i base size).1 + size) ∧
        ((snrt_l1_alloc_compute_core_private cfg j base size).1 ≤ a ∧
          a < (snrt_l1_alloc_compute_core_private cfg j base size).1 + size))) ∧
    (∀ i, i < cfg.compute_core_num →
      base ≤ (snrt_l1_alloc_compute_core_private cfg i base size).1 ∧
      (snrt_l1_alloc_compute_core_private cfg i base size).1 + size ≤
        (snrt_l1_alloc_compute_core_private cfg i base size).2) ∧
    (∀ i a, (base ≤ a ∧ a < (snrt_l1_alloc_compute_core_private cfg i base size).2) ↔
      ∃ j, j < cfg.compute_core_num ∧
        (snrt_l1_alloc_compute_core_private cfg j base size).1 ≤ a ∧
        a < (snrt_l1_alloc_compute_core_private cfg j base size).1 + size) := by
  simp only [snrt_l1_alloc_compute_core_private]
  refine ⟨?_, ?_, ?_⟩
  · intro i j _ _ hij a h
    rcases Nat.lt_or_gt_of_ne hij with hlt | hgt
    · have := mul_step_le size i j hlt
      omega
    · have := mul_step_le size j i hgt
      omega
  · intro i hi
    have := mul_step_le size i cfg.compute_core_num hi
    omega
  · intro _ a
    constructor
    · rintro ⟨h1, h2⟩
      have hpos : 0 < size := by
        rcases Nat.eq_zero_or_pos size with h0 | h0
        · rw [h0, Nat.zero_mul] at h2
          omega
        · exact h0
      have hdm := Nat.div_add_mod (a - base) size
      have hmod := Nat.mod_lt (a - base) hpos
      refine ⟨(a - base) / size, ?_, by omega, by omega⟩
      exact Nat.div_lt_of_lt_mul (by omega)
    · rintro ⟨j, hj, h1, h2⟩
      have := mul_step_le size j cfg.compute_core_num hj
      omega

/-- C27, the code at a failing input (one cluster of two compute cores, `n_iter = 1`): in the
iteration compute core 1 writes its `partial_centroids` in the update step (its steps 9 and
13) and compute core 0 reads them in the intra-cluster reduction (its step 17); both steps
lie between the same two global barriers, core 1 never enters the inter-cluster barrier and
no cluster barrier is called inside the loop, so no barrier that both cores enter separates
the read from the write, in either order. The peers' `partial_membership_cnt`, written
before the global barrier, are separated from core 0's read (step 14), and so are the
reduced buffers of a remote cluster from the read by cluster 0, by the inter-cluster
barrier. -/
theorem kmeans_peer_read_not_separated :
    (kmeans_steps cfg_1x2 0 1 1)[13]? = some (.write (.partial_centroids 0 1)) ∧
    (kmeans_steps cfg_1x2 0 0 1)[17]? = some (.read (.partial_centroids 0 1)) ∧
    ¬ barrier_between (kmeans_steps cfg_1x2 0 1 1) 0 13 (kmeans_steps cfg_1x2 0 0 1) 0 17 ∧
    ¬ barrier_between (kmeans_steps cfg_1x2 0 0 1) 0 17 (kmeans_steps cfg_1x2 0 1 1) 0 13 ∧
    ¬ kmeans_reads_separated cfg_1x2 1 ∧
    (kmeans_steps cfg_1x2 0 1 1)[7]? = some (.write (.partial_membership_cnt 0 1)) ∧
    (kmeans_steps cfg_1x2 0 0 1)[14]? = some (.read (.partial_membership_cnt 0 1)) ∧
    barrier_between (kmeans_steps cfg_1x2 0 1 1) 0 7 (kmeans_steps cfg_1x2 0 0 1) 0 14 ∧
    (kmeans_steps cfg_2x2 1 0 1)[19]? = some (.write (.partial_centroids 1 0)) ∧
    (kmeans_steps cfg_2x2 0 0 1)[24]? = some (.read (.partial_centroids 1 0)) ∧
    barrier_between (kmeans_steps cfg_2x2 1 0 1) 1 19 (kmeans_steps cfg_2x2 0 0 1) 0 24 := by
  refine ⟨by decide, by decide, by decide, by decide, ?_, by decide, by decide, by decide,
    by decide, by decide, by decide⟩
  intro h
  exact absurd (h 0 (by decide) 0 (by decide) 0 (by decide) 1 (by decide) (by decide)
    17 (by decide) 13 (by decide) (.partial_centroids 0 1) (by decide) (by decide)) (by decide)

/-- C31 fails as stated: with `gemm_op = 0` and the 8-bit `gemm_fmt = 8` the arithmetic word
is `8 << 7 = 1024`, so `arith >> 10` is 1, not `gemm_op`, and `(arith >> 7) & 0x7` is 0, not
`gemm_fmt`: the format spills into the op bits. -/
theorem redmule_cfg_fmt_spills :
    (redmule_cfg 0 0 0 0 0 0 0 8).arith = 1024 ∧
    ¬ ((redmule_cfg 0 0 0 0 0 0 0 8).arith >>> 10 = 0 ∧
       ((redmule_cfg 0 0 0 0 0 0 0 8).arith >>> 7) &&& 0x7 = 8) := by
  constructor
  · decide
  · decide

/-- C31, amended: for every 8-bit `gemm_op` and every `gemm_fmt` below 8 (a format of three
bits) the op and format fields of the arithmetic word written by `redmule_cfg` are recovered
independently: `arith >> 10 = gemm_op` and `(arith >> 7) & 0x7 = gemm_fmt`. -/
theorem redmule_cfg_arith_fields (x w z m_size n_size k_size gemm_op gemm_fmt : Nat)
    (hop : gemm_op < 2 ^ 8) (hfmt : gemm_fmt < 8) :
    (redmule_cfg x w z m_size n_size k_size gemm_op gemm_fmt).arith =
      gemm_op * 2 ^ 10 + gemm_fmt * 2 ^ 7 ∧
    (redmule_cfg x w z m_size n_size k_size gemm_op gemm_fmt).arith >>> 10 = gemm_op ∧
    ((redmule_cfg x w z m_size n_size k_size gemm_op gemm_fmt).arith >>> 7) &&& 0x7 =
      gemm_fmt := by
  have h0 : (redmule_cfg x w z m_size n_size k_size gemm_op gemm_fmt).arith =
      gemm_op * 2 ^ 10 + gemm_fmt * 2 ^ 7 := by
    simp only [redmule_cfg]
    have hf : gemm_fmt <<< 7 = gemm_fmt * 2 ^ 7 := Nat.shiftLeft_eq _ _
    rw [shl_or_eq_add gemm_op (gemm_fmt <<< 7) 10 (by rw [hf]; omega), hf,
      u32_of_lt (by omega)]
    omega
  refine ⟨h0, ?_, ?_⟩
  · rw [h0, Nat.shiftRight_eq_div_pow]
    omega
  · rw [h0, Nat.shiftRight_eq_div_pow]
    have e : (0x7 : Nat) = 2 ^ 3 - 1 := by norm_num
    rw [e, Nat.and_pow_two_sub_one_eq_mod]
    omega

/-- C31, amended, on `gemm_op = 0xFF` and `gemm_fmt = 7`. -/
theorem redmule_cfg_arith_fields_witness :
    (redmule_cfg 0 0 0 0 0 0 0xFF 7).arith >>> 10 = 0xFF ∧
    ((redmule_cfg 0 0 0 0 0 0 0xFF 7).arith >>> 7) &&& 0x7 = 7 :=
  (redmule_cfg_arith_fields 0 0 0 0 0 0 0xFF 7 (by decide) (by decide)).2

theorem axpy_core_writes {α : Type} [Mul α] [Add α] (C P q k i : Nat) (a : α) (m : Nat → α)
    (r : Nat) (hC : 0 < C) (hP : 0 < P) (hl : C * P * q < 2 ^ 31) (hk : k < C) (hi : i < P) :
    (axpy_owns C P (C * P * q) k i (axpy_job_offset C (C * P * q) k + r) →
      axpy P i (axpy_job_frac C (C * P * q)) a 0 (axpy_job_frac C (C * P * q))
          (axpy_job_frac C (C * P * q) + axpy_job_frac C (C * P * q)) m
          (axpy_job_frac C (C * P * q) + axpy_job_frac C (C * P * q) + r) =
        a * m r + m (axpy_job_frac C (C * P * q) + r)) ∧
    (¬ axpy_owns C P (C * P * q) k i (axpy_job_offset C (C * P * q) k + r) →
      axpy P i (axpy_job_frac C (C * P * q)) a 0 (axpy_job_frac C (C * P * q))
          (axpy_job_frac C (C * P * q) + axpy_job_frac C (C * P * q)) m
          (axpy_job_frac C (C * P * q) + axpy_job_frac C (C * P * q) + r) =
        m (axpy_job_frac C (C * P * q) + axpy_job_frac C (C * P * q) + r)) := by
  obtain ⟨h1, -, h3, -⟩ := axpy_index_eval C P q hC hP hl
  have hPq : P * q ≤ C * P * q := by
    calc P * q = 1 * (P * q) := by ring
      _ ≤ C * (P * q) := Nat.mul_le_mul_right _ hC
      _ = C * P * q := by ring
  have hiq : i * q + q ≤ P * q := step_mul_le q i P hi
  have hown : axpy_owns C P (C * P * q) k i (axpy_job_offset C (C * P * q) k + r) ↔
      i * q ≤ r ∧ r < i * q + q := by
    rw [axpy_owns_iff C P q k i _ hC hP hl hk hi, h3 k hk]
    have e : (k * P + i) * q = P * q * k + i * q := by ring
    rw [e]
    constructor <;> rintro ⟨h, h'⟩ <;> constructor <;> omega
  rw [hown, h1, axpy_eq P i q a _ _ _ m hP hi (by omega),
    axpy_loop_spec a 0 (P * q) (P * q + P * q) (i * q) q m (by omega) (by omega) q le_rfl]
  constructor
  · intro h
    rw [if_pos (by omega)]
    have e1 : 0 + (P * q + P * q + r - (P * q + P * q)) = r := by omega
    have e2 : P * q + (P * q + P * q + r - (P * q + P * q)) = P * q + r := by omega
    rw [e1, e2]
  · intro h
    rw [if_neg (by omega)]

theorem axpy_job_zero {α : Type} [Mul α] [Add α] (C P k : Nat) (a : α)
    (x y z tcdm : Nat → α) (j : Nat) :
    (axpy_job C P k ⟨0, a⟩ x y z tcdm).1 j = z j := by
  have h : axpy_job_frac C 0 = 0 := by
    simp [axpy_job_frac, u32]
  simp only [axpy_job, h, snrt_dma_start_1d, Nat.zero_mul]
  rw [if_neg]
  simp [u32, sizeof_double]

theorem axpy_fabric_zero {α : Type} [Mul α] [Add α] (C P : Nat) (a : α)
    (x y z : Nat → α) (tcdm : Nat → Nat → α) (j : Nat) :
    axpy_fabric C P ⟨0, a⟩ x y z tcdm j = z j := by
  unfold axpy_fabric
  have h : ∀ n, forLoop n (fun k z => (axpy_job C P k ⟨0, a⟩ x y z (tcdm k)).1) z j = z j := by
    intro n
    induction n with
    | zero => rfl
    | succ n ih => rw [forLoop_succ, axpy_job_zero, ih]
  exact h C

/-- C2: for every `L` divisible by `C * P` (and representable as an `int`), the index
ranges that `axpy_job` and `axpy` compute, cluster `k` the range `[k*(L/C), (k+1)*(L/C))` and
compute core `i` of it the sub-range of length `(L/C)/P` from `i*((L/C)/P)` on, are pairwise
disjoint over the pairs (cluster, core) and their union is exactly `[0, L)`. These are the
ranges of the code: in the TCDM layout of `axpy_job`, the kernel `axpy` on core `i` writes
`a * x + y` at the element `r` of `local_z` when `offset + r` is in its range and leaves
every other element as it was; `axpy_job` on cluster `k` writes the caller's `z` on the
range of the cluster and nowhere else; and after all clusters the caller's `z` holds
`a * x + y` on the union of the ranges and is unchanged elsewhere. -/
theorem axpy_partition (C P L : Nat) (hdiv : C * P ∣ L) (hL : L < 2 ^ 31) :
    (∀ k i j, k < C → i < P →
      (axpy_owns C P L k i j ↔
        k * (L / C) + i * (L / C / P) ≤ j ∧ j < k * (L / C) + i * (L / C / P) + L / C / P)) ∧
    (∀ k i k' i' j, k < C → i < P → k' < C → i' < P →
      axpy_owns C P L k i j → axpy_owns C P L k' i' j → k = k' ∧ i = i') ∧
    (∀ j, j < L ↔ ∃ k i, k < C ∧ i < P ∧ axpy_owns C P L k i j) ∧
    (∀ (α : Type) [Mul α] [Add α] (a : α) (m : Nat → α) (k i r : Nat), k < C → i < P →
      (axpy_owns C P L k i (axpy_job_offset C L k + r) →
        axpy P i (axpy_job_frac C L) a 0 (axpy_job_frac C L)
            (axpy_job_frac C L + axpy_job_frac C L) m
            (axpy_job_frac C L + axpy_job_frac C L + r) =
          a * m r + m (axpy_job_frac C L + r)) ∧
      (¬ axpy_owns C P L k i (axpy_job_offset C L k + r) →
        axpy P i (axpy_job_frac C L) a 0 (axpy_job_frac C L)
            (axpy_job_frac C L + axpy_job_frac C L) m
            (axpy_job_frac C L + axpy_job_frac C L + r) =
          m (axpy_job_frac C L + axpy_job_frac C L + r))) ∧
    (L * 8 < 2 ^ 32 →
      ∀ (α : Type) [Mul α] [Add α] (a : α) (x y z : Nat → α) (tcdm : Nat → Nat → α) (j : Nat),
        (∀ k, k < C →
          (k * (L / C) ≤ j ∧ j < k * (L / C) + L / C →
            (axpy_job C P k ⟨L, a⟩ x y z (tcdm k)).1 j = a * x j + y j) ∧
          (¬ (k * (L / C) ≤ j ∧ j < k * (L / C) + L / C) →
            (axpy_job C P k ⟨L, a⟩ x y z (tcdm k)).1 j = z j)) ∧
        ((∃ k i, k < C ∧ i < P ∧ axpy_owns C P L k i j) →
          axpy_fabric C P ⟨L, a⟩ x y z tcdm j = a * x j + y j) ∧
        ((¬ ∃ k i, k < C ∧ i < P ∧ axpy_owns C P L k i j) →
          axpy_fabric C P ⟨L, a⟩ x y z tcdm j = z j)) := by
  obtain ⟨hA, hB, hU⟩ := axpy_owns_partition C P L hdiv hL
  refine ⟨hA, hB, hU, ?_, ?_⟩
  · intro α _ _ a m k i r hk hi
    obtain ⟨q, rfl⟩ := hdiv
    exact axpy_core_writes C P q k i a m r (by omega) (by omega) hL hk hi
  · intro hfit α _ _ a x y z tcdm j
    rcases Nat.eq_zero_or_pos L with hL0 | hLpos
    · subst hL0
      refine ⟨?_, ?_, ?_⟩
      · intro k _
        constructor
        · intro h
          rw [Nat.zero_div] at h
          omega
        · intro _
          exact axpy_job_zero C P k a x y z (tcdm k) j
      · intro h
        exact absurd ((hU j).2 h) (by omega)
      · intro _
        exact axpy_fabric_zero C P a x y z tcdm j
    · have hC : 0 < C := by
        rcases Nat.eq_zero_or_pos C with h | h
        · subst h
          have : L = 0 := by simpa using hdiv
          omega
        · exact h
      have hP : 0 < P := by
        rcases Nat.eq_zero_or_pos P with h | h
        · subst h
          have : L = 0 := by simpa using hdiv
          omega
        · exact h
      obtain ⟨q, rfl⟩ := hdiv
      have e1 : C * P * q / C = P * q := by
        rw [Nat.mul_assoc]; exact Nat.mul_div_cancel_left _ hC
      refine ⟨?_, ?_, ?_⟩
      · intro k hk
        rw [axpy_job_spec C P q k a x y z (tcdm k) hC hP hfit hk j, e1, Nat.mul_comm k (P * q)]
        constructor
        · intro h
          rw [if_pos h]
        · intro h
          rw [if_neg h]
      · intro h
        have hj := (hU j).2 h
        unfold axpy_fabric
        rw [axpy_fabric_spec C P q a x y z tcdm hC hP hfit C le_rfl j, if_pos]
        calc j < C * P * q := hj
          _ = C * (P * q) := by ring
      · intro h
        have hj : ¬ j < C * P * q := fun hlt => h ((hU j).1 hlt)
        unfold axpy_fabric
        rw [axpy_fabric_spec C P q a x y z tcdm hC hP hfit C le_rfl j, if_neg]
        intro hlt
        apply hj
        calc j < C * (P * q) := hlt
          _ = C * P * q := by ring

/-- C2 at `L = 256`, `C = 2`, `P = 8`: the sixteen ranges cover exactly `[0, 256)`, and
core 3 of cluster 1 writes the element `3 * 16 + 5` of the cluster's `local_z` from the same
elements of `local_x` and `local_y` (a memory of integers, `a = 2`). -/
theorem axpy_partition_witness :
    2 * 8 ∣ 256 ∧ 256 < 2 ^ 31 ∧
    (∀ j, j < 256 ↔ ∃ k i, k < 2 ∧ i < 8 ∧ axpy_owns 2 8 256 k i j) ∧
    axpy_owns 2 8 256 1 3 (axpy_job_offset 2 256 1 + (3 * 16 + 5)) ∧
    axpy 8 3 (axpy_job_frac 2 256) (2 : Int) 0 (axpy_job_frac 2 256)
        (axpy_job_frac 2 256 + axpy_job_frac 2 256) (fun (j : Nat) => (j : Int))
        (axpy_job_frac 2 256 + axpy_job_frac 2 256 + (3 * 16 + 5)) =
      2 * (fun (j : Nat) => (j : Int)) (3 * 16 + 5) +
        (fun (j : Nat) => (j : Int)) (axpy_job_frac 2 256 + (3 * 16 + 5)) :=
  have h := axpy_partition 2 8 256 (by decide) (by decide)
  have hown : axpy_owns 2 8 256 1 3 (axpy_job_offset 2 256 1 + (3 * 16 + 5)) :=
    (h.1 1 3 _ (by decide) (by decide)).2 ⟨by decide, by decide⟩
  ⟨by decide, by decide, h.2.2.1, hown,
    (h.2.2.2.1 Int 2 (fun (j : Nat) => (j : Int)) 1 3 (3 * 16 + 5) (by decide) (by decide)).1
      hown⟩

end Snitch
